import Mathlib

/-!
# NLC bootloader: copy engine, transition handlers and launcher

A shallow embedding of `Core/Src/work.c`.  Global variables become fields of
`State`; calls into the flash driver, the serial link, the LED driver and the
partition store are recorded in `State.log`, in the order the C code issues
them.  The outcome of each driver call that the code inspects (page erase,
block verify, the first word of the application image) is supplied by an
`Env`, indexed by how many calls of that kind have been made so far.
-/

namespace NLC

/-- Constants and types that `work.c` uses but that are declared in other
headers (`flash.h`, `defines.h`).  `cbMod` is the number of values of the
integer type of the global `CurrentBlock` (`2^16` for `uint16_t`, `2^32` for
`uint32_t`). -/
structure Cfg where
  cbMod : Nat
  FLA_BLOCKSIZE : Nat
  FLA_BLOCKSPERPAGE : Nat
  FLA_MAINADDRESS : Nat
  FLA_ROLLBACKADDRESS : Nat
  FLA_UPGRADEADDRESS : Nat
  FLA_LENGTH : Nat
  deriving DecidableEq, Repr

/-- Partition status values (`fVALID`, ...); `fOTHER` stands for any stored
value that is none of the named ones. -/
inductive FlaStatus
  | fUNDEFINED | fVALID | fUPDATING | fROLLBACK | fUPDATED | fCORRUPT | fOTHER
  deriving DecidableEq, Repr

/-- Index into the partition table `FLA[]`. -/
inductive PartitionId
  | pApplication | pUpdate | pRollBack
  deriving DecidableEq, Repr

/-- One entry of the partition table `FLA[]`. -/
structure Partition where
  Status : FlaStatus
  Version : Nat
  NrOfBlocks : Nat
  deriving DecidableEq, Repr

/-- Values of the global `BootloaderStatus`. -/
inductive BlStatus
  | sUNKNOWN | sACTIVE | sIDLE | sUNITERROR
  deriving DecidableEq, Repr

/-- Message type handed to `SER_FillBuffer`; `noPayload` is a return message
sent without filling the buffer (`SER_SendReturnMessage (10, ...)`). -/
inductive MsgKind
  | noPayload | MTypeGetBootloaderStatus | MTypeGetBackupProgress
  | MTypeGetRestoreProgress | MTypeGetUpdateProgress
  deriving DecidableEq, Repr

/-- Status code handed to `SER_SendReturnMessage`. -/
inductive MStat
  | MStatNone | MStatSuccess | MStatImageNotValid | MStatErasePageError
  | MStatVerifyError | MStatCreateRollBackError
  deriving DecidableEq, Repr

/-- LED modes used by `work.c`. -/
inductive LedMode
  | BLINKING | SWITCHEDON
  deriving DecidableEq, Repr

/-- The two fixed texts sent with `HAL_UART_Transmit`: `restoreReady` is
"/10A291D01" (roll back handler), `updateReady` is "/10A22F101" (updating
handler). -/
inductive Token
  | restoreReady | updateReady
  deriving DecidableEq, Repr

/-- Observable actions, in program order.  `copyCall` and `copyRet` mark entry
to and return from `WRK_HandleCopyBlocks`; `report` carries the value of the
global `Progress` at the time the buffer is filled; `deinit` stands for the
de-initialisation sequence of `WRK_StartApplication` (lines 394-403). -/
inductive Event
  | wdgRefresh
  | erase (addr : Nat) (ok : Bool)
  | clearBuffer
  | read (addr : Nat)
  | write (addr : Nat)
  | verify (addr : Nat) (ok : Bool)
  | report (kind : MsgKind) (status : MStat) (progress : Nat)
  | led (mode : LedMode) (r g b : Nat)
  | ledHandle
  | delay (ms : Nat)
  | setStatus (p : PartitionId) (st : FlaStatus)
  | setVersion (p : PartitionId) (v : Nat)
  | token (t : Token)
  | wordRead (w : Nat)
  | copyCall (n src dst : Nat)
  | copyRet (r : Nat)
  | deinit
  | jump (msp : Nat)
  deriving DecidableEq, Repr

/-- Behaviour of the hardware: `eraseOk k` tells whether the `k`-th call of
`FLA_ErasePage` returns `HAL_OK`, `verifyOk k` whether the `k`-th call of
`FLA_VerifyBlock` returns non-zero, and `mainWord k` is the value of the
`k`-th read of the 32-bit word at `FLA_MAINADDRESS`. -/
structure Env where
  eraseOk : Nat → Bool
  verifyOk : Nat → Bool
  mainWord : Nat → Nat

/-- Global variables of the bootloader (`app`, `upd` and `rb` are the entries
`FLA[pApplication]`, `FLA[pUpdate]` and `FLA[pRollBack]`), the call counters
for `Env`, and the log of actions.  `jumped` is set once control has been
transferred to the application; no bootloader code runs after that. -/
structure State where
  app : Partition
  upd : Partition
  rb : Partition
  BootloaderStatus : BlStatus
  CurrentBlock : Nat
  Progress : Nat
  ProgressOld : Int
  UartReturn : Nat
  nErase : Nat
  nVerify : Nat
  nWord : Nat
  jumped : Bool
  log : List Event

/-- The assignment `BootloaderStatus = b`. -/
def State.setBootloaderStatus (s : State) (b : BlStatus) : State :=
  { s with BootloaderStatus := b }

/-- Append one action to the log. -/
def State.emit (s : State) (e : Event) : State :=
  { s with log := s.log ++ [e] }

/-- The build flag `#define STAYINBOOTLOADER 0` of `work.h`. -/
def STAYINBOOTLOADER : Nat := 0

/-- Modelled from the spec: `FLA_SetStatus` of the partition metadata store
(its body is not in `work.c`): records the status of one partition and leaves
every other field alone. -/
def FLA_SetStatus (p : PartitionId) (st : FlaStatus) (s : State) : State :=
  match p with
  | .pApplication => { s with app := { s.app with Status := st } }.emit (.setStatus p st)
  | .pUpdate => { s with upd := { s.upd with Status := st } }.emit (.setStatus p st)
  | .pRollBack => { s with rb := { s.rb with Status := st } }.emit (.setStatus p st)

/-- Modelled from the spec: `FLA_SetVersion` of the partition metadata store
(its body is not in `work.c`): records the version of one partition and leaves
every other field alone. -/
def FLA_SetVersion (p : PartitionId) (v : Nat) (s : State) : State :=
  match p with
  | .pApplication => { s with app := { s.app with Version := v } }.emit (.setVersion p v)
  | .pUpdate => { s with upd := { s.upd with Version := v } }.emit (.setVersion p v)
  | .pRollBack => { s with rb := { s.rb with Version := v } }.emit (.setVersion p v)

/-- A report: `SER_FillBuffer (10, kind)` followed by
`SER_SendReturnMessage (.., st)`. -/
def sendReport (kind : MsgKind) (st : MStat) (s : State) : State :=
  s.emit (.report kind st s.Progress)

/-- The fast blinking red fault indication
`LED_Set(STANDBYLED, BLINKING, 255, 0, 0, 50, 100, 100, 5, 0, 0)`. -/
def ledFault (s : State) : State :=
  s.emit (.led .BLINKING 255 0 0)

/-! ## The block copy engine -/

/-- The value stored by `CurrentBlock = 65535` in the width of
`CurrentBlock`. -/
def sentinel (c : Cfg) : Nat := 65535 % c.cbMod

/-- The address `base + (CurrentBlock * FLA_BLOCKSIZE)` as a `uint32_t`. -/
def blockAddr (c : Cfg) (base cb : Nat) : Nat :=
  (base + cb * c.FLA_BLOCKSIZE) % 2 ^ 32

/-- The value `((CurrentBlock + 1) * 100) / newNrOfBlocks` as stored in the
`uint16_t` variable `Progress`; the product is formed in 32 bits. -/
def progressOf (cb n : Nat) : Nat :=
  ((cb + 1) * 100) % 2 ^ 32 / n % 2 ^ 16

/-- The message type of a progress report, chosen from the source address
(`work.c` lines 82-87). -/
def progressKind (c : Cfg) (src : Nat) : MsgKind :=
  if src = c.FLA_MAINADDRESS then .MTypeGetBackupProgress
  else if src = c.FLA_ROLLBACKADDRESS then .MTypeGetRestoreProgress
  else .MTypeGetUpdateProgress

/-- The assignment `CurrentBlock = v`. -/
def State.setCurrentBlock (s : State) (v : Nat) : State :=
  { s with CurrentBlock := v }

/-- The page erase of one loop iteration (`work.c` lines 56-64): issued when
`CurrentBlock` is a multiple of `FLA_BLOCKSPERPAGE`; on failure the error is
reported and `CurrentBlock` is overwritten with 65535.  Execution continues
with the statements after the `if` in both cases. -/
def eraseStep (c : Cfg) (env : Env) (dstAddr : Nat) (s : State) : State :=
  if s.CurrentBlock % c.FLA_BLOCKSPERPAGE = 0 then
    if env.eraseOk s.nErase then
      { s with nErase := s.nErase + 1 }.emit (.erase dstAddr true)
    else
      (sendReport .noPayload .MStatErasePageError
        ({ s with nErase := s.nErase + 1 }.emit (.erase dstAddr false))).setCurrentBlock
        (sentinel c)
  else s

/-- The progress computation and report of one loop iteration (`work.c`
lines 78-90). -/
def progressStep (c : Cfg) (n src : Nat) (s : State) : State :=
  if (progressOf s.CurrentBlock n : Int) ≠ s.ProgressOld then
    sendReport (progressKind c src) .MStatSuccess
      { s with Progress := progressOf s.CurrentBlock n,
               ProgressOld := (progressOf s.CurrentBlock n : Int),
               UartReturn := 2 }
  else { s with Progress := progressOf s.CurrentBlock n }

/-- The read, write and verify of one loop iteration (`work.c` lines 66-91),
with the block addresses computed at the top of the body. -/
def transferStep (c : Cfg) (env : Env) (n src srcAddr dstAddr : Nat) (s : State) : State :=
  if env.verifyOk s.nVerify then
    progressStep c n src
      ({ (((s.emit .clearBuffer).emit (.read srcAddr)).emit (.write dstAddr)) with
          nVerify := s.nVerify + 1 }.emit (.verify dstAddr true))
  else
    (sendReport .noPayload .MStatVerifyError
      ({ (((s.emit .clearBuffer).emit (.read srcAddr)).emit (.write dstAddr)) with
          nVerify := s.nVerify + 1 }.emit (.verify dstAddr false))).setCurrentBlock (sentinel c)

/-- The body of the `for` loop of `WRK_HandleCopyBlocks` (`work.c` lines
52-91), without the increment. -/
def copyBody (c : Cfg) (env : Env) (n src dst : Nat) (s : State) : State :=
  transferStep c env n src (blockAddr c src s.CurrentBlock) (blockAddr c dst s.CurrentBlock)
    (eraseStep c env (blockAddr c dst s.CurrentBlock) (s.emit .wdgRefresh))

/-- One full iteration: the body, then the `CurrentBlock++` of the `for`
statement in the width of `CurrentBlock`. -/
def copyStep (c : Cfg) (env : Env) (n src dst : Nat) (s : State) : State :=
  (copyBody c env n src dst s).setCurrentBlock
    (((copyBody c env n src dst s).CurrentBlock + 1) % c.cbMod)

/-- At most `k` iterations of the `for` loop: stops as soon as the loop
condition `CurrentBlock < newNrOfBlocks` is false. -/
def copyRun (c : Cfg) (env : Env) (n src dst : Nat) : Nat → State → State
  | 0, s => s
  | k + 1, s =>
    if s.CurrentBlock < n then copyRun c env n src dst k (copyStep c env n src dst s) else s

/-- The `for` loop with a bound on the number of iterations: `none` when the
loop has not left after `fuel` iterations. -/
def copyLoop (c : Cfg) (env : Env) (n src dst fuel : Nat) (s : State) : Option State :=
  let s1 := copyRun c env n src dst fuel s
  if s1.CurrentBlock < n then none else some s1

/-- Entry of `WRK_HandleCopyBlocks`: `Progress = 0`, `ProgressOld = -1` and
the loop initialisation `CurrentBlock = 0`. -/
def copyInit (n src dst : Nat) (s : State) : State :=
  { s.emit (.copyCall n src dst) with Progress := 0, ProgressOld := -1, CurrentBlock := 0 }

/-- The last statement of `WRK_HandleCopyBlocks`:
`Result = (CurrentBlock == 65535) + 1`. -/
def copyResult (s : State) : Nat :=
  (if s.CurrentBlock = 65535 then 1 else 0) + 1

/-- Function `WRK_HandleCopyBlocks (newNrOfBlocks, newSourceAddress,
newDestinationAddress)`: returns `Result` (1 = OK, 2 = Error) and the new
state, or `none` when the loop does not end within `fuel` iterations. -/
def WRK_HandleCopyBlocks (c : Cfg) (env : Env) (fuel n src dst : Nat) (s : State) :
    Option (Nat × State) :=
  match copyLoop c env n src dst fuel (copyInit n src dst s) with
  | none => none
  | some s2 => some (copyResult s2, s2.emit (.copyRet (copyResult s2)))

/-! ## The launcher -/

/-- The check on the first word of the application image. -/
def imageWordOk (w : Nat) : Bool :=
  w &&& 0x2FFE0000 == 0x20000000

/-- A read of the 32-bit word at `FLA_MAINADDRESS`; the value read is
`env.mainWord s.nWord`. -/
def readMainWord (env : Env) (s : State) : State :=
  { s with nWord := s.nWord + 1 }.emit (.wordRead (env.mainWord s.nWord))

/-- The end of `WRK_StartApplication` (lines 405-413): the stack pointer is
read from `FLA_MAINADDRESS` and control goes to the reset handler of the
application.  The address of the reset handler, read from
`FLA_MAINADDRESS + 4`, is not part of the model. -/
def jumpToApplication (env : Env) (s : State) : State :=
  { readMainWord env s with jumped := true }.emit (.jump (env.mainWord s.nWord))

/-- Function `WRK_StartApplication`: stays in the bootloader when the flag is
set, the version is 0 or the first word of the image fails the check;
otherwise de-initialises, reads the stack pointer and jumps. -/
def WRK_StartApplication (env : Env) (s : State) : State :=
  if STAYINBOOTLOADER ≠ 0 then s
  else if s.app.Version = 0 then
    sendReport .MTypeGetBootloaderStatus .MStatImageNotValid
      (ledFault (FLA_SetStatus .pApplication .fUNDEFINED s))
  else if imageWordOk (env.mainWord s.nWord) = false then
    ledFault (sendReport .MTypeGetBootloaderStatus .MStatImageNotValid
      (FLA_SetVersion .pApplication 0
        (FLA_SetStatus .pApplication .fUNDEFINED (readMainWord env s))))
  else
    jumpToApplication env ((readMainWord env s).emit .deinit)

/-- Code that follows a call of `WRK_StartApplication` runs only when the
call returned. -/
def afterStart (s : State) (k : State → State) : State :=
  if s.jumped then s else k s

/-! ## The transition handlers -/

/-- Function `FLA_HandleCorrupt`: the fault indication and nothing else. -/
def FLA_HandleCorrupt (s : State) : State :=
  ledFault s

/-- The abort path of `FLA_HandleRollBack` (lines 119-127), which is also the
abort path of `FLA_HandleUpdating` after its first `LED_Set` (lines
176-184). -/
def abortAndStart (env : Env) (s : State) : State :=
  let s1 := s.setBootloaderStatus .sUNITERROR
  let s2 := if s1.app.Version > 0 then FLA_SetStatus .pApplication .fVALID s1 else s1
  let s3 := sendReport .MTypeGetBootloaderStatus .MStatImageNotValid s2
  afterStart (WRK_StartApplication env s3) ledFault

/-- The three statements that mark the Application as lost: status Corrupt,
version 0, fault indication (lines 156-158, 246-248, 296-298, 304-306). -/
def markCorrupt (s : State) : State :=
  ledFault (FLA_SetVersion .pApplication 0 (FLA_SetStatus .pApplication .fCORRUPT s))

/-- Function `FLA_HandleRollBack` up to its call of `WRK_HandleCopyBlocks` (lines
131-134). -/
def rollBackEntry (s : State) : State :=
  ((sendReport .MTypeGetBootloaderStatus .MStatNone s).emit (.led .SWITCHEDON 255 0 0)).emit
    .ledHandle

/-- Function `FLA_HandleRollBack` after a copy that returned 1, up to the call of
`WRK_StartApplication` (lines 140-150). -/
def rollBackDone (s : State) : State :=
  let s1 := s.setBootloaderStatus .sIDLE
  let s2 := FLA_SetStatus .pApplication .fUPDATED s1
  let s3 := FLA_SetVersion .pApplication s2.rb.Version s2
  let s4 := sendReport .MTypeGetBootloaderStatus .MStatNone s3
  s4.emit (.token .restoreReady)

/-- Function `FLA_HandleRollBack`; `none` when its copy does not end within
`fuel` iterations. -/
def FLA_HandleRollBack (c : Cfg) (env : Env) (fuel : Nat) (s : State) : Option State :=
  if s.rb.Status ≠ .fVALID then
    some (abortAndStart env s)
  else
    match WRK_HandleCopyBlocks c env fuel s.rb.NrOfBlocks c.FLA_ROLLBACKADDRESS
        c.FLA_MAINADDRESS (rollBackEntry s) with
    | none => none
    | some (Result, s1) =>
      if Result = 1 then some (WRK_StartApplication env (rollBackDone s1))
      else some (markCorrupt s1)

/-- The backup step of `FLA_HandleUpdating` (lines 194-214): returns
`Result` and the new state. -/
def backupStep (c : Cfg) (env : Env) (fuel : Nat) (s : State) : Option (Nat × State) :=
  if s.app.Version > 0 then
    if imageWordOk (env.mainWord s.nWord) then
      match WRK_HandleCopyBlocks c env fuel (c.FLA_LENGTH / c.FLA_BLOCKSIZE)
          c.FLA_MAINADDRESS c.FLA_ROLLBACKADDRESS
          (FLA_SetStatus .pRollBack .fUPDATING (readMainWord env s)) with
      | none => none
      | some (Result, s1) =>
        if Result = 1 then
          some (Result, FLA_SetVersion .pRollBack s1.app.Version
            (FLA_SetStatus .pRollBack .fVALID s1))
        else
          some (Result, ledFault (FLA_SetVersion .pRollBack 0
            (FLA_SetStatus .pRollBack .fCORRUPT s1)))
    else some (1, readMainWord env s)
  else some (1, s)

/-- Function `FLA_HandleUpdating` after an install copy that returned 1, up to the call
of `WRK_StartApplication` (lines 221-233). -/
def installDone (s : State) : State :=
  let s1 := s.emit (.led .SWITCHEDON 0 0 255)
  let s2 := s1.setBootloaderStatus .sIDLE
  let s3 := FLA_SetStatus .pApplication .fUPDATED s2
  let s4 := FLA_SetVersion .pApplication s3.upd.Version s3
  let s5 := s4.emit (.delay 100)
  let s6 := sendReport .MTypeGetBootloaderStatus .MStatSuccess s5
  s6.emit (.token .updateReady)

/-- The install step of `FLA_HandleUpdating` (lines 218-250). -/
def installStep (c : Cfg) (env : Env) (fuel : Nat) (s : State) : Option State :=
  match WRK_HandleCopyBlocks c env fuel s.upd.NrOfBlocks c.FLA_UPGRADEADDRESS
      c.FLA_MAINADDRESS s with
  | none => none
  | some (Result, s1) =>
    if Result = 1 then some (WRK_StartApplication env (installDone s1))
    else if s1.rb.Status = .fVALID then
      FLA_HandleRollBack c env fuel (FLA_SetStatus .pApplication .fROLLBACK s1)
    else some (markCorrupt s1)

/-- Function `FLA_HandleUpdating` up to the backup step (lines 188-191). -/
def updatingEntry (s : State) : State :=
  ((sendReport .MTypeGetBootloaderStatus .MStatNone s).emit (.led .SWITCHEDON 0 0 255)).emit
    .ledHandle

/-- Function `FLA_HandleUpdating` after a failed backup, up to the call of
`WRK_StartApplication` (lines 255-259). -/
def backupFailed (s : State) : State :=
  let s1 := sendReport .MTypeGetBootloaderStatus .MStatCreateRollBackError s
  if s1.app.Version > 0 then FLA_SetStatus .pApplication .fVALID s1 else s1

/-- Function `FLA_HandleUpdating`; `none` when one of its copies does not end
within `fuel` iterations. -/
def FLA_HandleUpdating (c : Cfg) (env : Env) (fuel : Nat) (s : State) : Option State :=
  if s.upd.Status ≠ .fVALID then
    some (abortAndStart env (ledFault s))
  else
    match backupStep c env fuel (updatingEntry s) with
    | none => none
    | some (Result, s1) =>
      if Result = 1 then installStep c env fuel s1
      else some (WRK_StartApplication env (backupFailed s1))

/-- Function `FLA_HandleUpdated` after a copy that returned 1, up to the call of
`WRK_StartApplication` (lines 283-290). -/
def updatedDone (s : State) : State :=
  let s1 := s.setBootloaderStatus .sIDLE
  let s2 := FLA_SetStatus .pApplication .fUPDATED s1
  let s3 := FLA_SetVersion .pApplication s2.rb.Version s2
  sendReport .MTypeGetBootloaderStatus .MStatNone s3

/-- Function `FLA_HandleUpdated`; `none` when its copy does not end within
`fuel` iterations. -/
def FLA_HandleUpdated (c : Cfg) (env : Env) (fuel : Nat) (s : State) : Option State :=
  if s.rb.Status = .fVALID then
    match WRK_HandleCopyBlocks c env fuel (c.FLA_LENGTH / c.FLA_BLOCKSIZE)
        c.FLA_ROLLBACKADDRESS c.FLA_MAINADDRESS
        ((s.emit (.led .SWITCHEDON 255 0 0)).emit .ledHandle) with
    | none => none
    | some (Result, s1) =>
      if Result = 1 then some (WRK_StartApplication env (updatedDone s1))
      else some (markCorrupt s1)
  else some (markCorrupt s)

/-- Function `WRK_Handle`, the dispatcher; `none` when a copy does not end
within `fuel` iterations. -/
def WRK_Handle (c : Cfg) (env : Env) (fuel : Nat) (s : State) : Option State :=
  let s1 := s.setBootloaderStatus .sACTIVE
  let s2 := sendReport .MTypeGetBootloaderStatus .MStatNone s1
  match s2.app.Status with
  | .fCORRUPT => some (FLA_HandleCorrupt s2)
  | .fUPDATING => FLA_HandleUpdating c env fuel s2
  | .fROLLBACK => FLA_HandleRollBack c env fuel s2
  | .fUPDATED => FLA_HandleUpdated c env fuel s2
  | .fVALID => some (WRK_StartApplication env s2)
  | .fUNDEFINED => some (WRK_StartApplication env s2)
  | .fOTHER => some (ledFault s2)

/-! ## Auxiliary notions used to state properties -/

/-- Events issued from inside the loop of `WRK_HandleCopyBlocks`. -/
def Event.isLoopEvent : Event → Bool
  | .wdgRefresh => true
  | .erase _ _ => true
  | .clearBuffer => true
  | .read _ => true
  | .write _ => true
  | .verify _ _ => true
  | .report .noPayload _ _ => true
  | .report .MTypeGetBackupProgress _ _ => true
  | .report .MTypeGetRestoreProgress _ _ => true
  | .report .MTypeGetUpdateProgress _ _ => true
  | _ => false

/-- The part of the state the copy engine never writes. -/
def State.ctrl (s : State) : Partition × Partition × Partition × BlStatus × Nat × Bool :=
  (s.app, s.upd, s.rb, s.BootloaderStatus, s.nWord, s.jumped)

/-- Every page erase and every block verify succeeds. -/
def Env.allOk (env : Env) : Prop :=
  (∀ k, env.eraseOk k = true) ∧ (∀ k, env.verifyOk k = true)

/-- The percentage carried by a progress report, `none` for other events. -/
def Event.progressValue : Event → Option Nat
  | .report .MTypeGetBackupProgress _ p => some p
  | .report .MTypeGetRestoreProgress _ p => some p
  | .report .MTypeGetUpdateProgress _ p => some p
  | _ => none

/-- The percentages reported in a log, in the order they were sent. -/
def progressValues (l : List Event) : List Nat :=
  l.filterMap Event.progressValue

/-! ## Concrete configurations, driver behaviours and states -/

/-- A configuration in which `CurrentBlock` is a `uint16_t`: blocks of 128
bytes, 16 blocks per page, partitions of 2 blocks. -/
def cfg16 : Cfg :=
  { cbMod := 2 ^ 16, FLA_BLOCKSIZE := 128, FLA_BLOCKSPERPAGE := 16,
    FLA_MAINADDRESS := 0x08010000, FLA_ROLLBACKADDRESS := 0x08040000,
    FLA_UPGRADEADDRESS := 0x08070000, FLA_LENGTH := 256 }

/-- The same configuration with `CurrentBlock` a `uint32_t`. -/
def cfg32 : Cfg :=
  { cfg16 with cbMod := 2 ^ 32 }

/-- A driver whose calls all succeed; the application image starts with a
plausible stack pointer. -/
def envAllOk : Env :=
  { eraseOk := fun _ => true, verifyOk := fun _ => true, mainWord := fun _ => 0x20001000 }

/-- A driver whose first page erase fails and whose other calls succeed. -/
def envEraseFailsFirst : Env :=
  { envAllOk with eraseOk := fun k => k != 0 }

/-- A driver whose first block verify fails and whose other calls succeed. -/
def envVerifyFailsFirst : Env :=
  { envAllOk with verifyOk := fun k => k != 0 }

/-- A state at reset: all counters zero, empty log, the three partitions as
given. -/
def bootState (app upd rb : Partition) : State :=
  { app := app, upd := upd, rb := rb, BootloaderStatus := .sUNKNOWN, CurrentBlock := 0,
    Progress := 0, ProgressOld := 0, UartReturn := 0, nErase := 0, nVerify := 0, nWord := 0,
    jumped := false, log := [] }

/-- A reset state whose partitions are all blank. -/
def blankState : State :=
  bootState ⟨.fUNDEFINED, 0, 0⟩ ⟨.fUNDEFINED, 0, 0⟩ ⟨.fUNDEFINED, 0, 0⟩

/-- The result and the log of a call of `WRK_HandleCopyBlocks`. -/
def resultAndLog (r : Option (Nat × State)) : Option (Nat × List Event) :=
  r.map (fun x => (x.1, x.2.log))

/-- Events that record a jump into the application. -/
def Event.isJump : Event → Bool
  | .jump _ => true
  | _ => false

/-- No jump has happened: the bootloader is still running. -/
def State.resident (s : State) : Prop :=
  s.jumped = false ∧ ∀ e ∈ s.log, Event.isJump e = false

/-- The state right after a jump that passed both launch checks: the
Application version is not 0, and the log ends with the read of a first word
`w` that passes the image check, the de-initialisation, the read of the stack
pointer and the jump; `w` is the value the hardware gave for that read, and
there is no earlier jump. -/
def State.jumpedChecked (env : Env) (s : State) : Prop :=
  s.jumped = true ∧ s.app.Version ≠ 0 ∧
  ∃ pre w msp, s.log = pre ++ [.wordRead w, .deinit, .wordRead msp, .jump msp] ∧
    imageWordOk w = true ∧ 2 ≤ s.nWord ∧ w = env.mainWord (s.nWord - 2) ∧
    ∀ e ∈ pre, Event.isJump e = false

/-- Either no jump has happened, or the one jump passed both checks. -/
def State.safe (env : Env) (s : State) : Prop :=
  s.resident ∨ s.jumpedChecked env

/-- A reset state with a valid Application of version 3 and two blocks. -/
def validState : State :=
  bootState ⟨.fVALID, 3, 2⟩ ⟨.fUNDEFINED, 0, 0⟩ ⟨.fUNDEFINED, 0, 0⟩

/-- Calls into the flash driver: page erase, block read, write and verify. -/
def Event.isFlashOp : Event → Bool
  | .erase _ _ => true
  | .read _ => true
  | .write _ => true
  | .verify _ _ => true
  | _ => false

/-- A reset state with Application marked Updating but without a version, and
no valid Update. -/
def updatingNoVersion : State :=
  bootState ⟨.fUPDATING, 0, 0⟩ ⟨.fUNDEFINED, 0, 0⟩ ⟨.fUNDEFINED, 0, 0⟩

/-- A reset state with Application marked Updating, version 3, and no valid
Update. -/
def updatingNoUpdate : State :=
  bootState ⟨.fUPDATING, 3, 2⟩ ⟨.fUNDEFINED, 0, 0⟩ ⟨.fUNDEFINED, 0, 0⟩

/-- A driver whose calls succeed while the application area is blank flash. -/
def envBlankImage : Env :=
  { envAllOk with mainWord := fun _ => 0xFFFFFFFF }

/-- A reset state with Application marked Updated (version 4) and no valid
RollBack. -/
def updatedNoRollBack : State :=
  bootState ⟨.fUPDATED, 4, 2⟩ ⟨.fVALID, 4, 2⟩ ⟨.fCORRUPT, 0, 0⟩

/-- The log of `t` is the log of `s` followed by events of class `K` only. -/
def LogExt (K : Event → Bool) (s t : State) : Prop :=
  ∃ evs, t.log = s.log ++ evs ∧ ∀ e ∈ evs, K e = true

/-- Events of a call of `WRK_HandleCopyBlocks`: the call and return markers
and the loop events. -/
def Event.isCopyEvent (e : Event) : Bool :=
  e.isLoopEvent ||
    match e with
    | .copyCall _ _ _ => true
    | .copyRet _ => true
    | _ => false

/-- Events `WRK_StartApplication` can issue. -/
def Event.isStartEvent : Event → Bool
  | .setStatus .pApplication .fUNDEFINED => true
  | .setVersion .pApplication 0 => true
  | .led .BLINKING 255 0 0 => true
  | .report .MTypeGetBootloaderStatus .MStatImageNotValid _ => true
  | .wordRead _ => true
  | .deinit => true
  | .jump _ => true
  | _ => false

/-- Events the backup step of `FLA_HandleUpdating` can issue. -/
def Event.isBackupEvent (e : Event) : Bool :=
  e.isCopyEvent ||
    match e with
    | .wordRead _ => true
    | .setStatus .pRollBack _ => true
    | .setVersion .pRollBack _ => true
    | .led .BLINKING 255 0 0 => true
    | _ => false

/-- Every event except the write of status Corrupt to the Application
entry. -/
def Event.notAppCorrupt : Event → Bool
  | .setStatus .pApplication .fCORRUPT => false
  | _ => true

/-- A reset state for an update whose Update image has 65535 blocks:
Application Updating with version 3, Update Valid with version 4, RollBack
not yet written and recorded with `rbBlocks` blocks. -/
def bigUpdateState (rbBlocks : Nat) : State :=
  bootState ⟨.fUPDATING, 3, 2⟩ ⟨.fVALID, 4, 65535⟩ ⟨.fUNDEFINED, 0, rbBlocks⟩

/-! ## Auxiliary notions for the properties of the handlers -/

/-- The flash operations of one loop iteration for block `i` when nothing
fails: the page erase when `i` is a multiple of `FLA_BLOCKSPERPAGE`, then
read, write and verify. -/
def blockOps (c : Cfg) (src dst i : Nat) : List Event :=
  (if i % c.FLA_BLOCKSPERPAGE = 0 then [Event.erase (blockAddr c dst i) true] else []) ++
    [.read (blockAddr c src i), .write (blockAddr c dst i), .verify (blockAddr c dst i) true]

/-- The flash operations for the `k` blocks `a`, `a + 1`, ..., `a + k - 1`, in
increasing order of the block index. -/
def opsFrom (c : Cfg) (src dst : Nat) : Nat → Nat → List Event
  | _, 0 => []
  | a, k + 1 => blockOps c src dst a ++ opsFrom c src dst (a + 1) k

/-- A driver whose every block verify fails (erases succeed). -/
def envVerifyFails : Env :=
  { envAllOk with verifyOk := fun _ => false }

/-- The log of `t` is the log of `s` followed by events that satisfy `P`. -/
def LogExtP (P : Event → Prop) (s t : State) : Prop :=
  ∃ evs, t.log = s.log ++ evs ∧ ∀ e ∈ evs, P e

/-- An erase or write targets one of the first `n` blocks counted from the
base address `dst`; other events are not restricted. -/
def Event.targets (c : Cfg) (dst n : Nat) : Event → Prop
  | .erase a _ => ∃ i, i < n ∧ a = blockAddr c dst i
  | .write a => ∃ i, i < n ∧ a = blockAddr c dst i
  | _ => True

/-- A loop event whose erase or write targets one of the first `n` blocks
counted from `dst`. -/
def Event.isLoopOn (c : Cfg) (dst n : Nat) (e : Event) : Prop :=
  Event.isLoopEvent e = true ∧ Event.targets c dst n e

/-- Events the handlers issue outside the copy engine: reports of the
bootloader status, LED calls, the delay, writes of the Application entry, the
token, and the events of the launcher.  None of them is a flash operation or
a write of the Update or RollBack entry. -/
def Event.isControl : Event → Bool
  | .report .MTypeGetBootloaderStatus _ _ => true
  | .led _ _ _ _ => true
  | .ledHandle => true
  | .delay _ => true
  | .setStatus .pApplication _ => true
  | .setVersion .pApplication _ => true
  | .token _ => true
  | .wordRead _ => true
  | .deinit => true
  | .jump _ => true
  | _ => false

/-- A control event, or an event of a copy whose erases and writes target one
of the first `n` blocks counted from `dst`. -/
def Event.inHandlerOn (c : Cfg) (dst n : Nat) (e : Event) : Prop :=
  Event.isControl e = true ∨ (Event.isCopyEvent e = true ∧ Event.targets c dst n e)

/-- Every event except the writes of the RollBack entry. -/
def Event.notRollBackWrite : Event → Bool
  | .setStatus .pRollBack _ => false
  | .setVersion .pRollBack _ => false
  | _ => true

/-- A layout in which the RollBack partition follows the Application
partition directly, with partitions of 2 blocks. -/
def cfgAdjacent : Cfg :=
  { cfg16 with FLA_ROLLBACKADDRESS := 0x08010100 }

/-- A reset state with Application marked RollBack and a Valid RollBack entry
that records 3 blocks. -/
def rollBackThreeBlocks : State :=
  bootState ⟨.fROLLBACK, 3, 2⟩ ⟨.fUNDEFINED, 0, 0⟩ ⟨.fVALID, 3, 3⟩

/-- A reset state with Application marked Updated and a Valid RollBack entry
of version 3. -/
def updatedWithRollBack : State :=
  bootState ⟨.fUPDATED, 4, 2⟩ ⟨.fVALID, 4, 2⟩ ⟨.fVALID, 3, 2⟩

/-- The address `a` lies inside the Application partition. -/
def Cfg.inApplication (c : Cfg) (a : Nat) : Prop :=
  c.FLA_MAINADDRESS ≤ a ∧ a < c.FLA_MAINADDRESS + c.FLA_LENGTH

/-- A reset state with Application marked Corrupt. -/
def corruptState : State :=
  bootState ⟨.fCORRUPT, 0, 0⟩ ⟨.fUNDEFINED, 0, 0⟩ ⟨.fVALID, 3, 2⟩

/-- The predicate of the partition table: Application version 0 implies
Application status Undefined or Corrupt. -/
def State.versionInv (s : State) : Prop :=
  s.app.Version = 0 → s.app.Status = .fUNDEFINED ∨ s.app.Status = .fCORRUPT

/-- Call markers of `WRK_HandleCopyBlocks`. -/
def Event.isCopyCall : Event → Bool
  | .copyCall _ _ _ => true
  | _ => false

/-- Handshake tokens on the second serial port. -/
def Event.isToken : Event → Bool
  | .token _ => true
  | _ => false

/-- A reset state with Application marked RollBack and a Valid RollBack entry
of version 3 with 2 blocks. -/
def rollBackState : State :=
  bootState ⟨.fROLLBACK, 4, 2⟩ ⟨.fVALID, 4, 2⟩ ⟨.fVALID, 3, 2⟩

/-- A reset state with Application marked RollBack and a Valid RollBack entry
that records 65535 blocks. -/
def bigRollBackState : State :=
  bootState ⟨.fROLLBACK, 4, 2⟩ ⟨.fVALID, 4, 2⟩ ⟨.fVALID, 3, 65535⟩

/-- A reset state for an update from version 3 to version 4: Application
Updating with version 3, Update Valid with version 4 and 10 blocks, RollBack
not yet written. -/
def updateState : State :=
  bootState ⟨.fUPDATING, 3, 2⟩ ⟨.fVALID, 4, 10⟩ ⟨.fUNDEFINED, 0, 0⟩

/-- The RollBack partition ends at or below `2 ^ 32` and does not overlap the
Application partition. -/
def Cfg.rollBackApart (c : Cfg) : Prop :=
  c.FLA_ROLLBACKADDRESS + c.FLA_LENGTH ≤ 2 ^ 32 ∧
  (c.FLA_ROLLBACKADDRESS + c.FLA_LENGTH ≤ c.FLA_MAINADDRESS ∨
    c.FLA_MAINADDRESS + c.FLA_LENGTH ≤ c.FLA_ROLLBACKADDRESS)

/-- An erase or write that targets an address inside the Application
partition. -/
def Event.hitsApplication (c : Cfg) : Event → Prop
  | .erase a _ => c.inApplication a
  | .write a => c.inApplication a
  | _ => False

/-- A configuration whose partitions have 65535 blocks of 128 bytes, with a
32-bit block counter. -/
def cfgBig : Cfg :=
  { cbMod := 2 ^ 32, FLA_BLOCKSIZE := 128, FLA_BLOCKSPERPAGE := 16,
    FLA_MAINADDRESS := 0x08000000, FLA_ROLLBACKADDRESS := 0x09000000,
    FLA_UPGRADEADDRESS := 0x0A000000, FLA_LENGTH := 8388480 }

/-- The effect of one logged action on the status and version of the RollBack
entry. -/
def rbStep (x : FlaStatus × Nat) : Event → FlaStatus × Nat
  | .setStatus .pRollBack st => (st, x.2)
  | .setVersion .pRollBack v => (x.1, v)
  | _ => x

/-- The status and version of the RollBack entry after the logged actions
`l`, starting from `x`. -/
def rbAfter (x : FlaStatus × Nat) (l : List Event) : FlaStatus × Nat :=
  l.foldl rbStep x

/-- The status and version of the RollBack entry. -/
def State.rbEntry (s : State) : FlaStatus × Nat :=
  (s.rb.Status, s.rb.Version)

/-- The state in which the backup copy of `FLA_HandleUpdating` is called. -/
def backupStart (env : Env) (s : State) : State :=
  FLA_SetStatus .pRollBack .fUPDATING (readMainWord env (updatingEntry s))

/-- The state in which the install copy of `FLA_HandleUpdating` is called
after a backup copy that returned 1 in state `t`. -/
def installStart (t : State) : State :=
  FLA_SetVersion .pRollBack t.app.Version (FLA_SetStatus .pRollBack .fVALID t)

/-- Return markers of `WRK_HandleCopyBlocks`. -/
def Event.isCopyRet : Event → Bool
  | .copyRet _ => true
  | _ => false

/-- The value returned by the last call of `WRK_HandleCopyBlocks` that
returned in the log `l`; `none` when no call returned. -/
def lastCopyRet : List Event → Option Nat
  | [] => none
  | e :: l =>
    match lastCopyRet l with
    | some r => some r
    | none =>
      match e with
      | .copyRet r => some r
      | _ => none

/-- The source address of the copy that precedes a token: the Update
partition for the token of the install step, the RollBack partition for the
token of the RollBack handler. -/
def tokenSrc (c : Cfg) : Token → Nat
  | .updateReady => c.FLA_UPGRADEADDRESS
  | .restoreReady => c.FLA_ROLLBACKADDRESS

/-- Events that are neither a token nor a call or return marker of the copy
engine. -/
def Event.isMute (e : Event) : Bool :=
  !e.isToken && !e.isCopyCall && !e.isCopyRet

/-- Events other than a token. -/
def Event.notToken (e : Event) : Bool :=
  !e.isToken

/-- A log with exactly one token `tk`, sent after a copy into
`FLA_MAINADDRESS` from `tokenSrc c tk` returned 1, with no other call of the
copy engine between that return and the token or after the token. -/
def TokenRun (c : Cfg) (tk : Token) (evs : List Event) : Prop :=
  ∃ a n l b1 b2,
    evs = a ++ (.copyCall n (tokenSrc c tk) c.FLA_MAINADDRESS :: l ++ .copyRet 1 :: b1) ++
      .token tk :: b2 ∧
    (∀ e ∈ a, Event.notToken e = true) ∧ (∀ e ∈ l, Event.isLoopEvent e = true) ∧
    (∀ e ∈ b1, Event.isMute e = true) ∧ (∀ e ∈ b2, Event.isMute e = true)

/-- A log without a token in which the last copy that returned, if any, did
not return 1. -/
def SilentRun (evs : List Event) : Prop :=
  (∀ e ∈ evs, Event.notToken e = true) ∧ lastCopyRet evs ≠ some 1

/-- A configuration with a 16-bit block counter and three partitions of 1536
blocks of 128 bytes that follow one another in flash. -/
def cfgPlain : Cfg :=
  { cbMod := 2 ^ 16, FLA_BLOCKSIZE := 128, FLA_BLOCKSPERPAGE := 16,
    FLA_MAINADDRESS := 0x08010000, FLA_ROLLBACKADDRESS := 0x08040000,
    FLA_UPGRADEADDRESS := 0x08070000, FLA_LENGTH := 0x30000 }

/-! ## Frame properties of the copy engine -/

theorem logExt_refl (K : Event → Bool) (s : State) : LogExt K s s :=
  ⟨[], by simp, by simp⟩

theorem logExt_trans {K : Event → Bool} {s t u : State} (h1 : LogExt K s t)
    (h2 : LogExt K t u) : LogExt K s u := by
  obtain ⟨e1, h1, p1⟩ := h1
  obtain ⟨e2, h2, p2⟩ := h2
  refine ⟨e1 ++ e2, by rw [h2, h1, List.append_assoc], ?_⟩
  intro e he
  rcases List.mem_append.mp he with h | h
  · exact p1 e h
  · exact p2 e h

theorem logExt_of_list {K : Event → Bool} {s t : State} (l : List Event)
    (h : t.log = s.log ++ l) (hl : ∀ e ∈ l, K e = true) : LogExt K s t :=
  ⟨l, h, hl⟩

theorem logExt_mono {K L : Event → Bool} {s t : State} (h : LogExt K s t)
    (hKL : ∀ e, K e = true → L e = true) : LogExt L s t := by
  obtain ⟨e1, h1, p1⟩ := h
  exact ⟨e1, h1, fun e he => hKL e (p1 e he)⟩

theorem logExt_emit (K : Event → Bool) (s : State) (e : Event) (he : K e = true) :
    LogExt K s (s.emit e) :=
  ⟨[e], rfl, by simpa using he⟩

theorem logExt_of_log_eq {K : Event → Bool} {s t u : State} (h : LogExt K s t)
    (hu : u.log = t.log) : LogExt K s u := by
  obtain ⟨e1, h1, p1⟩ := h
  exact ⟨e1, by rw [hu, h1], p1⟩

theorem progressKind_loop (c : Cfg) (src : Nat) (st : MStat) (p : Nat) :
    (Event.report (progressKind c src) st p).isLoopEvent = true := by
  unfold progressKind
  split_ifs <;> rfl

theorem eraseStep_ctrl (c : Cfg) (env : Env) (a : Nat) (s : State) :
    (eraseStep c env a s).ctrl = s.ctrl := by
  unfold eraseStep
  split_ifs <;> simp only [State.ctrl, State.emit, sendReport, State.setCurrentBlock]

theorem progressStep_ctrl (c : Cfg) (n src : Nat) (s : State) :
    (progressStep c n src s).ctrl = s.ctrl := by
  unfold progressStep
  split_ifs <;> simp only [State.ctrl, State.emit, sendReport]

theorem transferStep_ctrl (c : Cfg) (env : Env) (n src a b : Nat) (s : State) :
    (transferStep c env n src a b s).ctrl = s.ctrl := by
  unfold transferStep
  split_ifs
  · rw [progressStep_ctrl]; simp only [State.ctrl, State.emit]
  · simp only [State.ctrl, State.emit, sendReport, State.setCurrentBlock]

theorem copyBody_ctrl (c : Cfg) (env : Env) (n src dst : Nat) (s : State) :
    (copyBody c env n src dst s).ctrl = s.ctrl := by
  unfold copyBody
  rw [transferStep_ctrl, eraseStep_ctrl]; simp only [State.ctrl, State.emit]

theorem copyStep_ctrl (c : Cfg) (env : Env) (n src dst : Nat) (s : State) :
    (copyStep c env n src dst s).ctrl = s.ctrl := by
  rw [← copyBody_ctrl c env n src dst s]
  simp only [copyStep, State.ctrl, State.setCurrentBlock]

theorem copyRun_ctrl (c : Cfg) (env : Env) (n src dst : Nat) (k : Nat) (s : State) :
    (copyRun c env n src dst k s).ctrl = s.ctrl := by
  induction k generalizing s with
  | zero => rfl
  | succ k ih =>
    unfold copyRun
    split_ifs
    · rw [ih, copyStep_ctrl]
    · rfl

theorem eraseStep_log (c : Cfg) (env : Env) (a : Nat) (s : State) :
    LogExt Event.isLoopEvent s (eraseStep c env a s) := by
  unfold eraseStep
  split_ifs
  · exact ⟨[.erase a true], by simp only [State.emit], by simp [Event.isLoopEvent]⟩
  · exact ⟨[.erase a false, .report .noPayload .MStatErasePageError s.Progress],
      by simp [State.emit, sendReport, State.setCurrentBlock], by simp [Event.isLoopEvent]⟩
  · exact logExt_refl _ s

theorem progressStep_log (c : Cfg) (n src : Nat) (s : State) :
    LogExt Event.isLoopEvent s (progressStep c n src s) := by
  unfold progressStep
  split_ifs
  · exact ⟨[.report (progressKind c src) .MStatSuccess (progressOf s.CurrentBlock n)],
      by simp [State.emit, sendReport], by simp [progressKind_loop]⟩
  · exact ⟨[], by simp, by simp⟩

theorem transferStep_log (c : Cfg) (env : Env) (n src a b : Nat) (s : State) :
    LogExt Event.isLoopEvent s (transferStep c env n src a b s) := by
  unfold transferStep
  split_ifs
  · refine logExt_trans ?_ (progressStep_log c n src _)
    exact ⟨[.clearBuffer, .read a, .write b, .verify b true],
      by simp [State.emit], by simp [Event.isLoopEvent]⟩
  · exact ⟨[.clearBuffer, .read a, .write b, .verify b false,
      .report .noPayload .MStatVerifyError s.Progress],
      by simp [State.emit, sendReport, State.setCurrentBlock], by simp [Event.isLoopEvent]⟩

theorem copyBody_log (c : Cfg) (env : Env) (n src dst : Nat) (s : State) :
    LogExt Event.isLoopEvent s (copyBody c env n src dst s) := by
  unfold copyBody
  exact logExt_trans (logExt_emit _ s .wdgRefresh rfl)
    (logExt_trans (eraseStep_log c env _ _) (transferStep_log c env n src _ _ _))

theorem copyStep_log (c : Cfg) (env : Env) (n src dst : Nat) (s : State) :
    LogExt Event.isLoopEvent s (copyStep c env n src dst s) :=
  logExt_of_log_eq (copyBody_log c env n src dst s)
    (by simp only [copyStep, State.setCurrentBlock])

theorem copyRun_log (c : Cfg) (env : Env) (n src dst : Nat) (k : Nat) (s : State) :
    LogExt Event.isLoopEvent s (copyRun c env n src dst k s) := by
  induction k generalizing s with
  | zero => exact logExt_refl _ s
  | succ k ih =>
    unfold copyRun
    split_ifs
    · exact logExt_trans (copyStep_log c env n src dst s) (ih _)
    · exact logExt_refl _ s

/-! ## The loop counter and the result -/

theorem copyRun_succ_pos (c : Cfg) (env : Env) (n src dst : Nat) (k : Nat) (s : State)
    (h : s.CurrentBlock < n) :
    copyRun c env n src dst (k + 1) s = copyRun c env n src dst k (copyStep c env n src dst s) := by
  rw [copyRun, if_pos h]

theorem copyRun_of_exit (c : Cfg) (env : Env) (n src dst : Nat) (k : Nat) (s : State)
    (h : ¬ s.CurrentBlock < n) : copyRun c env n src dst k s = s := by
  cases k with
  | zero => rfl
  | succ k => rw [copyRun, if_neg h]

/-- Running `k + 1` iterations is running `k` and then one more, when the
loop has not been left. -/
theorem copyRun_snoc (c : Cfg) (env : Env) (n src dst : Nat) (k : Nat) (s : State) :
    copyRun c env n src dst (k + 1) s =
      if (copyRun c env n src dst k s).CurrentBlock < n
      then copyStep c env n src dst (copyRun c env n src dst k s)
      else copyRun c env n src dst k s := by
  induction k generalizing s with
  | zero =>
    by_cases h : s.CurrentBlock < n
    · rw [copyRun_succ_pos _ _ _ _ _ _ _ h]; simp [copyRun, h]
    · rw [copyRun_of_exit _ _ _ _ _ _ _ h]; simp [copyRun, h]
  | succ k ih =>
    by_cases h : s.CurrentBlock < n
    · rw [copyRun_succ_pos _ _ _ _ _ (k + 1) _ h, copyRun_succ_pos _ _ _ _ _ k _ h]
      exact ih _
    · rw [copyRun_of_exit _ _ _ _ _ _ _ h, copyRun_of_exit _ _ _ _ _ _ _ h, if_neg h]

theorem eraseStep_cb (c : Cfg) (env : Env) (a : Nat) (s : State) :
    (eraseStep c env a s).CurrentBlock = s.CurrentBlock ∨
    (eraseStep c env a s).CurrentBlock = sentinel c := by
  unfold eraseStep
  split_ifs <;> simp [State.emit, sendReport, State.setCurrentBlock]

theorem progressStep_cb (c : Cfg) (n src : Nat) (s : State) :
    (progressStep c n src s).CurrentBlock = s.CurrentBlock := by
  unfold progressStep
  split_ifs <;> simp only [State.emit, sendReport]

theorem transferStep_cb (c : Cfg) (env : Env) (n src a b : Nat) (s : State) :
    (transferStep c env n src a b s).CurrentBlock = s.CurrentBlock ∨
    (transferStep c env n src a b s).CurrentBlock = sentinel c := by
  unfold transferStep
  split_ifs
  · left; rw [progressStep_cb]; simp only [State.emit]
  · right; simp only [State.setCurrentBlock]

theorem copyBody_cb (c : Cfg) (env : Env) (n src dst : Nat) (s : State) :
    (copyBody c env n src dst s).CurrentBlock = s.CurrentBlock ∨
    (copyBody c env n src dst s).CurrentBlock = sentinel c := by
  unfold copyBody
  rcases transferStep_cb c env n src (blockAddr c src s.CurrentBlock)
    (blockAddr c dst s.CurrentBlock)
    (eraseStep c env (blockAddr c dst s.CurrentBlock) (s.emit .wdgRefresh)) with h | h
  · rcases eraseStep_cb c env (blockAddr c dst s.CurrentBlock) (s.emit .wdgRefresh) with h2 | h2
    · left; rw [h, h2]; simp only [State.emit]
    · right; rw [h, h2]
  · right; exact h

/-- After every iteration the counter is at most the block count, or it is the
incremented sentinel. -/
theorem copyStep_cb (c : Cfg) (env : Env) (n src dst : Nat) (s : State)
    (h : s.CurrentBlock < n) :
    (copyStep c env n src dst s).CurrentBlock ≤ n ∨
    (copyStep c env n src dst s).CurrentBlock = 65536 % c.cbMod := by
  simp only [copyStep, State.setCurrentBlock]
  rcases copyBody_cb c env n src dst s with h1 | h1
  · left
    rw [h1]
    exact le_trans (Nat.mod_le _ _) h
  · right
    rw [h1, sentinel, Nat.mod_add_mod]

theorem copyRun_cb (c : Cfg) (env : Env) (n src dst : Nat) (k : Nat) (s : State)
    (h : s.CurrentBlock ≤ n ∨ s.CurrentBlock = 65536 % c.cbMod) :
    (copyRun c env n src dst k s).CurrentBlock ≤ n ∨
    (copyRun c env n src dst k s).CurrentBlock = 65536 % c.cbMod := by
  induction k generalizing s with
  | zero => exact h
  | succ k ih =>
    unfold copyRun
    split_ifs with hg
    · exact ih _ (copyStep_cb c env n src dst s hg)
    · exact h

theorem incremented_sentinel_ne (M : Nat) (hM : 65535 < M) : 65536 % M ≠ 65535 := by
  rcases Nat.lt_or_ge 65536 M with h | h
  · rw [Nat.mod_eq_of_lt h]; omega
  · have : M = 65536 := by omega
    subst this
    decide

/-- What a returning call of `WRK_HandleCopyBlocks` looks like. -/
theorem WRK_HandleCopyBlocks_some {c : Cfg} {env : Env} {fuel n src dst : Nat} {s s' : State}
    {r : Nat} (h : WRK_HandleCopyBlocks c env fuel n src dst s = some (r, s')) :
    ¬ (copyRun c env n src dst fuel (copyInit n src dst s)).CurrentBlock < n ∧
    r = copyResult (copyRun c env n src dst fuel (copyInit n src dst s)) ∧
    s' = (copyRun c env n src dst fuel (copyInit n src dst s)).emit (.copyRet r) := by
  unfold WRK_HandleCopyBlocks copyLoop at h
  by_cases hg : (copyRun c env n src dst fuel (copyInit n src dst s)).CurrentBlock < n
  · simp [hg] at h
  · simp only [hg, if_false] at h
    simp only [Option.some.injEq, Prod.mk.injEq] at h
    obtain ⟨h1, h2⟩ := h
    exact ⟨hg, h1.symm, by rw [← h2, h1]⟩

theorem WRK_HandleCopyBlocks_of_exit (c : Cfg) (env : Env) (fuel n src dst : Nat) (s : State)
    (hg : ¬ (copyRun c env n src dst fuel (copyInit n src dst s)).CurrentBlock < n) :
    WRK_HandleCopyBlocks c env fuel n src dst s =
      some (copyResult (copyRun c env n src dst fuel (copyInit n src dst s)),
        (copyRun c env n src dst fuel (copyInit n src dst s)).emit
          (.copyRet (copyResult (copyRun c env n src dst fuel (copyInit n src dst s))))) := by
  unfold WRK_HandleCopyBlocks copyLoop
  simp only [hg, if_false]

theorem copyResult_cases (s : State) : copyResult s = 1 ∨ copyResult s = 2 := by
  unfold copyResult
  split_ifs <;> simp

theorem WRK_HandleCopyBlocks_result {c : Cfg} {env : Env} {fuel n src dst : Nat} {s s' : State}
    {r : Nat} (h : WRK_HandleCopyBlocks c env fuel n src dst s = some (r, s')) :
    r = 1 ∨ r = 2 := by
  rw [(WRK_HandleCopyBlocks_some h).2.1]
  exact copyResult_cases _

theorem WRK_HandleCopyBlocks_ctrl {c : Cfg} {env : Env} {fuel n src dst : Nat} {s s' : State}
    {r : Nat} (h : WRK_HandleCopyBlocks c env fuel n src dst s = some (r, s')) :
    s'.ctrl = s.ctrl := by
  rw [(WRK_HandleCopyBlocks_some h).2.2]
  have h1 := copyRun_ctrl c env n src dst fuel (copyInit n src dst s)
  simp only [State.ctrl, State.emit, copyInit] at h1 ⊢
  exact h1

/-- The log of a returning call: the call marker, loop events, the return
marker. -/
theorem WRK_HandleCopyBlocks_log {c : Cfg} {env : Env} {fuel n src dst : Nat} {s s' : State}
    {r : Nat} (h : WRK_HandleCopyBlocks c env fuel n src dst s = some (r, s')) :
    ∃ evs, s'.log = s.log ++ (.copyCall n src dst :: evs ++ [.copyRet r]) ∧
      ∀ e ∈ evs, Event.isLoopEvent e = true := by
  obtain ⟨evs, h1, h2⟩ := copyRun_log c env n src dst fuel (copyInit n src dst s)
  refine ⟨evs, ?_, h2⟩
  rw [(WRK_HandleCopyBlocks_some h).2.2]
  have h3 : (copyInit n src dst s).log = s.log ++ [.copyCall n src dst] := by
    simp only [copyInit, State.emit]
  simp only [State.emit, h1, h3]
  simp

/-- The only way `WRK_HandleCopyBlocks` returns 2 is that it was asked for
exactly 65535 blocks. -/
theorem WRK_HandleCopyBlocks_two {c : Cfg} {env : Env} {fuel n src dst : Nat} {s s' : State}
    (hM : 65535 < c.cbMod)
    (h : WRK_HandleCopyBlocks c env fuel n src dst s = some (2, s')) : n = 65535 := by
  obtain ⟨hg, hr, -⟩ := WRK_HandleCopyBlocks_some h
  have hJ := copyRun_cb c env n src dst fuel (copyInit n src dst s)
    (Or.inl (by simp [copyInit]))
  have hcb : (copyRun c env n src dst fuel (copyInit n src dst s)).CurrentBlock = 65535 := by
    unfold copyResult at hr
    split_ifs at hr with h5
    · exact h5
    · omega
  rcases hJ with h1 | h1
  · omega
  · exact absurd (h1.symm.trans hcb) (incremented_sentinel_ne _ hM)

/-! ## Runs in which every erase and verify succeeds -/

theorem progressValue_kind (c : Cfg) (src : Nat) (st : MStat) (p : Nat) :
    (Event.report (progressKind c src) st p).progressValue = some p := by
  unfold progressKind
  split_ifs <;> rfl

theorem progressOf_eq (k n : Nat) (hk : k < n) (hn : n ≤ 65535) :
    progressOf k n = (k + 1) * 100 / n := by
  unfold progressOf
  have h1 : (k + 1) * 100 < 2 ^ 32 := by norm_num; omega
  have h2 : (k + 1) * 100 / n ≤ 100 := by
    apply Nat.div_le_of_le_mul
    nlinarith
  rw [Nat.mod_eq_of_lt h1, Nat.mod_eq_of_lt (by norm_num; omega)]

/-- With all driver calls succeeding, the body up to the progress step leaves
the counter and the progress tracker alone and reports no percentage. -/
theorem copyBody_allOk (c : Cfg) (env : Env) (n src dst : Nat) (s : State) (hok : env.allOk) :
    ∃ t, copyBody c env n src dst s = progressStep c n src t ∧
      t.CurrentBlock = s.CurrentBlock ∧ t.ProgressOld = s.ProgressOld ∧
      ∃ evs, t.log = s.log ++ evs ∧ progressValues evs = [] := by
  unfold copyBody transferStep
  rw [if_pos (hok.2 _)]
  refine ⟨_, rfl, ?_⟩
  unfold eraseStep
  split_ifs with h1 h2
  · refine ⟨by simp only [State.emit], by simp only [State.emit], ?_⟩
    exact ⟨[.wdgRefresh, .erase (blockAddr c dst s.CurrentBlock) true, .clearBuffer,
      .read (blockAddr c src s.CurrentBlock), .write (blockAddr c dst s.CurrentBlock),
      .verify (blockAddr c dst s.CurrentBlock) true], by simp [State.emit],
      by simp [progressValues, Event.progressValue]⟩
  · exact absurd (hok.1 _) h2
  · refine ⟨by simp only [State.emit], by simp only [State.emit], ?_⟩
    exact ⟨[.wdgRefresh, .clearBuffer,
      .read (blockAddr c src s.CurrentBlock), .write (blockAddr c dst s.CurrentBlock),
      .verify (blockAddr c dst s.CurrentBlock) true], by simp [State.emit],
      by simp [progressValues, Event.progressValue]⟩

/-- The state after `k` iterations of a run in which nothing fails: counter,
progress tracker and the percentages reported so far. -/
theorem copyRun_allOk (c : Cfg) (env : Env) (n src dst : Nat) (s0 : State) (hok : env.allOk)
    (hn : n ≤ 65535) (hM : n < c.cbMod) (hcb : s0.CurrentBlock = 0) (hpo : s0.ProgressOld = -1)
    (k : Nat) (hk : k ≤ n) :
    (copyRun c env n src dst k s0).CurrentBlock = k ∧
    (copyRun c env n src dst k s0).ProgressOld =
      (if k = 0 then -1 else ((k * 100 / n : Nat) : Int)) ∧
    (0 < k → (copyRun c env n src dst k s0).Progress = k * 100 / n) ∧
    ∃ evs, (copyRun c env n src dst k s0).log = s0.log ++ evs ∧
      (progressValues evs).Sorted (· < ·) ∧
      (∀ p ∈ progressValues evs, (p : Int) ≤ (copyRun c env n src dst k s0).ProgressOld) ∧
      (0 < k → (progressValues evs).getLast? = some (k * 100 / n)) := by
  induction k with
  | zero =>
    refine ⟨hcb, by simpa using hpo, by simp, [], by simp [copyRun], ?_, ?_, by simp⟩
    · simp [progressValues]
    · simp [progressValues]
  | succ k ih =>
    obtain ⟨i1, i2, i3, evs, i4, i5, i6, i7⟩ := ih (by omega)
    have hlt : k < n := by omega
    rw [copyRun_snoc, if_pos (by rw [i1]; exact hlt)]
    obtain ⟨t, ht, t1, t2, evs1, t3, t4⟩ :=
      copyBody_allOk c env n src dst (copyRun c env n src dst k s0) hok
    have hp : progressOf t.CurrentBlock n = (k + 1) * 100 / n := by
      rw [t1, i1]; exact progressOf_eq k n hlt hn
    have hmono : k * 100 / n ≤ (k + 1) * 100 / n := Nat.div_le_div_right (by omega)
    have hold : t.ProgressOld ≤ (((k + 1) * 100 / n : Nat) : Int) := by
      rw [t2, i2]
      split_ifs
      · omega
      · exact_mod_cast hmono
    simp only [copyStep, State.setCurrentBlock, ht]
    unfold progressStep
    rw [hp]
    by_cases hne : (((k + 1) * 100 / n : Nat) : Int) ≠ t.ProgressOld
    · rw [if_pos hne]
      simp only [sendReport, State.emit]
      refine ⟨?_, by simp, by simp, ?_⟩
      · rw [t1, i1]; exact Nat.mod_eq_of_lt (by omega)
      · refine ⟨evs ++ evs1 ++ [.report (progressKind c src) .MStatSuccess ((k + 1) * 100 / n)],
          by rw [t3, i4]; simp, ?_, ?_, ?_⟩
        · simp only [progressValues, List.filterMap_append, List.filterMap_cons,
            List.filterMap_nil, progressValue_kind] at t4 i5 i6 ⊢
          rw [t4, List.append_nil]
          refine List.pairwise_append.mpr ⟨i5, by simp, ?_⟩
          intro a ha b hb
          have hb' : b = (k + 1) * 100 / n := by simpa using hb
          have h6 := i6 a ha
          rw [← t2] at h6
          have : (a : Int) < (((k + 1) * 100 / n : Nat) : Int) :=
            lt_of_le_of_ne (le_trans h6 hold) (fun h => hne (by rw [← h]; omega))
          rw [hb']
          exact_mod_cast this
        · simp only [progressValues, List.filterMap_append, List.filterMap_cons,
            List.filterMap_nil, progressValue_kind] at t4 i6 ⊢
          rw [t4, List.append_nil]
          intro p hp'
          rcases List.mem_append.mp hp' with h | h
          · have h6 := i6 p h
            rw [← t2] at h6
            exact le_trans h6 hold
          · have : p = (k + 1) * 100 / n := by simpa using h
            rw [this]
        · intro _
          simp only [progressValues, List.filterMap_append, List.filterMap_cons,
            List.filterMap_nil, progressValue_kind]
          simp
    · rw [if_neg hne]
      have heq : t.ProgressOld = (((k + 1) * 100 / n : Nat) : Int) := by
        by_contra h
        exact hne (fun h' => h h'.symm)
      have hk0 : 0 < k := by
        rcases Nat.eq_zero_or_pos k with h | h
        · rw [t2, i2, if_pos h] at heq; omega
        · exact h
      have hval : k * 100 / n = (k + 1) * 100 / n := by
        rw [t2, i2, if_neg (by omega)] at heq
        exact_mod_cast heq
      refine ⟨?_, by simpa using heq, by simp, ?_⟩
      · show (t.CurrentBlock + 1) % c.cbMod = k + 1
        rw [t1, i1]; exact Nat.mod_eq_of_lt (by omega)
      · refine ⟨evs ++ evs1, by show t.log = _; rw [t3, i4]; simp, ?_, ?_, ?_⟩
        · simp only [progressValues, List.filterMap_append] at t4 i5 ⊢
          rw [t4, List.append_nil]; exact i5
        · simp only [progressValues, List.filterMap_append] at t4 i6 ⊢
          rw [t4, List.append_nil]
          intro p hp'
          have := i6 p hp'
          rw [← t2] at this
          exact this
        · intro _
          simp only [progressValues, List.filterMap_append] at t4 i7 ⊢
          rw [t4, List.append_nil, i7 hk0, hval]

/-! ## The copy engine: results, aborts and progress (C1 to C5) -/

theorem copyRun_stable (c : Cfg) (env : Env) (n src dst : Nat) (k : Nat) (s : State)
    (h : ¬ (copyRun c env n src dst k s).CurrentBlock < n) (d : Nat) :
    copyRun c env n src dst (k + d) s = copyRun c env n src dst k s := by
  induction d with
  | zero => rfl
  | succ d ih =>
    rw [← Nat.add_assoc, copyRun_snoc, ih, if_neg h]

/-- C1, the code at a failing input: one block is requested and its verify
fails on the first call.  With a 32-bit `CurrentBlock` the sentinel 65535 is
incremented to 65536 before the result is computed, with a 16-bit one it wraps
to 0 and the block is copied again; either way the call returns 1 (OK)
although a verify failed. -/
theorem C1_failed_verify_returns_ok :
    resultAndLog (WRK_HandleCopyBlocks cfg32 envVerifyFailsFirst 1 1 0x08070000 0x08010000
      blankState) =
      some (1, [.copyCall 1 0x08070000 0x08010000,
        .wdgRefresh, .erase 0x08010000 true, .clearBuffer, .read 0x08070000,
        .write 0x08010000, .verify 0x08010000 false, .report .noPayload .MStatVerifyError 0,
        .copyRet 1]) ∧
    resultAndLog (WRK_HandleCopyBlocks cfg16 envVerifyFailsFirst 2 1 0x08070000 0x08010000
      blankState) =
      some (1, [.copyCall 1 0x08070000 0x08010000,
        .wdgRefresh, .erase 0x08010000 true, .clearBuffer, .read 0x08070000,
        .write 0x08010000, .verify 0x08010000 false, .report .noPayload .MStatVerifyError 0,
        .wdgRefresh, .erase 0x08010000 true, .clearBuffer, .read 0x08070000,
        .write 0x08010000, .verify 0x08010000 true,
        .report .MTypeGetUpdateProgress .MStatSuccess 100,
        .copyRet 1]) := by
  constructor <;> decide

/-- C2, the code at a failing input: the verify of block 0 fails on the first
call.  With a 32-bit `CurrentBlock` and 65538 blocks the loop goes on with
blocks 65536 and 65537; with a 16-bit `CurrentBlock` and 2 blocks it starts
again at block 0 and then copies block 1.  In both runs blocks after block 0
are erased, read, written and verified, and the call returns 1. -/
theorem C2_blocks_after_failed_verify :
    resultAndLog (WRK_HandleCopyBlocks cfg32 envVerifyFailsFirst 3 65538 0x08070000 0x08010000
      blankState) =
      some (1, [.copyCall 65538 0x08070000 0x08010000,
        .wdgRefresh, .erase 0x08010000 true, .clearBuffer, .read 0x08070000,
        .write 0x08010000, .verify 0x08010000 false, .report .noPayload .MStatVerifyError 0,
        .wdgRefresh, .erase 0x08810000 true, .clearBuffer, .read 0x08870000,
        .write 0x08810000, .verify 0x08810000 true,
        .report .MTypeGetUpdateProgress .MStatSuccess 99,
        .wdgRefresh, .clearBuffer, .read 0x08870080,
        .write 0x08810080, .verify 0x08810080 true,
        .report .MTypeGetUpdateProgress .MStatSuccess 100,
        .copyRet 1]) ∧
    resultAndLog (WRK_HandleCopyBlocks cfg16 envVerifyFailsFirst 3 2 0x08070000 0x08010000
      blankState) =
      some (1, [.copyCall 2 0x08070000 0x08010000,
        .wdgRefresh, .erase 0x08010000 true, .clearBuffer, .read 0x08070000,
        .write 0x08010000, .verify 0x08010000 false, .report .noPayload .MStatVerifyError 0,
        .wdgRefresh, .erase 0x08010000 true, .clearBuffer, .read 0x08070000,
        .write 0x08010000, .verify 0x08010000 true,
        .report .MTypeGetUpdateProgress .MStatSuccess 50,
        .wdgRefresh, .clearBuffer, .read 0x08070080,
        .write 0x08010080, .verify 0x08010080 true,
        .report .MTypeGetUpdateProgress .MStatSuccess 100,
        .copyRet 1]) := by
  constructor <;> decide

/-- C3, the code at a failing input: one block is requested and the page
erase of block 0 fails.  `ErasePageError` is reported, and then block 0 is
still read, written and verified, a progress report computed from the
overwritten counter (value 0) is sent, and the call returns 1 (OK); with a
16-bit `CurrentBlock` the block is then copied once more. -/
theorem C3_failed_erase_falls_through :
    resultAndLog (WRK_HandleCopyBlocks cfg32 envEraseFailsFirst 1 1 0x08070000 0x08010000
      blankState) =
      some (1, [.copyCall 1 0x08070000 0x08010000,
        .wdgRefresh, .erase 0x08010000 false, .report .noPayload .MStatErasePageError 0,
        .clearBuffer, .read 0x08070000, .write 0x08010000, .verify 0x08010000 true,
        .report .MTypeGetUpdateProgress .MStatSuccess 0,
        .copyRet 1]) ∧
    resultAndLog (WRK_HandleCopyBlocks cfg16 envEraseFailsFirst 2 1 0x08070000 0x08010000
      blankState) =
      some (1, [.copyCall 1 0x08070000 0x08010000,
        .wdgRefresh, .erase 0x08010000 false, .report .noPayload .MStatErasePageError 0,
        .clearBuffer, .read 0x08070000, .write 0x08010000, .verify 0x08010000 true,
        .report .MTypeGetUpdateProgress .MStatSuccess 0,
        .wdgRefresh, .erase 0x08010000 true, .clearBuffer, .read 0x08070000,
        .write 0x08010000, .verify 0x08010000 true,
        .report .MTypeGetUpdateProgress .MStatSuccess 100,
        .copyRet 1]) := by
  constructor <;> decide

/-- C4: for a block count from 1 to 65534, a `CurrentBlock` of at least 16
bits and a driver whose erases and verifies all succeed, the call returns 1
(OK) within `count` iterations, the percentages it reports are strictly
increasing, the last one is 100, and `Progress` ends at 100. -/
theorem C4_all_ok_progress (c : Cfg) (env : Env) (fuel n src dst : Nat) (s : State)
    (hM : 2 ^ 16 ≤ c.cbMod) (h1 : 1 ≤ n) (h2 : n < 65535) (hok : env.allOk)
    (hf : n ≤ fuel) :
    ∃ s' evs, WRK_HandleCopyBlocks c env fuel n src dst s = some (1, s') ∧
      s'.log = s.log ++ evs ∧
      (progressValues evs).Sorted (· < ·) ∧
      (progressValues evs).getLast? = some 100 ∧
      s'.Progress = 100 := by
  have hM' : n < c.cbMod := by norm_num at hM; omega
  obtain ⟨i1, -, i3, evs, i4, i5, -, i7⟩ :=
    copyRun_allOk c env n src dst (copyInit n src dst s) hok (by omega) hM'
      (by simp only [copyInit]) (by simp only [copyInit]) n (le_refl n)
  have hexit : ¬ (copyRun c env n src dst n (copyInit n src dst s)).CurrentBlock < n := by
    rw [i1]; omega
  have hrun : copyRun c env n src dst fuel (copyInit n src dst s) =
      copyRun c env n src dst n (copyInit n src dst s) := by
    obtain ⟨d, rfl⟩ := Nat.exists_eq_add_of_le hf
    exact copyRun_stable c env n src dst n _ hexit d
  have hcall := WRK_HandleCopyBlocks_of_exit c env fuel n src dst s (by rw [hrun]; exact hexit)
  rw [hrun] at hcall
  have hres : copyResult (copyRun c env n src dst n (copyInit n src dst s)) = 1 := by
    unfold copyResult
    rw [i1, if_neg (by omega)]
  rw [hres] at hcall
  have h100 : n * 100 / n = 100 := by
    rw [Nat.mul_comm]; exact Nat.mul_div_cancel 100 (by omega)
  refine ⟨_, .copyCall n src dst :: evs ++ [.copyRet 1], hcall, ?_, ?_, ?_, ?_⟩
  · have h3 : (copyInit n src dst s).log = s.log ++ [.copyCall n src dst] := by
      simp only [copyInit, State.emit]
    simp only [State.emit, i4, h3]
    simp
  · have : progressValues (.copyCall n src dst :: evs ++ [.copyRet 1]) = progressValues evs := by
      simp [progressValues, Event.progressValue]
    rw [this]; exact i5
  · have : progressValues (.copyCall n src dst :: evs ++ [.copyRet 1]) = progressValues evs := by
      simp [progressValues, Event.progressValue]
    rw [this, i7 (by omega), h100]
  · have := i3 (by omega)
    simp only [State.emit]
    rw [this, h100]

/-- C4 at a concrete input: three blocks on `cfg16` with a driver that never
fails. -/
theorem C4_all_ok_progress_witness :
    ∃ s' evs, WRK_HandleCopyBlocks cfg16 envAllOk 3 3 0x08070000 0x08010000 blankState =
        some (1, s') ∧
      s'.log = blankState.log ++ evs ∧
      (progressValues evs).Sorted (· < ·) ∧
      (progressValues evs).getLast? = some 100 ∧
      s'.Progress = 100 :=
  C4_all_ok_progress cfg16 envAllOk 3 3 0x08070000 0x08010000 blankState (by decide) (by decide)
    (by decide) ⟨fun _ => rfl, fun _ => rfl⟩ (by decide)

/-- C5, the code at a failing input: three blocks are requested and the page
erase of block 0 fails while its verify succeeds.  The percentage reported for
block 0 is computed from the overwritten counter 65535 and is 21845, not
`floor(1 * 100 / 3) = 33`. -/
theorem C5_progress_from_sentinel :
    resultAndLog (WRK_HandleCopyBlocks cfg32 envEraseFailsFirst 1 3 0x08070000 0x08010000
      blankState) =
      some (1, [.copyCall 3 0x08070000 0x08010000,
        .wdgRefresh, .erase 0x08010000 false, .report .noPayload .MStatErasePageError 0,
        .clearBuffer, .read 0x08070000, .write 0x08010000, .verify 0x08010000 true,
        .report .MTypeGetUpdateProgress .MStatSuccess 21845,
        .copyRet 1]) ∧
    resultAndLog (WRK_HandleCopyBlocks cfg16 envEraseFailsFirst 4 3 0x08070000 0x08010000
      blankState) =
      some (1, [.copyCall 3 0x08070000 0x08010000,
        .wdgRefresh, .erase 0x08010000 false, .report .noPayload .MStatErasePageError 0,
        .clearBuffer, .read 0x08070000, .write 0x08010000, .verify 0x08010000 true,
        .report .MTypeGetUpdateProgress .MStatSuccess 21845,
        .wdgRefresh, .erase 0x08010000 true, .clearBuffer, .read 0x08070000,
        .write 0x08010000, .verify 0x08010000 true,
        .report .MTypeGetUpdateProgress .MStatSuccess 33,
        .wdgRefresh, .clearBuffer, .read 0x08070080,
        .write 0x08010080, .verify 0x08010080 true,
        .report .MTypeGetUpdateProgress .MStatSuccess 66,
        .wdgRefresh, .clearBuffer, .read 0x08070100,
        .write 0x08010100, .verify 0x08010100 true,
        .report .MTypeGetUpdateProgress .MStatSuccess 100,
        .copyRet 1]) := by
  constructor <;> decide

/-! ## The launcher (C6, C7) -/

theorem WRK_StartApplication_version_zero (env : Env) (s : State) (h : s.app.Version = 0) :
    WRK_StartApplication env s =
      sendReport .MTypeGetBootloaderStatus .MStatImageNotValid
        (ledFault (FLA_SetStatus .pApplication .fUNDEFINED s)) := by
  unfold WRK_StartApplication
  rw [if_neg (by simp [STAYINBOOTLOADER]), if_pos h]

theorem WRK_StartApplication_bad_word (env : Env) (s : State) (h : s.app.Version ≠ 0)
    (hw : imageWordOk (env.mainWord s.nWord) = false) :
    WRK_StartApplication env s =
      ledFault (sendReport .MTypeGetBootloaderStatus .MStatImageNotValid
        (FLA_SetVersion .pApplication 0
          (FLA_SetStatus .pApplication .fUNDEFINED (readMainWord env s)))) := by
  unfold WRK_StartApplication
  rw [if_neg (by simp [STAYINBOOTLOADER]), if_neg h, if_pos hw]

theorem WRK_StartApplication_jump (env : Env) (s : State) (h : s.app.Version ≠ 0)
    (hw : imageWordOk (env.mainWord s.nWord) = true) :
    WRK_StartApplication env s =
      jumpToApplication env ((readMainWord env s).emit .deinit) := by
  unfold WRK_StartApplication
  rw [if_neg (by simp [STAYINBOOTLOADER]), if_neg h, if_neg (by simp [hw])]

/-- C6: with Application version 0, `WRK_StartApplication` sets the
Application status to Undefined, raises the fault indication, reports
`ImageNotValid` once and returns: nothing else is logged (no word read, no
de-initialisation, no jump), the jump flag, the Application version and block
count, and the Update and RollBack partitions are unchanged. -/
theorem C6_version_zero_refuses_launch (env : Env) (s : State) (h : s.app.Version = 0) :
    (WRK_StartApplication env s).log =
      s.log ++ [.setStatus .pApplication .fUNDEFINED, .led .BLINKING 255 0 0,
        .report .MTypeGetBootloaderStatus .MStatImageNotValid s.Progress] ∧
    (WRK_StartApplication env s).jumped = s.jumped ∧
    (WRK_StartApplication env s).app.Status = .fUNDEFINED ∧
    (WRK_StartApplication env s).app.Version = s.app.Version ∧
    (WRK_StartApplication env s).app.NrOfBlocks = s.app.NrOfBlocks ∧
    (WRK_StartApplication env s).upd = s.upd ∧
    (WRK_StartApplication env s).rb = s.rb := by
  rw [WRK_StartApplication_version_zero env s h]
  simp [sendReport, ledFault, FLA_SetStatus, State.emit]

/-- C6 at a concrete input: the blank reset state, whose Application version
is 0. -/
theorem C6_version_zero_refuses_launch_witness :
    (WRK_StartApplication envAllOk blankState).log =
      blankState.log ++ [.setStatus .pApplication .fUNDEFINED, .led .BLINKING 255 0 0,
        .report .MTypeGetBootloaderStatus .MStatImageNotValid blankState.Progress] ∧
    (WRK_StartApplication envAllOk blankState).jumped = blankState.jumped ∧
    (WRK_StartApplication envAllOk blankState).app.Status = .fUNDEFINED ∧
    (WRK_StartApplication envAllOk blankState).app.Version = blankState.app.Version ∧
    (WRK_StartApplication envAllOk blankState).app.NrOfBlocks = blankState.app.NrOfBlocks ∧
    (WRK_StartApplication envAllOk blankState).upd = blankState.upd ∧
    (WRK_StartApplication envAllOk blankState).rb = blankState.rb :=
  C6_version_zero_refuses_launch envAllOk blankState (by decide)

theorem resident_emit {s : State} (h : s.resident) (e : Event) (he : e.isJump = false) :
    (s.emit e).resident := by
  refine ⟨h.1, ?_⟩
  intro x hx
  simp only [State.emit, List.mem_append, List.mem_singleton] at hx
  rcases hx with hx | hx
  · exact h.2 x hx
  · rw [hx]; exact he

theorem resident_setBootloaderStatus {s : State} (h : s.resident) (b : BlStatus) :
    (s.setBootloaderStatus b).resident := h

theorem resident_setStatus {s : State} (h : s.resident) (p : PartitionId) (st : FlaStatus) :
    (FLA_SetStatus p st s).resident := by
  cases p <;> exact resident_emit (s := _) h _ rfl

theorem resident_setVersion {s : State} (h : s.resident) (p : PartitionId) (v : Nat) :
    (FLA_SetVersion p v s).resident := by
  cases p <;> exact resident_emit (s := _) h _ rfl

theorem resident_sendReport {s : State} (h : s.resident) (k : MsgKind) (st : MStat) :
    (sendReport k st s).resident :=
  resident_emit h _ rfl

theorem resident_ledFault {s : State} (h : s.resident) : (ledFault s).resident :=
  resident_emit h _ rfl

theorem resident_readMainWord {s : State} (h : s.resident) (env : Env) :
    (readMainWord env s).resident :=
  resident_emit (s := { s with nWord := s.nWord + 1 }) h _ rfl

theorem resident_copy {c : Cfg} {env : Env} {fuel n src dst : Nat} {s s' : State} {r : Nat}
    (hs : s.resident) (h : WRK_HandleCopyBlocks c env fuel n src dst s = some (r, s')) :
    s'.resident := by
  have h1 := WRK_HandleCopyBlocks_ctrl h
  obtain ⟨evs, h2, h3⟩ := WRK_HandleCopyBlocks_log h
  simp only [State.ctrl, Prod.mk.injEq] at h1
  refine ⟨by rw [h1.2.2.2.2.2]; exact hs.1, ?_⟩
  intro e he
  rw [h2] at he
  simp only [List.mem_append, List.mem_cons, List.mem_singleton] at he
  rcases he with he | (he | he) | he
  · exact hs.2 e he
  · rw [he]; rfl
  · have := h3 e he
    cases e <;> simp_all [Event.isLoopEvent, Event.isJump]
  · have he' : e = .copyRet r := by simpa using he
    rw [he']; rfl

/-- From a state in which no jump has happened, `WRK_StartApplication`
either returns, or jumps after both checks passed. -/
theorem WRK_StartApplication_safe (env : Env) {s : State} (h : s.resident) :
    (WRK_StartApplication env s).safe env := by
  by_cases hv : s.app.Version = 0
  · left
    rw [WRK_StartApplication_version_zero env s hv]
    exact resident_sendReport (resident_ledFault (resident_setStatus h _ _)) _ _
  · by_cases hw : imageWordOk (env.mainWord s.nWord) = true
    · right
      rw [WRK_StartApplication_jump env s hv hw]
      refine ⟨by simp [jumpToApplication, State.emit],
        by simpa [jumpToApplication, readMainWord, State.emit] using hv,
        s.log, env.mainWord s.nWord, env.mainWord (s.nWord + 1), ?_, hw, ?_, ?_, h.2⟩
      · simp [jumpToApplication, readMainWord, State.emit]
      · simp [jumpToApplication, readMainWord, State.emit]
      · simp [jumpToApplication, readMainWord, State.emit]
    · left
      rw [WRK_StartApplication_bad_word env s hv (by simpa using hw)]
      exact resident_ledFault (resident_sendReport (resident_setVersion
        (resident_setStatus (resident_readMainWord h env) _ _) _ _) _ _)

theorem afterStart_safe (env : Env) {s : State} (h : s.safe env) (k : State → State)
    (hk : ∀ t : State, t.resident → (k t).resident) : (afterStart s k).safe env := by
  unfold afterStart
  rcases h with h | h
  · rw [if_neg (by simp [h.1])]
    exact Or.inl (hk s h)
  · rw [if_pos h.1]
    exact Or.inr h

theorem abortAndStart_safe (env : Env) {s : State} (h : s.resident) :
    (abortAndStart env s).safe env := by
  simp only [abortAndStart]
  apply afterStart_safe env _ ledFault (fun t ht => resident_ledFault ht)
  apply WRK_StartApplication_safe
  apply resident_sendReport
  split_ifs
  · exact resident_setStatus (resident_setBootloaderStatus h _) _ _
  · exact resident_setBootloaderStatus h _

theorem resident_markCorrupt {s : State} (h : s.resident) : (markCorrupt s).resident :=
  resident_ledFault (resident_setVersion (resident_setStatus h _ _) _ _)

theorem resident_rollBackEntry {s : State} (h : s.resident) : (rollBackEntry s).resident :=
  resident_emit (resident_emit (resident_sendReport h _ _) _ (by rfl)) _ (by rfl)

theorem resident_rollBackDone {s : State} (h : s.resident) : (rollBackDone s).resident :=
  resident_emit (resident_sendReport (resident_setVersion (resident_setStatus
    (resident_setBootloaderStatus h _) _ _) _ _) _ _) _ (by rfl)

theorem resident_installDone {s : State} (h : s.resident) : (installDone s).resident :=
  resident_emit (resident_sendReport (resident_emit (resident_setVersion
    (resident_setStatus (resident_setBootloaderStatus (resident_emit h _ (by rfl)) _)
      _ _) _ _) _ (by rfl)) _ _) _ (by rfl)

theorem resident_updatingEntry {s : State} (h : s.resident) : (updatingEntry s).resident :=
  resident_emit (resident_emit (resident_sendReport h _ _) _ (by rfl)) _ (by rfl)

theorem resident_backupFailed {s : State} (h : s.resident) : (backupFailed s).resident := by
  simp only [backupFailed]
  split_ifs
  · exact resident_setStatus (resident_sendReport h _ _) _ _
  · exact resident_sendReport h _ _

theorem resident_updatedDone {s : State} (h : s.resident) : (updatedDone s).resident :=
  resident_sendReport (resident_setVersion (resident_setStatus
    (resident_setBootloaderStatus h _) _ _) _ _) _ _

theorem FLA_HandleRollBack_safe {c : Cfg} {env : Env} {fuel : Nat} {s s' : State}
    (hs : s.resident) (h : FLA_HandleRollBack c env fuel s = some s') : s'.safe env := by
  unfold FLA_HandleRollBack at h
  split_ifs at h with h1
  · simp only [Option.some.injEq] at h
    rw [← h]; exact abortAndStart_safe env hs
  · split at h
    · exact absurd h (by simp)
    · rename_i r t hc
      have ht : t.resident := resident_copy (resident_rollBackEntry hs) hc
      split_ifs at h
      · simp only [Option.some.injEq] at h
        rw [← h]
        exact WRK_StartApplication_safe env (resident_rollBackDone ht)
      · simp only [Option.some.injEq] at h
        rw [← h]
        exact Or.inl (resident_markCorrupt ht)

theorem backupStep_resident {c : Cfg} {env : Env} {fuel : Nat} {s s' : State} {r : Nat}
    (hs : s.resident) (h : backupStep c env fuel s = some (r, s')) : s'.resident := by
  unfold backupStep at h
  split_ifs at h with h1 h2
  · split at h
    · exact absurd h (by simp)
    · rename_i r1 t hc
      have ht : t.resident :=
        resident_copy (resident_setStatus (resident_readMainWord hs env) _ _) hc
      split_ifs at h
      · simp only [Option.some.injEq, Prod.mk.injEq] at h
        rw [← h.2]
        exact resident_setVersion (resident_setStatus ht _ _) _ _
      · simp only [Option.some.injEq, Prod.mk.injEq] at h
        rw [← h.2]
        exact resident_ledFault (resident_setVersion (resident_setStatus ht _ _) _ _)
  · simp only [Option.some.injEq, Prod.mk.injEq] at h
    rw [← h.2]
    exact resident_readMainWord hs env
  · simp only [Option.some.injEq, Prod.mk.injEq] at h
    rw [← h.2]
    exact hs

theorem installStep_safe {c : Cfg} {env : Env} {fuel : Nat} {s s' : State}
    (hs : s.resident) (h : installStep c env fuel s = some s') : s'.safe env := by
  unfold installStep at h
  split at h
  · exact absurd h (by simp)
  · rename_i r t hc
    have ht : t.resident := resident_copy hs hc
    split_ifs at h with h1 h2
    · simp only [Option.some.injEq] at h
      rw [← h]
      exact WRK_StartApplication_safe env (resident_installDone ht)
    · exact FLA_HandleRollBack_safe (resident_setStatus ht _ _) h
    · simp only [Option.some.injEq] at h
      rw [← h]
      exact Or.inl (resident_markCorrupt ht)

theorem FLA_HandleUpdating_safe {c : Cfg} {env : Env} {fuel : Nat} {s s' : State}
    (hs : s.resident) (h : FLA_HandleUpdating c env fuel s = some s') : s'.safe env := by
  unfold FLA_HandleUpdating at h
  split_ifs at h with h1
  · simp only [Option.some.injEq] at h
    rw [← h]; exact abortAndStart_safe env (resident_ledFault hs)
  · split at h
    · exact absurd h (by simp)
    · rename_i r t hb
      have ht : t.resident := backupStep_resident (resident_updatingEntry hs) hb
      split_ifs at h with h2
      · exact installStep_safe ht h
      · simp only [Option.some.injEq] at h
        rw [← h]
        exact WRK_StartApplication_safe env (resident_backupFailed ht)

theorem FLA_HandleUpdated_safe {c : Cfg} {env : Env} {fuel : Nat} {s s' : State}
    (hs : s.resident) (h : FLA_HandleUpdated c env fuel s = some s') : s'.safe env := by
  unfold FLA_HandleUpdated at h
  split_ifs at h with h1
  · split at h
    · exact absurd h (by simp)
    · rename_i r t hc
      have ht : t.resident :=
        resident_copy (resident_emit (resident_emit hs _ (by rfl)) _ (by rfl)) hc
      split_ifs at h
      · simp only [Option.some.injEq] at h
        rw [← h]
        exact WRK_StartApplication_safe env (resident_updatedDone ht)
      · simp only [Option.some.injEq] at h
        rw [← h]
        exact Or.inl (resident_markCorrupt ht)
  · simp only [Option.some.injEq] at h
    rw [← h]
    exact Or.inl (resident_markCorrupt hs)

theorem WRK_Handle_safe {c : Cfg} {env : Env} {fuel : Nat} {s s' : State}
    (hs : s.resident) (h : WRK_Handle c env fuel s = some s') : s'.safe env := by
  have h2 : (sendReport .MTypeGetBootloaderStatus .MStatNone
      (s.setBootloaderStatus .sACTIVE)).resident :=
    resident_sendReport (resident_setBootloaderStatus hs _) _ _
  unfold WRK_Handle at h
  simp only at h
  split at h
  · simp only [Option.some.injEq] at h
    rw [← h]; exact Or.inl (resident_ledFault h2)
  · exact FLA_HandleUpdating_safe h2 h
  · exact FLA_HandleRollBack_safe h2 h
  · exact FLA_HandleUpdated_safe h2 h
  · simp only [Option.some.injEq] at h
    rw [← h]; exact WRK_StartApplication_safe env h2
  · simp only [Option.some.injEq] at h
    rw [← h]; exact WRK_StartApplication_safe env h2
  · simp only [Option.some.injEq] at h
    rw [← h]; exact Or.inl (resident_ledFault h2)

/-- C7: from a state in which no jump has happened, `WRK_StartApplication`
jumps exactly when the Application version is not 0 and the first word at the
Application base address passes the check `(w & 0x2FFE0000) == 0x20000000`;
then the word read, the de-initialisation, the stack pointer read and the jump
are all it logs.  When the version is not 0 and the word fails the check it
does not jump, sets Application to Undefined with version 0 and reports
`ImageNotValid`.  In every returning run of `WRK_Handle` that ends in a jump,
the jump passed both checks. -/
theorem C7_jump_iff_checks (c : Cfg) (env : Env) (fuel : Nat) (s : State) (hs : s.resident) :
    ((WRK_StartApplication env s).jumped = true ↔
      (s.app.Version ≠ 0 ∧ imageWordOk (env.mainWord s.nWord) = true)) ∧
    (s.app.Version ≠ 0 → imageWordOk (env.mainWord s.nWord) = true →
      (WRK_StartApplication env s).log =
        s.log ++ [.wordRead (env.mainWord s.nWord), .deinit,
          .wordRead (env.mainWord (s.nWord + 1)), .jump (env.mainWord (s.nWord + 1))]) ∧
    (s.app.Version ≠ 0 → imageWordOk (env.mainWord s.nWord) = false →
      (WRK_StartApplication env s).jumped = false ∧
      (WRK_StartApplication env s).app.Status = .fUNDEFINED ∧
      (WRK_StartApplication env s).app.Version = 0 ∧
      (WRK_StartApplication env s).log =
        s.log ++ [.wordRead (env.mainWord s.nWord), .setStatus .pApplication .fUNDEFINED,
          .setVersion .pApplication 0,
          .report .MTypeGetBootloaderStatus .MStatImageNotValid s.Progress,
          .led .BLINKING 255 0 0]) ∧
    (∀ s', WRK_Handle c env fuel s = some s' → s'.jumped = true → s'.jumpedChecked env) := by
  refine ⟨?_, ?_, ?_, ?_⟩
  · by_cases hv : s.app.Version = 0
    · rw [WRK_StartApplication_version_zero env s hv]
      simp [sendReport, ledFault, FLA_SetStatus, State.emit, hs.1, hv]
    · by_cases hw : imageWordOk (env.mainWord s.nWord) = true
      · rw [WRK_StartApplication_jump env s hv hw]
        simp [jumpToApplication, State.emit, hv, hw]
      · rw [WRK_StartApplication_bad_word env s hv (by simpa using hw)]
        simp [sendReport, ledFault, FLA_SetStatus, FLA_SetVersion, readMainWord, State.emit,
          hs.1, hw]
  · intro hv hw
    rw [WRK_StartApplication_jump env s hv hw]
    simp [jumpToApplication, readMainWord, State.emit]
  · intro hv hw
    rw [WRK_StartApplication_bad_word env s hv hw]
    simp [sendReport, ledFault, FLA_SetStatus, FLA_SetVersion, readMainWord, State.emit, hs.1]
  · intro s' h hj
    rcases WRK_Handle_safe hs h with h1 | h1
    · rw [h1.1] at hj; exact absurd hj (by simp)
    · exact h1

/-- C7 at a concrete input: a valid Application of version 3 whose first word
passes the check; the dispatcher run ends in a jump. -/
theorem C7_jump_iff_checks_witness :
    (((WRK_StartApplication envAllOk validState).jumped = true ↔
      (validState.app.Version ≠ 0 ∧ imageWordOk (envAllOk.mainWord validState.nWord) = true)) ∧
    (validState.app.Version ≠ 0 → imageWordOk (envAllOk.mainWord validState.nWord) = true →
      (WRK_StartApplication envAllOk validState).log =
        validState.log ++ [.wordRead (envAllOk.mainWord validState.nWord), .deinit,
          .wordRead (envAllOk.mainWord (validState.nWord + 1)),
          .jump (envAllOk.mainWord (validState.nWord + 1))]) ∧
    (validState.app.Version ≠ 0 → imageWordOk (envAllOk.mainWord validState.nWord) = false →
      (WRK_StartApplication envAllOk validState).jumped = false ∧
      (WRK_StartApplication envAllOk validState).app.Status = .fUNDEFINED ∧
      (WRK_StartApplication envAllOk validState).app.Version = 0 ∧
      (WRK_StartApplication envAllOk validState).log =
        validState.log ++ [.wordRead (envAllOk.mainWord validState.nWord),
          .setStatus .pApplication .fUNDEFINED, .setVersion .pApplication 0,
          .report .MTypeGetBootloaderStatus .MStatImageNotValid validState.Progress,
          .led .BLINKING 255 0 0]) ∧
    (∀ s', WRK_Handle cfg16 envAllOk 0 validState = some s' → s'.jumped = true →
      s'.jumpedChecked envAllOk)) ∧
    (WRK_Handle cfg16 envAllOk 0 validState).map (fun t => t.jumped) = some true :=
  ⟨C7_jump_iff_checks cfg16 envAllOk 0 validState ⟨rfl, by simp [validState, bootState]⟩,
    by decide⟩

/-! ## The Updating handler without a valid Update (C8) -/

/-- C8 as stated fails: with Application Updating, version 0 and Update not
Valid, the handler ends with Application Undefined, not Updating; and with
version 3 and a blank first word it ends with Application Undefined, not
Valid. -/
theorem C8_counterexample :
    updatingNoVersion.app.Status = .fUPDATING ∧ updatingNoVersion.app.Version = 0 ∧
    updatingNoVersion.upd.Status ≠ .fVALID ∧
    (FLA_HandleUpdating cfg16 envAllOk 0 updatingNoVersion).map (fun t => t.app.Status) =
      some .fUNDEFINED ∧
    updatingNoUpdate.app.Status = .fUPDATING ∧ updatingNoUpdate.app.Version = 3 ∧
    updatingNoUpdate.upd.Status ≠ .fVALID ∧
    (FLA_HandleUpdating cfg16 envBlankImage 0 updatingNoUpdate).map
      (fun t => (t.app.Status, t.app.Version, t.jumped)) = some (.fUNDEFINED, 0, false) := by
  decide

/-- C8 as amended: with Update not Valid, `FLA_HandleUpdating` always returns;
it reports `ImageNotValid`, issues no flash operation, and leaves the Update
and RollBack entries as they were.  If the Application version is above 0 and
the first word passes the launch check, it jumps with Application Valid and
its version unchanged; otherwise it stays in the bootloader with Application
Undefined and version 0. -/
theorem C8_invalid_update_aborts (c : Cfg) (env : Env) (fuel : Nat) (s : State)
    (hu : s.upd.Status ≠ .fVALID) (hs : s.jumped = false) :
    ∃ s' evs, FLA_HandleUpdating c env fuel s = some s' ∧ s'.log = s.log ++ evs ∧
      .report .MTypeGetBootloaderStatus .MStatImageNotValid s.Progress ∈ evs ∧
      (∀ e ∈ evs, Event.isFlashOp e = false) ∧
      s'.rb = s.rb ∧ s'.upd = s.upd ∧
      ((0 < s.app.Version ∧ imageWordOk (env.mainWord s.nWord) = true) →
        s'.jumped = true ∧ s'.app.Status = .fVALID ∧ s'.app.Version = s.app.Version) ∧
      (¬ (0 < s.app.Version ∧ imageWordOk (env.mainWord s.nWord) = true) →
        s'.jumped = false ∧ s'.app.Status = .fUNDEFINED ∧ s'.app.Version = 0) := by
  have hdef : FLA_HandleUpdating c env fuel s = some (abortAndStart env (ledFault s)) := by
    unfold FLA_HandleUpdating
    rw [if_pos hu]
  rw [hdef]
  by_cases hv : s.app.Version = 0
  · refine ⟨_, [.led .BLINKING 255 0 0,
      .report .MTypeGetBootloaderStatus .MStatImageNotValid s.Progress,
      .setStatus .pApplication .fUNDEFINED, .led .BLINKING 255 0 0,
      .report .MTypeGetBootloaderStatus .MStatImageNotValid s.Progress,
      .led .BLINKING 255 0 0], rfl, ?_⟩
    simp only [abortAndStart]
    rw [WRK_StartApplication_version_zero env _
      (by simp [sendReport, ledFault, State.setBootloaderStatus, State.emit, hv])]
    simp [afterStart, sendReport, ledFault, State.setBootloaderStatus, FLA_SetStatus,
      State.emit, hv, hs, Event.isFlashOp]
  · have hpos : s.app.Version > 0 := Nat.pos_of_ne_zero hv
    by_cases hw : imageWordOk (env.mainWord s.nWord) = true
    · refine ⟨_, [.led .BLINKING 255 0 0, .setStatus .pApplication .fVALID,
        .report .MTypeGetBootloaderStatus .MStatImageNotValid s.Progress,
        .wordRead (env.mainWord s.nWord), .deinit, .wordRead (env.mainWord (s.nWord + 1)),
        .jump (env.mainWord (s.nWord + 1))], rfl, ?_⟩
      simp only [abortAndStart]
      rw [WRK_StartApplication_jump env _
        (by simp [sendReport, ledFault, State.setBootloaderStatus, FLA_SetStatus, State.emit,
          hpos, hv])
        (by simp [sendReport, ledFault, State.setBootloaderStatus, FLA_SetStatus, State.emit,
          hpos, hw])]
      simp [afterStart, jumpToApplication, readMainWord, sendReport, ledFault,
        State.setBootloaderStatus, FLA_SetStatus, State.emit, hpos, hw, Event.isFlashOp]
    · have hw' : imageWordOk (env.mainWord s.nWord) = false := by simpa using hw
      refine ⟨_, [.led .BLINKING 255 0 0, .setStatus .pApplication .fVALID,
        .report .MTypeGetBootloaderStatus .MStatImageNotValid s.Progress,
        .wordRead (env.mainWord s.nWord), .setStatus .pApplication .fUNDEFINED,
        .setVersion .pApplication 0,
        .report .MTypeGetBootloaderStatus .MStatImageNotValid s.Progress,
        .led .BLINKING 255 0 0, .led .BLINKING 255 0 0], rfl, ?_⟩
      simp only [abortAndStart]
      rw [WRK_StartApplication_bad_word env _
        (by simp [sendReport, ledFault, State.setBootloaderStatus, FLA_SetStatus, State.emit,
          hpos, hv])
        (by simp [sendReport, ledFault, State.setBootloaderStatus, FLA_SetStatus, State.emit,
          hpos, hw'])]
      simp [afterStart, readMainWord, sendReport, ledFault, FLA_SetVersion,
        State.setBootloaderStatus, FLA_SetStatus, State.emit, hpos, hw', hs, Event.isFlashOp]

/-- C8 as amended at a concrete input: Application Updating with version 3,
Update Undefined. -/
theorem C8_invalid_update_aborts_witness :
    ∃ s' evs, FLA_HandleUpdating cfg16 envAllOk 0 updatingNoUpdate = some s' ∧
      s'.log = updatingNoUpdate.log ++ evs ∧
      .report .MTypeGetBootloaderStatus .MStatImageNotValid updatingNoUpdate.Progress ∈ evs ∧
      (∀ e ∈ evs, Event.isFlashOp e = false) ∧
      s'.rb = updatingNoUpdate.rb ∧ s'.upd = updatingNoUpdate.upd ∧
      ((0 < updatingNoUpdate.app.Version ∧
          imageWordOk (envAllOk.mainWord updatingNoUpdate.nWord) = true) →
        s'.jumped = true ∧ s'.app.Status = .fVALID ∧
          s'.app.Version = updatingNoUpdate.app.Version) ∧
      (¬ (0 < updatingNoUpdate.app.Version ∧
          imageWordOk (envAllOk.mainWord updatingNoUpdate.nWord) = true) →
        s'.jumped = false ∧ s'.app.Status = .fUNDEFINED ∧ s'.app.Version = 0) :=
  C8_invalid_update_aborts cfg16 envAllOk 0 updatingNoUpdate (by decide) rfl

/-! ## The Updated handler without a valid RollBack (C10) -/

/-- C10: with RollBack not Valid, `FLA_HandleUpdated` returns with Application
Corrupt and version 0.  All it logs is the status write, the version write and
the fault indication: `WRK_HandleCopyBlocks` is not called, no flash operation
is issued and no launch is attempted; the jump flag and the Update and
RollBack entries are unchanged. -/
theorem C10_updated_without_rollback (c : Cfg) (env : Env) (fuel : Nat) (s : State)
    (hr : s.rb.Status ≠ .fVALID) :
    ∃ s', FLA_HandleUpdated c env fuel s = some s' ∧
      s'.app.Status = .fCORRUPT ∧ s'.app.Version = 0 ∧
      s'.log = s.log ++ [.setStatus .pApplication .fCORRUPT, .setVersion .pApplication 0,
        .led .BLINKING 255 0 0] ∧
      s'.jumped = s.jumped ∧ s'.nWord = s.nWord ∧ s'.upd = s.upd ∧ s'.rb = s.rb := by
  refine ⟨markCorrupt s, ?_, ?_⟩
  · unfold FLA_HandleUpdated
    rw [if_neg hr]
  · simp [markCorrupt, ledFault, FLA_SetVersion, FLA_SetStatus, State.emit]

/-- C10 at a concrete input: Application Updated, RollBack Corrupt. -/
theorem C10_updated_without_rollback_witness :
    ∃ s', FLA_HandleUpdated cfg16 envAllOk 0 updatedNoRollBack = some s' ∧
      s'.app.Status = .fCORRUPT ∧ s'.app.Version = 0 ∧
      s'.log = updatedNoRollBack.log ++ [.setStatus .pApplication .fCORRUPT,
        .setVersion .pApplication 0, .led .BLINKING 255 0 0] ∧
      s'.jumped = updatedNoRollBack.jumped ∧ s'.nWord = updatedNoRollBack.nWord ∧
      s'.upd = updatedNoRollBack.upd ∧ s'.rb = updatedNoRollBack.rb :=
  C10_updated_without_rollback cfg16 envAllOk 0 updatedNoRollBack (by decide)

/-! ## How the log grows -/

theorem logExt_copy {c : Cfg} {env : Env} {fuel n src dst : Nat} {s s' : State} {r : Nat}
    (h : WRK_HandleCopyBlocks c env fuel n src dst s = some (r, s')) :
    LogExt Event.isCopyEvent s s' := by
  obtain ⟨evs, h2, h3⟩ := WRK_HandleCopyBlocks_log h
  refine ⟨_, h2, ?_⟩
  intro e he
  simp only [List.mem_append, List.mem_cons, List.mem_singleton] at he
  rcases he with (he | he) | he
  · rw [he]; rfl
  · simp [Event.isCopyEvent, h3 e he]
  · have he' : e = .copyRet r := by simpa using he
    rw [he']; rfl

theorem logExt_start (env : Env) (s : State) :
    LogExt Event.isStartEvent s (WRK_StartApplication env s) := by
  by_cases hv : s.app.Version = 0
  · rw [WRK_StartApplication_version_zero env s hv]
    exact logExt_of_list [.setStatus .pApplication .fUNDEFINED, .led .BLINKING 255 0 0,
      .report .MTypeGetBootloaderStatus .MStatImageNotValid s.Progress]
      (by simp [sendReport, ledFault, FLA_SetStatus, State.emit])
      (by simp [Event.isStartEvent])
  · by_cases hw : imageWordOk (env.mainWord s.nWord) = true
    · rw [WRK_StartApplication_jump env s hv hw]
      exact logExt_of_list [.wordRead (env.mainWord s.nWord), .deinit,
        .wordRead (env.mainWord (s.nWord + 1)), .jump (env.mainWord (s.nWord + 1))]
        (by simp [jumpToApplication, readMainWord, State.emit])
        (by simp [Event.isStartEvent])
    · rw [WRK_StartApplication_bad_word env s hv (by simpa using hw)]
      exact logExt_of_list [.wordRead (env.mainWord s.nWord),
        .setStatus .pApplication .fUNDEFINED, .setVersion .pApplication 0,
        .report .MTypeGetBootloaderStatus .MStatImageNotValid s.Progress,
        .led .BLINKING 255 0 0]
        (by simp [sendReport, ledFault, FLA_SetStatus, FLA_SetVersion, readMainWord,
          State.emit])
        (by simp [Event.isStartEvent])

theorem logExt_backupStep {c : Cfg} {env : Env} {fuel : Nat} {s s' : State} {r : Nat}
    (h : backupStep c env fuel s = some (r, s')) : LogExt Event.isBackupEvent s s' := by
  unfold backupStep at h
  split_ifs at h with h1 h2
  · split at h
    · exact absurd h (by simp)
    · rename_i r1 t hc
      have h0 : LogExt Event.isBackupEvent s
          (FLA_SetStatus .pRollBack .fUPDATING (readMainWord env s)) :=
        logExt_of_list [.wordRead (env.mainWord s.nWord), .setStatus .pRollBack .fUPDATING]
          (by simp [FLA_SetStatus, readMainWord, State.emit]) (by simp [Event.isBackupEvent])
      have ht : LogExt Event.isBackupEvent
          (FLA_SetStatus .pRollBack .fUPDATING (readMainWord env s)) t :=
        logExt_mono (logExt_copy hc) (by intro e he; simp [Event.isBackupEvent, he])
      split_ifs at h
      · simp only [Option.some.injEq, Prod.mk.injEq] at h
        rw [← h.2]
        exact logExt_trans (logExt_trans h0 ht) (logExt_of_list
          [.setStatus .pRollBack .fVALID, .setVersion .pRollBack t.app.Version]
          (by simp [FLA_SetStatus, FLA_SetVersion, State.emit]) (by simp [Event.isBackupEvent]))
      · simp only [Option.some.injEq, Prod.mk.injEq] at h
        rw [← h.2]
        exact logExt_trans (logExt_trans h0 ht) (logExt_of_list
          [.setStatus .pRollBack .fCORRUPT, .setVersion .pRollBack 0, .led .BLINKING 255 0 0]
          (by simp [ledFault, FLA_SetStatus, FLA_SetVersion, State.emit])
          (by simp [Event.isBackupEvent]))
  · simp only [Option.some.injEq, Prod.mk.injEq] at h
    rw [← h.2]
    exact logExt_of_list [.wordRead (env.mainWord s.nWord)]
      (by simp [readMainWord, State.emit]) (by simp [Event.isBackupEvent])
  · simp only [Option.some.injEq, Prod.mk.injEq] at h
    rw [← h.2]
    exact logExt_refl _ _

theorem updatingEntry_log (s : State) :
    (updatingEntry s).log = s.log ++ [.report .MTypeGetBootloaderStatus .MStatNone s.Progress,
      .led .SWITCHEDON 0 0 255, .ledHandle] := by
  simp [updatingEntry, sendReport, State.emit]

theorem rollBackEntry_log (s : State) :
    (rollBackEntry s).log = s.log ++ [.report .MTypeGetBootloaderStatus .MStatNone s.Progress,
      .led .SWITCHEDON 255 0 0, .ledHandle] := by
  simp [rollBackEntry, sendReport, State.emit]

theorem rollBackDone_log (s : State) :
    (rollBackDone s).log = s.log ++ [.setStatus .pApplication .fUPDATED,
      .setVersion .pApplication s.rb.Version,
      .report .MTypeGetBootloaderStatus .MStatNone s.Progress, .token .restoreReady] := by
  simp [rollBackDone, sendReport, FLA_SetStatus, FLA_SetVersion, State.setBootloaderStatus,
    State.emit]

theorem installDone_log (s : State) :
    (installDone s).log = s.log ++ [.led .SWITCHEDON 0 0 255,
      .setStatus .pApplication .fUPDATED, .setVersion .pApplication s.upd.Version,
      .delay 100, .report .MTypeGetBootloaderStatus .MStatSuccess s.Progress,
      .token .updateReady] := by
  simp [installDone, sendReport, FLA_SetStatus, FLA_SetVersion, State.setBootloaderStatus,
    State.emit]

theorem markCorrupt_log (s : State) :
    (markCorrupt s).log = s.log ++ [.setStatus .pApplication .fCORRUPT,
      .setVersion .pApplication 0, .led .BLINKING 255 0 0] := by
  simp [markCorrupt, ledFault, FLA_SetStatus, FLA_SetVersion, State.emit]

/-! ## Steps of the handlers -/

theorem copy_fields {c : Cfg} {env : Env} {fuel n src dst : Nat} {s s' : State} {r : Nat}
    (h : WRK_HandleCopyBlocks c env fuel n src dst s = some (r, s')) :
    s'.app = s.app ∧ s'.upd = s.upd ∧ s'.rb = s.rb ∧
    s'.BootloaderStatus = s.BootloaderStatus ∧ s'.nWord = s.nWord ∧ s'.jumped = s.jumped := by
  have h1 := WRK_HandleCopyBlocks_ctrl h
  simpa only [State.ctrl, Prod.mk.injEq] using h1

/-- The outcome of `WRK_StartApplication` when both launch checks pass. -/
theorem start_outcome_jump (env : Env) (s : State)
    (h : s.app.Version ≠ 0 ∧ imageWordOk (env.mainWord s.nWord) = true) :
    (WRK_StartApplication env s).jumped = true ∧ (WRK_StartApplication env s).app = s.app ∧
    (WRK_StartApplication env s).upd = s.upd ∧ (WRK_StartApplication env s).rb = s.rb := by
  rw [WRK_StartApplication_jump env s h.1 h.2]
  simp [jumpToApplication, readMainWord, State.emit]

/-- The outcome of `WRK_StartApplication` when a launch check fails. -/
theorem start_outcome_refuse (env : Env) (s : State) (hj : s.jumped = false)
    (h : ¬ (s.app.Version ≠ 0 ∧ imageWordOk (env.mainWord s.nWord) = true)) :
    (WRK_StartApplication env s).jumped = false ∧
    (WRK_StartApplication env s).app.Status = .fUNDEFINED ∧
    (WRK_StartApplication env s).app.Version = 0 ∧
    (WRK_StartApplication env s).upd = s.upd ∧ (WRK_StartApplication env s).rb = s.rb := by
  by_cases hv : s.app.Version = 0
  · rw [WRK_StartApplication_version_zero env s hv]
    simp [sendReport, ledFault, FLA_SetStatus, State.emit, hj, hv]
  · have hw : imageWordOk (env.mainWord s.nWord) = false := by
      by_contra hw
      exact h ⟨hv, by simpa using hw⟩
    rw [WRK_StartApplication_bad_word env s hv hw]
    simp [sendReport, ledFault, FLA_SetStatus, FLA_SetVersion, readMainWord, State.emit, hj]

theorem FLA_HandleRollBack_valid {c : Cfg} {env : Env} {fuel : Nat} {s t : State} {r : Nat}
    (hr : s.rb.Status = .fVALID)
    (hc : WRK_HandleCopyBlocks c env fuel s.rb.NrOfBlocks c.FLA_ROLLBACKADDRESS
      c.FLA_MAINADDRESS (rollBackEntry s) = some (r, t)) :
    FLA_HandleRollBack c env fuel s =
      some (if r = 1 then WRK_StartApplication env (rollBackDone t) else markCorrupt t) := by
  unfold FLA_HandleRollBack
  rw [if_neg (by simp [hr]), hc]
  by_cases h1 : r = 1
  · simp [h1]
  · simp [h1]

theorem installStep_error_rollBack {c : Cfg} {env : Env} {fuel : Nat} {s t : State}
    (hi : WRK_HandleCopyBlocks c env fuel s.upd.NrOfBlocks c.FLA_UPGRADEADDRESS
      c.FLA_MAINADDRESS s = some (2, t))
    (hr : t.rb.Status = .fVALID) :
    installStep c env fuel s =
      FLA_HandleRollBack c env fuel (FLA_SetStatus .pApplication .fROLLBACK t) := by
  unfold installStep
  rw [hi]
  simp [hr]

theorem FLA_HandleUpdating_backup_ok {c : Cfg} {env : Env} {fuel : Nat} {s t : State}
    (hu : s.upd.Status = .fVALID)
    (hb : backupStep c env fuel (updatingEntry s) = some (1, t)) :
    FLA_HandleUpdating c env fuel s = installStep c env fuel t := by
  unfold FLA_HandleUpdating
  rw [if_neg (by simp [hu]), hb]
  simp

theorem rollBackDone_fields (s : State) :
    (rollBackDone s).app.Status = .fUPDATED ∧ (rollBackDone s).app.Version = s.rb.Version ∧
    (rollBackDone s).nWord = s.nWord ∧ (rollBackDone s).jumped = s.jumped ∧
    (rollBackDone s).rb = s.rb ∧ (rollBackDone s).upd = s.upd := by
  simp [rollBackDone, sendReport, FLA_SetStatus, FLA_SetVersion, State.setBootloaderStatus,
    State.emit]

theorem markCorrupt_fields (s : State) :
    (markCorrupt s).app.Status = .fCORRUPT ∧ (markCorrupt s).app.Version = 0 ∧
    (markCorrupt s).nWord = s.nWord ∧ (markCorrupt s).jumped = s.jumped ∧
    (markCorrupt s).rb = s.rb ∧ (markCorrupt s).upd = s.upd := by
  simp [markCorrupt, ledFault, FLA_SetStatus, FLA_SetVersion, State.emit]

/-- What `FLA_HandleUpdating` does when the backup step returned 1, the
install copy returned 2 and RollBack is Valid: it marks the Application
RollBack and runs the copy of `FLA_HandleRollBack`; with that copy returning
`r3` in state `t3`, the handler returns the state given here. -/
theorem updating_install_error {c : Cfg} {env : Env} {fuel : Nat} {s t1 t2 t3 : State}
    {r3 : Nat} (hu : s.upd.Status = .fVALID)
    (hb : backupStep c env fuel (updatingEntry s) = some (1, t1))
    (hi : WRK_HandleCopyBlocks c env fuel t1.upd.NrOfBlocks c.FLA_UPGRADEADDRESS
      c.FLA_MAINADDRESS t1 = some (2, t2))
    (hr : t2.rb.Status = .fVALID)
    (hc : WRK_HandleCopyBlocks c env fuel t2.rb.NrOfBlocks c.FLA_ROLLBACKADDRESS
      c.FLA_MAINADDRESS (rollBackEntry (FLA_SetStatus .pApplication .fROLLBACK t2)) =
        some (r3, t3)) :
    FLA_HandleUpdating c env fuel s =
      some (if r3 = 1 then WRK_StartApplication env (rollBackDone t3) else markCorrupt t3) := by
  rw [FLA_HandleUpdating_backup_ok hu hb, installStep_error_rollBack hi hr]
  exact FLA_HandleRollBack_valid (by simpa [FLA_SetStatus, State.emit] using hr)
    (by simpa [FLA_SetStatus, State.emit] using hc)

theorem notAppCorrupt_of_backup (e : Event) (h : e.isBackupEvent = true) :
    e.notAppCorrupt = true := by
  cases e with
  | setStatus p st =>
    cases p <;> cases st <;>
      simp_all [Event.isBackupEvent, Event.isCopyEvent, Event.isLoopEvent, Event.notAppCorrupt]
  | _ => simp_all [Event.isBackupEvent, Event.isCopyEvent, Event.isLoopEvent, Event.notAppCorrupt]

theorem notAppCorrupt_of_copy (e : Event) (h : e.isCopyEvent = true) :
    e.notAppCorrupt = true := by
  cases e <;> simp_all [Event.isCopyEvent, Event.isLoopEvent, Event.notAppCorrupt]

theorem notAppCorrupt_of_start (e : Event) (h : e.isStartEvent = true) :
    e.notAppCorrupt = true := by
  cases e with
  | setStatus p st => cases p <;> cases st <;> simp_all [Event.isStartEvent, Event.notAppCorrupt]
  | _ => simp_all [Event.isStartEvent, Event.notAppCorrupt]

/-! ## The Updating handler when the install copy returns Error (C9) -/

/-- With every erase and verify succeeding, a call for at most 65535 blocks
returns; it returns 2 when exactly 65535 blocks were requested and 1
otherwise. -/
theorem WRK_HandleCopyBlocks_allOk (c : Cfg) (env : Env) (fuel n src dst : Nat) (s : State)
    (hok : env.allOk) (hn : n ≤ 65535) (hM : n < c.cbMod) (hf : n ≤ fuel) :
    ∃ s', WRK_HandleCopyBlocks c env fuel n src dst s =
      some (if n = 65535 then 2 else 1, s') := by
  obtain ⟨i1, -⟩ :=
    copyRun_allOk c env n src dst (copyInit n src dst s) hok hn hM
      (by simp only [copyInit]) (by simp only [copyInit]) n (le_refl n)
  have hexit : ¬ (copyRun c env n src dst n (copyInit n src dst s)).CurrentBlock < n := by
    rw [i1]; omega
  have hrun : copyRun c env n src dst fuel (copyInit n src dst s) =
      copyRun c env n src dst n (copyInit n src dst s) := by
    obtain ⟨d, rfl⟩ := Nat.exists_eq_add_of_le hf
    exact copyRun_stable c env n src dst n _ hexit d
  have hcall := WRK_HandleCopyBlocks_of_exit c env fuel n src dst s (by rw [hrun]; exact hexit)
  rw [hrun] at hcall
  have hres : copyResult (copyRun c env n src dst n (copyInit n src dst s)) =
      if n = 65535 then 2 else 1 := by
    unfold copyResult
    rw [i1]
    split_ifs <;> rfl
  rw [hres] at hcall
  exact ⟨_, hcall⟩

theorem envAllOk_allOk : envAllOk.allOk :=
  ⟨fun _ => rfl, fun _ => rfl⟩

theorem backupStep_attempt_ok {c : Cfg} {env : Env} {fuel : Nat} {s t : State}
    (hv : s.app.Version > 0) (hw : imageWordOk (env.mainWord s.nWord) = true)
    (hc : WRK_HandleCopyBlocks c env fuel (c.FLA_LENGTH / c.FLA_BLOCKSIZE) c.FLA_MAINADDRESS
      c.FLA_ROLLBACKADDRESS (FLA_SetStatus .pRollBack .fUPDATING (readMainWord env s)) =
        some (1, t)) :
    backupStep c env fuel s =
      some (1, FLA_SetVersion .pRollBack t.app.Version (FLA_SetStatus .pRollBack .fVALID t)) := by
  unfold backupStep
  rw [if_pos hv, if_pos hw, hc]
  simp

/-- C9 as amended: when the backup step returns 1, the install copy returns 2
and RollBack is Valid, `FLA_HandleUpdating` marks the Application RollBack and
runs the RollBack handler, whose copy returns `r3`.  If `r3` is 1, no write of
status Corrupt to the Application happens during the run, and the handler
either jumps with Application Updated and the RollBack version (when that
version is not 0 and the first word passes the launch check) or returns with
Application Undefined and version 0.  If `r3` is not 1 the handler returns
with Application Corrupt and version 0. -/
theorem C9_install_error_delegates (c : Cfg) (env : Env) (fuel : Nat) (s t1 t2 t3 : State)
    (r3 : Nat) (hs : s.resident) (hu : s.upd.Status = .fVALID)
    (hb : backupStep c env fuel (updatingEntry s) = some (1, t1))
    (hi : WRK_HandleCopyBlocks c env fuel t1.upd.NrOfBlocks c.FLA_UPGRADEADDRESS
      c.FLA_MAINADDRESS t1 = some (2, t2))
    (hr : t2.rb.Status = .fVALID)
    (hc : WRK_HandleCopyBlocks c env fuel t2.rb.NrOfBlocks c.FLA_ROLLBACKADDRESS
      c.FLA_MAINADDRESS (rollBackEntry (FLA_SetStatus .pApplication .fROLLBACK t2)) =
        some (r3, t3)) :
    ∃ s', FLA_HandleUpdating c env fuel s = some s' ∧
      (r3 = 1 →
        LogExt Event.notAppCorrupt s s' ∧
        ((t2.rb.Version ≠ 0 ∧ imageWordOk (env.mainWord t2.nWord) = true) →
          s'.jumped = true ∧ s'.app.Status = .fUPDATED ∧ s'.app.Version = t2.rb.Version) ∧
        (¬ (t2.rb.Version ≠ 0 ∧ imageWordOk (env.mainWord t2.nWord) = true) →
          s'.jumped = false ∧ s'.app.Status = .fUNDEFINED ∧ s'.app.Version = 0)) ∧
      (r3 ≠ 1 → s'.jumped = false ∧ s'.app.Status = .fCORRUPT ∧ s'.app.Version = 0) := by
  have hrun := updating_install_error hu hb hi hr hc
  have ht1 : t1.resident := backupStep_resident (resident_updatingEntry hs) hb
  have ht2 : t2.resident := resident_copy ht1 hi
  have ht3 : t3.resident := resident_copy (resident_rollBackEntry (resident_setStatus ht2 _ _)) hc
  obtain ⟨-, -, f3, -, f5, -⟩ := copy_fields hc
  have hrb : t3.rb = t2.rb := by
    rw [f3]; simp [rollBackEntry, sendReport, FLA_SetStatus, State.emit]
  have hnw : t3.nWord = t2.nWord := by
    rw [f5]; simp [rollBackEntry, sendReport, FLA_SetStatus, State.emit]
  obtain ⟨d1, d2, d3, d4, -, -⟩ := rollBackDone_fields t3
  by_cases h1 : r3 = 1
  · rw [if_pos h1] at hrun
    refine ⟨_, hrun, fun _ => ⟨?_, ?_, ?_⟩, fun h => absurd h1 h⟩
    · have e0 : LogExt Event.notAppCorrupt s (updatingEntry s) :=
        logExt_of_list _ (updatingEntry_log s) (by simp [Event.notAppCorrupt])
      have e1 : LogExt Event.notAppCorrupt (updatingEntry s) t1 :=
        logExt_mono (logExt_backupStep hb) notAppCorrupt_of_backup
      have e2 : LogExt Event.notAppCorrupt t1 t2 := logExt_mono (logExt_copy hi) notAppCorrupt_of_copy
      have e3 : LogExt Event.notAppCorrupt t2
          (rollBackEntry (FLA_SetStatus .pApplication .fROLLBACK t2)) :=
        logExt_of_list [.setStatus .pApplication .fROLLBACK,
          .report .MTypeGetBootloaderStatus .MStatNone t2.Progress,
          .led .SWITCHEDON 255 0 0, .ledHandle]
          (by simp [rollBackEntry, sendReport, FLA_SetStatus, State.emit])
          (by simp [Event.notAppCorrupt])
      have e4 : LogExt Event.notAppCorrupt
          (rollBackEntry (FLA_SetStatus .pApplication .fROLLBACK t2)) t3 :=
        logExt_mono (logExt_copy hc) notAppCorrupt_of_copy
      have e5 : LogExt Event.notAppCorrupt t3 (rollBackDone t3) :=
        logExt_of_list _ (rollBackDone_log t3) (by simp [Event.notAppCorrupt])
      have e6 : LogExt Event.notAppCorrupt (rollBackDone t3)
          (WRK_StartApplication env (rollBackDone t3)) :=
        logExt_mono (logExt_start env _) notAppCorrupt_of_start
      exact logExt_trans (logExt_trans (logExt_trans (logExt_trans (logExt_trans
        (logExt_trans e0 e1) e2) e3) e4) e5) e6
    · intro hl
      obtain ⟨o1, o2, -, -⟩ := start_outcome_jump env (rollBackDone t3)
        (by rw [d2, d3, hrb, hnw]; exact hl)
      exact ⟨o1, by rw [o2, d1], by rw [o2, d2, hrb]⟩
    · intro hl
      obtain ⟨o1, o2, o3, -, -⟩ := start_outcome_refuse env (rollBackDone t3)
        (by rw [d4]; exact ht3.1) (by rw [d2, d3, hrb, hnw]; exact hl)
      exact ⟨o1, o2, o3⟩
  · rw [if_neg h1] at hrun
    obtain ⟨m1, m2, -, m4, -, -⟩ := markCorrupt_fields t3
    exact ⟨_, hrun, fun h => absurd h h1, fun _ => ⟨by rw [m4]; exact ht3.1, m1, m2⟩⟩

/-- The run of `FLA_HandleUpdating` from `bigUpdateState k` on `cfg16` with a
driver that never fails: the backup of 2 blocks returns 1 and records RollBack
Valid with version 3, the install copy of 65535 blocks returns 2, and the
RollBack copy of `k` blocks returns 2 when `k` is 65535 and 1 otherwise. -/
theorem bigUpdate_run (k : Nat) (hk : k ≤ 65535) :
    ∃ t1 t2 t3,
      backupStep cfg16 envAllOk 65535 (updatingEntry (bigUpdateState k)) = some (1, t1) ∧
      t1.rb.Status = .fVALID ∧ t1.rb.Version = 3 ∧
      WRK_HandleCopyBlocks cfg16 envAllOk 65535 t1.upd.NrOfBlocks cfg16.FLA_UPGRADEADDRESS
        cfg16.FLA_MAINADDRESS t1 = some (2, t2) ∧
      t2.rb.Status = .fVALID ∧ t2.rb.Version = 3 ∧
      WRK_HandleCopyBlocks cfg16 envAllOk 65535 t2.rb.NrOfBlocks cfg16.FLA_ROLLBACKADDRESS
        cfg16.FLA_MAINADDRESS (rollBackEntry (FLA_SetStatus .pApplication .fROLLBACK t2)) =
          some (if k = 65535 then 2 else 1, t3) := by
  obtain ⟨u, hu⟩ := WRK_HandleCopyBlocks_allOk cfg16 envAllOk 65535
    (cfg16.FLA_LENGTH / cfg16.FLA_BLOCKSIZE) cfg16.FLA_MAINADDRESS cfg16.FLA_ROLLBACKADDRESS
    (FLA_SetStatus .pRollBack .fUPDATING (readMainWord envAllOk (updatingEntry (bigUpdateState k))))
    envAllOk_allOk (by decide) (by decide) (by decide)
  rw [if_neg (by decide)] at hu
  have hb := backupStep_attempt_ok (s := updatingEntry (bigUpdateState k))
    (by simp [updatingEntry, sendReport, State.emit, bigUpdateState, bootState])
    (by show imageWordOk 0x20001000 = true; decide) hu
  obtain ⟨u1, u2, u3, -, -, -⟩ := copy_fields hu
  have hupd : (FLA_SetVersion .pRollBack u.app.Version
      (FLA_SetStatus .pRollBack .fVALID u)).upd.NrOfBlocks = 65535 := by
    simp [FLA_SetVersion, FLA_SetStatus, State.emit, u2, readMainWord, updatingEntry,
      sendReport, bigUpdateState, bootState]
  have hrbn : (FLA_SetVersion .pRollBack u.app.Version
      (FLA_SetStatus .pRollBack .fVALID u)).rb.NrOfBlocks = k := by
    simp [FLA_SetVersion, FLA_SetStatus, State.emit, u3, readMainWord, updatingEntry,
      sendReport, bigUpdateState, bootState]
  have hrbs : (FLA_SetVersion .pRollBack u.app.Version
      (FLA_SetStatus .pRollBack .fVALID u)).rb.Status = .fVALID := by
    simp [FLA_SetVersion, FLA_SetStatus, State.emit]
  have hrbv : (FLA_SetVersion .pRollBack u.app.Version
      (FLA_SetStatus .pRollBack .fVALID u)).rb.Version = 3 := by
    simp [FLA_SetVersion, FLA_SetStatus, State.emit, u1, readMainWord, updatingEntry,
      sendReport, bigUpdateState, bootState]
  obtain ⟨t2, hi⟩ := WRK_HandleCopyBlocks_allOk cfg16 envAllOk 65535
    (FLA_SetVersion .pRollBack u.app.Version
      (FLA_SetStatus .pRollBack .fVALID u)).upd.NrOfBlocks
    cfg16.FLA_UPGRADEADDRESS cfg16.FLA_MAINADDRESS
    (FLA_SetVersion .pRollBack u.app.Version (FLA_SetStatus .pRollBack .fVALID u))
    envAllOk_allOk (by rw [hupd]) (by rw [hupd]; decide) (by rw [hupd])
  rw [if_pos hupd] at hi
  obtain ⟨-, -, i3, -, -, -⟩ := copy_fields hi
  obtain ⟨t3, hc⟩ := WRK_HandleCopyBlocks_allOk cfg16 envAllOk 65535 t2.rb.NrOfBlocks
    cfg16.FLA_ROLLBACKADDRESS cfg16.FLA_MAINADDRESS
    (rollBackEntry (FLA_SetStatus .pApplication .fROLLBACK t2))
    envAllOk_allOk (by rw [i3, hrbn]; exact hk)
    (by rw [i3, hrbn]; exact lt_of_le_of_lt hk (by decide)) (by rw [i3, hrbn]; exact hk)
  have hk' : t2.rb.NrOfBlocks = k := by rw [i3, hrbn]
  rw [hk'] at hc
  exact ⟨_, t2, t3, hb, hrbs, hrbv, hi, by rw [i3, hrbs], by rw [i3, hrbv], by rw [hk']; exact hc⟩

/-- C9 as stated fails: Update holds 65535 blocks and RollBack is recorded
with 65535 blocks.  The backup returns 1 and leaves RollBack Valid with
version 3, the install copy returns 2, and the handler, after delegating to
the RollBack handler, ends with Application Corrupt and version 0, not
Updated with version 3. -/
theorem C9_counterexample :
    ∃ t1 t2 t3,
      (bigUpdateState 65535).app.Status = .fUPDATING ∧
      (bigUpdateState 65535).upd.Status = .fVALID ∧
      backupStep cfg16 envAllOk 65535 (updatingEntry (bigUpdateState 65535)) = some (1, t1) ∧
      t1.rb.Status = .fVALID ∧ t1.rb.Version = 3 ∧
      WRK_HandleCopyBlocks cfg16 envAllOk 65535 t1.upd.NrOfBlocks cfg16.FLA_UPGRADEADDRESS
        cfg16.FLA_MAINADDRESS t1 = some (2, t2) ∧
      t2.rb.Status = .fVALID ∧ t2.rb.Version = 3 ∧
      FLA_HandleUpdating cfg16 envAllOk 65535 (bigUpdateState 65535) = some (markCorrupt t3) ∧
      (markCorrupt t3).app.Status = .fCORRUPT ∧ (markCorrupt t3).app.Version = 0 ∧
      Event.setStatus .pApplication .fCORRUPT ∈ (markCorrupt t3).log := by
  obtain ⟨t1, t2, t3, hb, b1, b2, hi, i1, i2, hc⟩ := bigUpdate_run 65535 (le_refl _)
  rw [if_pos rfl] at hc
  have hrun := updating_install_error (s := bigUpdateState 65535) rfl hb hi i1 hc
  rw [if_neg (by decide)] at hrun
  obtain ⟨m1, m2, -⟩ := markCorrupt_fields t3
  exact ⟨t1, t2, t3, rfl, rfl, hb, b1, b2, hi, i1, i2, hrun, m1, m2,
    by rw [markCorrupt_log]; simp⟩

/-- C9 as amended at a concrete input: Update holds 65535 blocks, so the
install copy returns 2; RollBack is recorded with 2 blocks, its copy returns 1
and the handler jumps with Application Updated and version 3. -/
theorem C9_install_error_delegates_witness :
    ∃ s', FLA_HandleUpdating cfg16 envAllOk 65535 (bigUpdateState 2) = some s' ∧
      LogExt Event.notAppCorrupt (bigUpdateState 2) s' ∧
      s'.jumped = true ∧ s'.app.Status = .fUPDATED ∧ s'.app.Version = 3 := by
  obtain ⟨t1, t2, t3, hb, -, -, hi, i1, i2, hc⟩ := bigUpdate_run 2 (by decide)
  rw [if_neg (by decide)] at hc
  obtain ⟨s', h1, h2, -⟩ := C9_install_error_delegates cfg16 envAllOk 65535 (bigUpdateState 2)
    t1 t2 t3 1 ⟨rfl, by simp [bigUpdateState, bootState]⟩ rfl hb hi i1 hc
  obtain ⟨l1, l2, -⟩ := h2 rfl
  obtain ⟨o1, o2, o3⟩ := l2 ⟨by rw [i2]; decide, by show imageWordOk 0x20001000 = true; decide⟩
  exact ⟨s', h1, l1, o1, o2, by rw [o3, i2]⟩

/-! ## The flash operations of a run without failures (C17) -/

theorem opsFrom_snoc (c : Cfg) (src dst : Nat) (a k : Nat) :
    opsFrom c src dst a (k + 1) = opsFrom c src dst a k ++ blockOps c src dst (a + k) := by
  induction k generalizing a with
  | zero => simp [opsFrom]
  | succ k ih =>
    rw [opsFrom, ih (a + 1), opsFrom, List.append_assoc]
    have : a + 1 + k = a + (k + 1) := by omega
    rw [this]

theorem progressStep_ops (c : Cfg) (n src : Nat) (s : State) :
    ∃ evs, (progressStep c n src s).log = s.log ++ evs ∧ evs.filter Event.isFlashOp = [] := by
  unfold progressStep
  split_ifs
  · refine ⟨[.report (progressKind c src) .MStatSuccess (progressOf s.CurrentBlock n)],
      by simp [State.emit, sendReport], by simp [Event.isFlashOp]⟩
  · exact ⟨[], by simp, by simp⟩

/-- With all driver calls succeeding, one iteration issues exactly the flash
operations of its block and increments the counter. -/
theorem copyStep_allOk_ops (c : Cfg) (env : Env) (n src dst : Nat) (s : State)
    (hok : env.allOk) :
    (copyStep c env n src dst s).CurrentBlock = (s.CurrentBlock + 1) % c.cbMod ∧
    ∃ evs, (copyStep c env n src dst s).log = s.log ++ evs ∧
      evs.filter Event.isFlashOp = blockOps c src dst s.CurrentBlock := by
  have hcb : (copyBody c env n src dst s).CurrentBlock = s.CurrentBlock := by
    unfold copyBody transferStep
    rw [if_pos (hok.2 _), progressStep_cb]
    unfold eraseStep
    split_ifs with h1 h2
    · simp only [State.emit]
    · exact absurd (hok.1 _) h2
    · simp only [State.emit]
  refine ⟨by simp only [copyStep, State.setCurrentBlock, hcb], ?_⟩
  have hlog : (copyStep c env n src dst s).log = (copyBody c env n src dst s).log := by
    simp only [copyStep, State.setCurrentBlock]
  rw [hlog]
  unfold copyBody transferStep
  rw [if_pos (hok.2 _)]
  obtain ⟨e2, h2, f2⟩ := progressStep_ops c n src
    ({ ((((eraseStep c env (blockAddr c dst s.CurrentBlock) (s.emit .wdgRefresh)).emit
      .clearBuffer).emit (.read (blockAddr c src s.CurrentBlock))).emit
      (.write (blockAddr c dst s.CurrentBlock))) with
      nVerify := (eraseStep c env (blockAddr c dst s.CurrentBlock)
        (s.emit .wdgRefresh)).nVerify + 1 }.emit
      (.verify (blockAddr c dst s.CurrentBlock) true))
  rw [h2]
  unfold eraseStep
  simp only [State.emit]
  by_cases h1 : s.CurrentBlock % c.FLA_BLOCKSPERPAGE = 0
  · simp only [h1, hok.1 _, if_true]
    refine ⟨[.wdgRefresh, .erase (blockAddr c dst s.CurrentBlock) true, .clearBuffer,
      .read (blockAddr c src s.CurrentBlock), .write (blockAddr c dst s.CurrentBlock),
      .verify (blockAddr c dst s.CurrentBlock) true] ++ e2, by simp, ?_⟩
    rw [List.filter_append, f2]
    simp [blockOps, h1, Event.isFlashOp]
  · simp only [h1, if_false]
    refine ⟨[.wdgRefresh, .clearBuffer,
      .read (blockAddr c src s.CurrentBlock), .write (blockAddr c dst s.CurrentBlock),
      .verify (blockAddr c dst s.CurrentBlock) true] ++ e2, by simp, ?_⟩
    rw [List.filter_append, f2]
    simp [blockOps, h1, Event.isFlashOp]

/-- The state after `k` iterations of a run without failures, for any block
count the counter can hold: the counter is `k` and the flash operations so
far are those of blocks `0` to `k - 1`. -/
theorem copyRun_allOk_ops (c : Cfg) (env : Env) (n src dst : Nat) (s0 : State)
    (hok : env.allOk) (hM : n < c.cbMod) (hcb : s0.CurrentBlock = 0) (k : Nat) (hk : k ≤ n) :
    (copyRun c env n src dst k s0).CurrentBlock = k ∧
    ∃ evs, (copyRun c env n src dst k s0).log = s0.log ++ evs ∧
      evs.filter Event.isFlashOp = opsFrom c src dst 0 k := by
  induction k with
  | zero => exact ⟨hcb, [], by simp [copyRun], by simp [opsFrom]⟩
  | succ k ih =>
    obtain ⟨i1, evs, i2, i3⟩ := ih (by omega)
    rw [copyRun_snoc, if_pos (by rw [i1]; omega)]
    obtain ⟨j1, e2, j2, j3⟩ := copyStep_allOk_ops c env n src dst (copyRun c env n src dst k s0) hok
    refine ⟨by rw [j1, i1]; exact Nat.mod_eq_of_lt (by omega), evs ++ e2,
      by rw [j2, i2, List.append_assoc], ?_⟩
    rw [List.filter_append, i3, j3, i1, opsFrom_snoc, Nat.zero_add]

/-- A call without failures for a block count the counter can hold returns;
the result is 2 exactly when 65535 blocks were requested; the flash
operations of the call are those of blocks `0` to `n - 1` in order. -/
theorem WRK_HandleCopyBlocks_allOk_ops (c : Cfg) (env : Env) (fuel n src dst : Nat) (s : State)
    (hok : env.allOk) (hM : n < c.cbMod) (hf : n ≤ fuel) :
    ∃ s' evs, WRK_HandleCopyBlocks c env fuel n src dst s =
        some (if n = 65535 then 2 else 1, s') ∧
      s'.log = s.log ++ evs ∧ evs.filter Event.isFlashOp = opsFrom c src dst 0 n := by
  obtain ⟨i1, evs, i2, i3⟩ :=
    copyRun_allOk_ops c env n src dst (copyInit n src dst s) hok hM
      (by simp only [copyInit]) n (le_refl n)
  have hexit : ¬ (copyRun c env n src dst n (copyInit n src dst s)).CurrentBlock < n := by
    rw [i1]; omega
  have hrun : copyRun c env n src dst fuel (copyInit n src dst s) =
      copyRun c env n src dst n (copyInit n src dst s) := by
    obtain ⟨d, rfl⟩ := Nat.exists_eq_add_of_le hf
    exact copyRun_stable c env n src dst n _ hexit d
  have hcall := WRK_HandleCopyBlocks_of_exit c env fuel n src dst s (by rw [hrun]; exact hexit)
  rw [hrun] at hcall
  have hres : copyResult (copyRun c env n src dst n (copyInit n src dst s)) =
      if n = 65535 then 2 else 1 := by
    unfold copyResult
    rw [i1]
    split_ifs <;> rfl
  rw [hres] at hcall
  refine ⟨_, .copyCall n src dst :: evs ++ [.copyRet (if n = 65535 then 2 else 1)], hcall, ?_, ?_⟩
  · have h3 : (copyInit n src dst s).log = s.log ++ [.copyCall n src dst] := by
      simp only [copyInit, State.emit]
    simp only [State.emit, i2, h3]
    simp
  · rw [List.filter_append, List.filter_cons]
    simp [Event.isFlashOp, i3]

theorem copyStep_verify_fails (c : Cfg) (env : Env) (n src dst : Nat) (s : State)
    (hv : ∀ k, env.verifyOk k = false) :
    (copyStep c env n src dst s).CurrentBlock = 65536 % c.cbMod := by
  simp only [copyStep, State.setCurrentBlock, copyBody, transferStep, hv, sentinel]
  simp [Nat.mod_add_mod]

/-- When every verify fails and the incremented sentinel is below the block
count, the loop never ends: the call does not return for any bound on the
number of iterations. -/
theorem WRK_HandleCopyBlocks_never_ends (c : Cfg) (env : Env) (n src dst : Nat) (s : State)
    (hv : ∀ k, env.verifyOk k = false) (hn : 0 < n) (h : 65536 % c.cbMod < n) (fuel : Nat) :
    WRK_HandleCopyBlocks c env fuel n src dst s = none := by
  have hinv : ∀ k, (copyRun c env n src dst k (copyInit n src dst s)).CurrentBlock < n := by
    intro k
    induction k with
    | zero => simpa [copyRun, copyInit] using hn
    | succ k ih =>
      rw [copyRun_snoc, if_pos ih, copyStep_verify_fails c env n src dst _ hv]
      exact h
  unfold WRK_HandleCopyBlocks copyLoop
  simp only [hinv fuel, if_true]

/-- C19, the code at a failing input: every verify fails.  With a 16-bit
`CurrentBlock` and one block, and with a 32-bit `CurrentBlock` and 65538
blocks, the call does not return for any bound on the number of iterations;
the logs of the first iterations show the loop body running again after the
first failed verify (twice for a count of one block). -/
theorem C19_loop_never_ends :
    (∀ fuel, WRK_HandleCopyBlocks cfg16 envVerifyFails fuel 1 0x08070000 0x08010000
      blankState = none) ∧
    (copyRun cfg16 envVerifyFails 1 0x08070000 0x08010000 2
      (copyInit 1 0x08070000 0x08010000 blankState)).log =
      [.copyCall 1 0x08070000 0x08010000,
       .wdgRefresh, .erase 0x08010000 true, .clearBuffer, .read 0x08070000,
       .write 0x08010000, .verify 0x08010000 false, .report .noPayload .MStatVerifyError 0,
       .wdgRefresh, .erase 0x08010000 true, .clearBuffer, .read 0x08070000,
       .write 0x08010000, .verify 0x08010000 false, .report .noPayload .MStatVerifyError 0] ∧
    (∀ fuel, WRK_HandleCopyBlocks cfg32 envVerifyFails fuel 65538 0x08070000 0x08010000
      blankState = none) ∧
    (copyRun cfg32 envVerifyFails 65538 0x08070000 0x08010000 3
      (copyInit 65538 0x08070000 0x08010000 blankState)).log =
      [.copyCall 65538 0x08070000 0x08010000,
       .wdgRefresh, .erase 0x08010000 true, .clearBuffer, .read 0x08070000,
       .write 0x08010000, .verify 0x08010000 false, .report .noPayload .MStatVerifyError 0,
       .wdgRefresh, .erase 0x08810000 true, .clearBuffer, .read 0x08870000,
       .write 0x08810000, .verify 0x08810000 false, .report .noPayload .MStatVerifyError 0,
       .wdgRefresh, .erase 0x08810000 true, .clearBuffer, .read 0x08870000,
       .write 0x08810000, .verify 0x08810000 false, .report .noPayload .MStatVerifyError 0] := by
  refine ⟨fun fuel => ?_, by decide, fun fuel => ?_, by decide⟩
  · exact WRK_HandleCopyBlocks_never_ends cfg16 envVerifyFails 1 _ _ _ (fun _ => rfl)
      (by decide) (by decide) fuel
  · exact WRK_HandleCopyBlocks_never_ends cfg32 envVerifyFails 65538 _ _ _ (fun _ => rfl)
      (by decide) (by decide) fuel

/-! ## The addresses a copy erases and writes -/

theorem logExtP_refl (P : Event → Prop) (s : State) : LogExtP P s s :=
  ⟨[], by simp, by simp⟩

theorem logExtP_trans {P : Event → Prop} {s t u : State} (h1 : LogExtP P s t)
    (h2 : LogExtP P t u) : LogExtP P s u := by
  obtain ⟨e1, h1, p1⟩ := h1
  obtain ⟨e2, h2, p2⟩ := h2
  refine ⟨e1 ++ e2, by rw [h2, h1, List.append_assoc], ?_⟩
  intro e he
  rcases List.mem_append.mp he with h | h
  · exact p1 e h
  · exact p2 e h

theorem logExtP_of_list {P : Event → Prop} {s t : State} (l : List Event)
    (h : t.log = s.log ++ l) (hl : ∀ e ∈ l, P e) : LogExtP P s t :=
  ⟨l, h, hl⟩

theorem logExtP_mono {P Q : Event → Prop} {s t : State} (h : LogExtP P s t)
    (hPQ : ∀ e, P e → Q e) : LogExtP Q s t := by
  obtain ⟨e1, h1, p1⟩ := h
  exact ⟨e1, h1, fun e he => hPQ e (p1 e he)⟩

theorem logExtP_of_log_eq {P : Event → Prop} {s t u : State} (h : LogExtP P s t)
    (hu : u.log = t.log) : LogExtP P s u := by
  obtain ⟨e1, h1, p1⟩ := h
  exact ⟨e1, by rw [hu, h1], p1⟩

theorem logExtP_of_logExt {K : Event → Bool} {s t : State} (h : LogExt K s t) :
    LogExtP (fun e => K e = true) s t := h

theorem eraseStep_on (c : Cfg) (env : Env) (dst n i : Nat) (s : State) (hi : i < n) :
    LogExtP (Event.isLoopOn c dst n) s (eraseStep c env (blockAddr c dst i) s) := by
  unfold eraseStep
  split_ifs
  · exact logExtP_of_list [.erase (blockAddr c dst i) true] (by simp only [State.emit])
      (by simp [Event.isLoopOn, Event.isLoopEvent, Event.targets]; exact ⟨i, hi, rfl⟩)
  · refine logExtP_of_list [.erase (blockAddr c dst i) false,
      .report .noPayload .MStatErasePageError s.Progress]
      (by simp [State.emit, sendReport, State.setCurrentBlock]) ?_
    simp [Event.isLoopOn, Event.isLoopEvent, Event.targets]
    exact ⟨i, hi, rfl⟩
  · exact logExtP_refl _ s

theorem progressStep_on (c : Cfg) (n src dst : Nat) (s : State) :
    LogExtP (Event.isLoopOn c dst n) s (progressStep c n src s) := by
  unfold progressStep
  split_ifs
  · refine logExtP_of_list
      [.report (progressKind c src) .MStatSuccess (progressOf s.CurrentBlock n)]
      (by simp [State.emit, sendReport]) ?_
    simp [Event.isLoopOn, progressKind_loop, Event.targets]
  · exact logExtP_of_list [] (by simp) (by simp)

theorem transferStep_on (c : Cfg) (env : Env) (n src dst a i : Nat) (s : State) (hi : i < n) :
    LogExtP (Event.isLoopOn c dst n) s (transferStep c env n src a (blockAddr c dst i) s) := by
  unfold transferStep
  split_ifs
  · refine logExtP_trans ?_ (progressStep_on c n src dst _)
    refine logExtP_of_list [.clearBuffer, .read a, .write (blockAddr c dst i),
      .verify (blockAddr c dst i) true] (by simp [State.emit]) ?_
    simp [Event.isLoopOn, Event.isLoopEvent, Event.targets]
    exact ⟨i, hi, rfl⟩
  · refine logExtP_of_list [.clearBuffer, .read a, .write (blockAddr c dst i),
      .verify (blockAddr c dst i) false, .report .noPayload .MStatVerifyError s.Progress]
      (by simp [State.emit, sendReport, State.setCurrentBlock]) ?_
    simp [Event.isLoopOn, Event.isLoopEvent, Event.targets]
    exact ⟨i, hi, rfl⟩

theorem copyBody_on (c : Cfg) (env : Env) (n src dst : Nat) (s : State)
    (h : s.CurrentBlock < n) :
    LogExtP (Event.isLoopOn c dst n) s (copyBody c env n src dst s) := by
  unfold copyBody
  refine logExtP_trans (logExtP_of_list [.wdgRefresh] rfl ?_)
    (logExtP_trans (eraseStep_on c env dst n s.CurrentBlock (s.emit .wdgRefresh) h)
      (transferStep_on c env n src dst _ s.CurrentBlock _ h))
  simp [Event.isLoopOn, Event.isLoopEvent, Event.targets]

theorem copyRun_on (c : Cfg) (env : Env) (n src dst : Nat) (k : Nat) (s : State) :
    LogExtP (Event.isLoopOn c dst n) s (copyRun c env n src dst k s) := by
  induction k generalizing s with
  | zero => exact logExtP_refl _ s
  | succ k ih =>
    unfold copyRun
    split_ifs with hg
    · refine logExtP_trans (logExtP_of_log_eq (copyBody_on c env n src dst s hg) ?_) (ih _)
      simp only [copyStep, State.setCurrentBlock]
    · exact logExtP_refl _ s

/-- The log of a returning call: the call marker, loop events whose erases and
writes target blocks `0` to `n - 1` of the destination, the return marker. -/
theorem WRK_HandleCopyBlocks_on {c : Cfg} {env : Env} {fuel n src dst : Nat} {s s' : State}
    {r : Nat} (h : WRK_HandleCopyBlocks c env fuel n src dst s = some (r, s')) :
    ∃ evs, s'.log = s.log ++ (.copyCall n src dst :: evs ++ [.copyRet r]) ∧
      ∀ e ∈ evs, Event.isLoopOn c dst n e := by
  obtain ⟨evs, h1, h2⟩ := copyRun_on c env n src dst fuel (copyInit n src dst s)
  refine ⟨evs, ?_, h2⟩
  rw [(WRK_HandleCopyBlocks_some h).2.2]
  have h3 : (copyInit n src dst s).log = s.log ++ [.copyCall n src dst] := by
    simp only [copyInit, State.emit]
  simp only [State.emit, h1, h3]
  simp

/-! ## Events of the handlers -/

theorem isControl_of_start (e : Event) (h : e.isStartEvent = true) : e.isControl = true := by
  cases e with
  | setStatus p st => cases p <;> cases st <;> simp_all [Event.isStartEvent, Event.isControl]
  | setVersion p v => cases p <;> simp_all [Event.isStartEvent, Event.isControl]
  | report k st p => cases k <;> cases st <;> simp_all [Event.isStartEvent, Event.isControl]
  | _ => simp_all [Event.isStartEvent, Event.isControl]

theorem logExt_control_start (env : Env) (s : State) :
    LogExt Event.isControl s (WRK_StartApplication env s) :=
  logExt_mono (logExt_start env s) isControl_of_start

theorem logExt_afterStart {K : Event → Bool} {s t : State} (h : LogExt K s t)
    (hk : K (.led .BLINKING 255 0 0) = true) : LogExt K s (afterStart t ledFault) := by
  unfold afterStart
  split_ifs
  · exact h
  · exact logExt_trans h (logExt_emit K t _ hk)

theorem logExt_control_abortAndStart (env : Env) (s : State) :
    LogExt Event.isControl s (abortAndStart env s) := by
  simp only [abortAndStart]
  have h1 : LogExt Event.isControl s
      (sendReport .MTypeGetBootloaderStatus .MStatImageNotValid
        (if (s.setBootloaderStatus .sUNITERROR).app.Version > 0 then
          FLA_SetStatus .pApplication .fVALID (s.setBootloaderStatus .sUNITERROR)
        else s.setBootloaderStatus .sUNITERROR)) := by
    split_ifs
    · exact logExt_of_list [.setStatus .pApplication .fVALID,
        .report .MTypeGetBootloaderStatus .MStatImageNotValid s.Progress]
        (by simp [sendReport, FLA_SetStatus, State.setBootloaderStatus, State.emit])
        (by simp [Event.isControl])
    · exact logExt_of_list [.report .MTypeGetBootloaderStatus .MStatImageNotValid s.Progress]
        (by simp [sendReport, State.setBootloaderStatus, State.emit])
        (by simp [Event.isControl])
  exact logExt_afterStart (logExt_trans h1 (logExt_control_start env _)) rfl

theorem logExt_control_markCorrupt (s : State) : LogExt Event.isControl s (markCorrupt s) :=
  logExt_of_list _ (markCorrupt_log s) (by simp [Event.isControl])

theorem logExt_control_rollBackEntry (s : State) :
    LogExt Event.isControl s (rollBackEntry s) :=
  logExt_of_list _ (rollBackEntry_log s) (by simp [Event.isControl])

theorem logExt_control_rollBackDone (s : State) : LogExt Event.isControl s (rollBackDone s) :=
  logExt_of_list _ (rollBackDone_log s) (by simp [Event.isControl])

theorem logExt_control_installDone (s : State) : LogExt Event.isControl s (installDone s) :=
  logExt_of_list _ (installDone_log s) (by simp [Event.isControl])

theorem updatedDone_log (s : State) :
    (updatedDone s).log = s.log ++ [.setStatus .pApplication .fUPDATED,
      .setVersion .pApplication s.rb.Version,
      .report .MTypeGetBootloaderStatus .MStatNone s.Progress] := by
  simp [updatedDone, sendReport, FLA_SetStatus, FLA_SetVersion, State.setBootloaderStatus,
    State.emit]

theorem logExt_control_updatedDone (s : State) : LogExt Event.isControl s (updatedDone s) :=
  logExt_of_list _ (updatedDone_log s) (by simp [Event.isControl])

theorem inHandlerOn_of_control {c : Cfg} {dst n : Nat} {s t : State}
    (h : LogExt Event.isControl s t) : LogExtP (Event.inHandlerOn c dst n) s t :=
  logExtP_mono (logExtP_of_logExt h) (fun _ he => Or.inl he)

theorem inHandlerOn_of_copy {c : Cfg} {env : Env} {fuel n src dst : Nat} {s s' : State}
    {r : Nat} (h : WRK_HandleCopyBlocks c env fuel n src dst s = some (r, s')) :
    LogExtP (Event.inHandlerOn c dst n) s s' := by
  obtain ⟨evs, h1, h2⟩ := WRK_HandleCopyBlocks_on h
  refine ⟨_, h1, ?_⟩
  intro e he
  simp only [List.mem_append, List.mem_cons, List.mem_singleton] at he
  rcases he with (he | he) | he
  · rw [he]; exact Or.inr ⟨rfl, trivial⟩
  · exact Or.inr ⟨by simp [Event.isCopyEvent, (h2 e he).1], (h2 e he).2⟩
  · have he' : e = .copyRet r := by simpa using he
    rw [he']; exact Or.inr ⟨rfl, trivial⟩

/-- The events of `FLA_HandleRollBack`: control events, and a copy onto the
first `RollBack.NrOfBlocks` blocks counted from the Application base
address. -/
theorem FLA_HandleRollBack_on {c : Cfg} {env : Env} {fuel : Nat} {s s' : State}
    (h : FLA_HandleRollBack c env fuel s = some s') :
    LogExtP (Event.inHandlerOn c c.FLA_MAINADDRESS s.rb.NrOfBlocks) s s' := by
  unfold FLA_HandleRollBack at h
  split_ifs at h with h1
  · simp only [Option.some.injEq] at h
    rw [← h]; exact inHandlerOn_of_control (logExt_control_abortAndStart env s)
  · split at h
    · exact absurd h (by simp)
    · rename_i r t hc
      have ht := logExtP_trans (inHandlerOn_of_control (logExt_control_rollBackEntry s))
        (inHandlerOn_of_copy hc)
      split_ifs at h
      · simp only [Option.some.injEq] at h
        rw [← h]
        exact logExtP_trans ht (inHandlerOn_of_control
          (logExt_trans (logExt_control_rollBackDone t) (logExt_control_start env _)))
      · simp only [Option.some.injEq] at h
        rw [← h]
        exact logExtP_trans ht (inHandlerOn_of_control (logExt_control_markCorrupt t))

/-- The events of `FLA_HandleUpdated`: control events, and a copy onto the
blocks of the Application partition. -/
theorem FLA_HandleUpdated_on {c : Cfg} {env : Env} {fuel : Nat} {s s' : State}
    (h : FLA_HandleUpdated c env fuel s = some s') :
    LogExtP (Event.inHandlerOn c c.FLA_MAINADDRESS (c.FLA_LENGTH / c.FLA_BLOCKSIZE)) s s' := by
  unfold FLA_HandleUpdated at h
  split_ifs at h with h1
  · split at h
    · exact absurd h (by simp)
    · rename_i r t hc
      have h0 : LogExt Event.isControl s ((s.emit (.led .SWITCHEDON 255 0 0)).emit .ledHandle) :=
        logExt_of_list [.led .SWITCHEDON 255 0 0, .ledHandle] (by simp [State.emit])
          (by simp [Event.isControl])
      have ht := logExtP_trans (inHandlerOn_of_control h0) (inHandlerOn_of_copy hc)
      split_ifs at h
      · simp only [Option.some.injEq] at h
        rw [← h]
        exact logExtP_trans ht (inHandlerOn_of_control
          (logExt_trans (logExt_control_updatedDone t) (logExt_control_start env _)))
      · simp only [Option.some.injEq] at h
        rw [← h]
        exact logExtP_trans ht (inHandlerOn_of_control (logExt_control_markCorrupt t))
  · simp only [Option.some.injEq] at h
    rw [← h]
    exact inHandlerOn_of_control (logExt_control_markCorrupt s)

theorem WRK_StartApplication_rb_upd (env : Env) (s : State) :
    (WRK_StartApplication env s).rb = s.rb ∧ (WRK_StartApplication env s).upd = s.upd := by
  by_cases hv : s.app.Version = 0
  · rw [WRK_StartApplication_version_zero env s hv]
    simp [sendReport, ledFault, FLA_SetStatus, State.emit]
  · by_cases hw : imageWordOk (env.mainWord s.nWord) = true
    · rw [WRK_StartApplication_jump env s hv hw]
      simp [jumpToApplication, readMainWord, State.emit]
    · rw [WRK_StartApplication_bad_word env s hv (by simpa using hw)]
      simp [sendReport, ledFault, FLA_SetStatus, FLA_SetVersion, readMainWord, State.emit]

theorem abortAndStart_rb_upd (env : Env) (s : State) :
    (abortAndStart env s).rb = s.rb ∧ (abortAndStart env s).upd = s.upd := by
  simp only [abortAndStart, afterStart]
  split_ifs <;>
    simp [ledFault, State.emit, WRK_StartApplication_rb_upd, sendReport, FLA_SetStatus,
      State.setBootloaderStatus]

theorem updatedDone_fields (s : State) :
    (updatedDone s).app.Status = .fUPDATED ∧ (updatedDone s).app.Version = s.rb.Version ∧
    (updatedDone s).nWord = s.nWord ∧ (updatedDone s).jumped = s.jumped ∧
    (updatedDone s).rb = s.rb ∧ (updatedDone s).upd = s.upd := by
  simp [updatedDone, sendReport, FLA_SetStatus, FLA_SetVersion, State.setBootloaderStatus,
    State.emit]

/-- Returning runs of `FLA_HandleRollBack` leave the RollBack and Update
entries as they were. -/
theorem FLA_HandleRollBack_rb_upd {c : Cfg} {env : Env} {fuel : Nat} {s s' : State}
    (h : FLA_HandleRollBack c env fuel s = some s') : s'.rb = s.rb ∧ s'.upd = s.upd := by
  unfold FLA_HandleRollBack at h
  split_ifs at h with h1
  · simp only [Option.some.injEq] at h
    rw [← h]; exact abortAndStart_rb_upd env s
  · split at h
    · exact absurd h (by simp)
    · rename_i r t hc
      obtain ⟨-, f2, f3, -⟩ := copy_fields hc
      have e3 : (rollBackEntry s).rb = s.rb := by simp [rollBackEntry, sendReport, State.emit]
      have e2 : (rollBackEntry s).upd = s.upd := by simp [rollBackEntry, sendReport, State.emit]
      split_ifs at h
      · simp only [Option.some.injEq] at h
        obtain ⟨-, -, -, -, d5, d6⟩ := rollBackDone_fields t
        rw [← h, (WRK_StartApplication_rb_upd env _).1, (WRK_StartApplication_rb_upd env _).2,
          d5, d6, f2, f3, e2, e3]
        exact ⟨rfl, rfl⟩
      · simp only [Option.some.injEq] at h
        obtain ⟨-, -, -, -, m5, m6⟩ := markCorrupt_fields t
        rw [← h, m5, m6, f2, f3, e2, e3]
        exact ⟨rfl, rfl⟩

/-- Returning runs of `FLA_HandleUpdated` leave the RollBack and Update
entries as they were. -/
theorem FLA_HandleUpdated_rb_upd {c : Cfg} {env : Env} {fuel : Nat} {s s' : State}
    (h : FLA_HandleUpdated c env fuel s = some s') : s'.rb = s.rb ∧ s'.upd = s.upd := by
  unfold FLA_HandleUpdated at h
  split_ifs at h with h1
  · split at h
    · exact absurd h (by simp)
    · rename_i r t hc
      obtain ⟨-, f2, f3, -⟩ := copy_fields hc
      simp only [State.emit] at f2 f3
      split_ifs at h
      · simp only [Option.some.injEq] at h
        obtain ⟨-, -, -, -, d5, d6⟩ := updatedDone_fields t
        rw [← h, (WRK_StartApplication_rb_upd env _).1, (WRK_StartApplication_rb_upd env _).2,
          d5, d6, f2, f3]
        exact ⟨rfl, rfl⟩
      · simp only [Option.some.injEq] at h
        obtain ⟨-, -, -, -, m5, m6⟩ := markCorrupt_fields t
        rw [← h, m5, m6, f2, f3]
        exact ⟨rfl, rfl⟩
  · simp only [Option.some.injEq] at h
    obtain ⟨-, -, -, -, m5, m6⟩ := markCorrupt_fields s
    rw [← h, m5, m6]
    exact ⟨rfl, rfl⟩

/-! ## The RollBack partition under the RollBack and Updated handlers (C20) -/

theorem inHandlerOn_leaves_rollBack {c : Cfg} {dst n : Nat} (e : Event)
    (h : Event.inHandlerOn c dst n e) :
    Event.notRollBackWrite e = true ∧ Event.targets c dst n e := by
  rcases h with h | ⟨h1, h2⟩
  · cases e with
    | setStatus p st => cases p <;> simp_all [Event.isControl, Event.notRollBackWrite, Event.targets]
    | setVersion p v => cases p <;> simp_all [Event.isControl, Event.notRollBackWrite, Event.targets]
    | _ => simp_all [Event.isControl, Event.notRollBackWrite, Event.targets]
  · refine ⟨?_, h2⟩
    cases e <;> simp_all [Event.isCopyEvent, Event.isLoopEvent, Event.notRollBackWrite]

/-- Block addresses of the Application partition lie inside the partition
when the partition ends at or below `2 ^ 32`. -/
theorem blockAddr_inApplication (c : Cfg) (i : Nat) (hi : i < c.FLA_LENGTH / c.FLA_BLOCKSIZE)
    (hfit : c.FLA_MAINADDRESS + c.FLA_LENGTH ≤ 2 ^ 32) :
    c.inApplication (blockAddr c c.FLA_MAINADDRESS i) := by
  have hbs : 0 < c.FLA_BLOCKSIZE := by
    rcases Nat.eq_zero_or_pos c.FLA_BLOCKSIZE with h | h
    · rw [h, Nat.div_zero] at hi; omega
    · exact h
  have h1 : (i + 1) * c.FLA_BLOCKSIZE ≤ c.FLA_LENGTH :=
    (Nat.le_div_iff_mul_le hbs).mp hi
  have h2 : i * c.FLA_BLOCKSIZE + c.FLA_BLOCKSIZE ≤ c.FLA_LENGTH := by
    rw [Nat.add_mul, Nat.one_mul] at h1; exact h1
  have h3 : c.FLA_MAINADDRESS + i * c.FLA_BLOCKSIZE < 2 ^ 32 := by omega
  unfold Cfg.inApplication blockAddr
  rw [Nat.mod_eq_of_lt h3]
  omega

/-- C20 as stated fails: on a layout where the RollBack partition follows the
Application partition directly (partitions of 2 blocks) and with a RollBack
entry that records 3 blocks, `FLA_HandleRollBack` writes block 2 at the
RollBack base address `0x08010100`. -/
theorem C20_counterexample :
    cfgAdjacent.FLA_ROLLBACKADDRESS = 0x08010100 ∧
    rollBackThreeBlocks.rb = ⟨.fVALID, 3, 3⟩ ∧
    (FLA_HandleRollBack cfgAdjacent envAllOk 3 rollBackThreeBlocks).map
      (fun t => t.log.filter Event.isFlashOp) =
      some [.erase 0x08010000 true, .read 0x08010100, .write 0x08010000,
        .verify 0x08010000 true,
        .read 0x08010180, .write 0x08010080, .verify 0x08010080 true,
        .read 0x08010200, .write 0x08010100, .verify 0x08010100 true] := by
  decide

/-- C20 as amended: every returning run of `FLA_HandleRollBack` and of
`FLA_HandleUpdated` leaves the RollBack entry as it was and logs no write of
that entry; every erase and write it issues targets a block
`FLA_MAINADDRESS + i * FLA_BLOCKSIZE` (as a 32-bit address) with `i` below the
copy count, which is `RollBack.NrOfBlocks` for `FLA_HandleRollBack` and
`FLA_LENGTH / FLA_BLOCKSIZE` for `FLA_HandleUpdated`.  Blocks with `i` below
`FLA_LENGTH / FLA_BLOCKSIZE` lie inside the Application partition when that
partition ends at or below `2 ^ 32`.  The iterations of a copy that does not
end also only erase and write such blocks. -/
theorem C20_handlers_leave_rollback (c : Cfg) (env : Env) (fuel : Nat) (s : State) :
    (∀ s', FLA_HandleRollBack c env fuel s = some s' →
      s'.rb = s.rb ∧
      LogExtP (fun e => Event.notRollBackWrite e = true ∧
        Event.targets c c.FLA_MAINADDRESS s.rb.NrOfBlocks e) s s') ∧
    (∀ s', FLA_HandleUpdated c env fuel s = some s' →
      s'.rb = s.rb ∧
      LogExtP (fun e => Event.notRollBackWrite e = true ∧
        Event.targets c c.FLA_MAINADDRESS (c.FLA_LENGTH / c.FLA_BLOCKSIZE) e) s s') ∧
    (∀ i, i < c.FLA_LENGTH / c.FLA_BLOCKSIZE → c.FLA_MAINADDRESS + c.FLA_LENGTH ≤ 2 ^ 32 →
      c.inApplication (blockAddr c c.FLA_MAINADDRESS i)) ∧
    (∀ n src k t, LogExtP (Event.isLoopOn c c.FLA_MAINADDRESS n) t
      (copyRun c env n src c.FLA_MAINADDRESS k t)) := by
  refine ⟨fun s' h => ⟨(FLA_HandleRollBack_rb_upd h).1, ?_⟩,
    fun s' h => ⟨(FLA_HandleUpdated_rb_upd h).1, ?_⟩,
    fun i hi hfit => blockAddr_inApplication c i hi hfit,
    fun n src k t => copyRun_on c env n src c.FLA_MAINADDRESS k t⟩
  · exact logExtP_mono (FLA_HandleRollBack_on h) inHandlerOn_leaves_rollBack
  · exact logExtP_mono (FLA_HandleUpdated_on h) inHandlerOn_leaves_rollBack

/-- C20 as amended at concrete inputs: both handlers return on `cfg16` with a
Valid RollBack of 2 blocks and a driver that never fails, and the theorem
applies to the returned states. -/
theorem C20_handlers_leave_rollback_witness :
    (∃ s', FLA_HandleRollBack cfg16 envAllOk 2 updatedWithRollBack = some s' ∧
      s'.rb = updatedWithRollBack.rb ∧
      LogExtP (fun e => Event.notRollBackWrite e = true ∧
        Event.targets cfg16 cfg16.FLA_MAINADDRESS updatedWithRollBack.rb.NrOfBlocks e)
        updatedWithRollBack s') ∧
    (∃ s', FLA_HandleUpdated cfg16 envAllOk 2 updatedWithRollBack = some s' ∧
      s'.rb = updatedWithRollBack.rb ∧
      LogExtP (fun e => Event.notRollBackWrite e = true ∧
        Event.targets cfg16 cfg16.FLA_MAINADDRESS (cfg16.FLA_LENGTH / cfg16.FLA_BLOCKSIZE) e)
        updatedWithRollBack s') := by
  have h1 : (FLA_HandleRollBack cfg16 envAllOk 2 updatedWithRollBack).isSome = true := by decide
  have h2 : (FLA_HandleUpdated cfg16 envAllOk 2 updatedWithRollBack).isSome = true := by decide
  obtain ⟨s1, e1⟩ := Option.isSome_iff_exists.mp h1
  obtain ⟨s2, e2⟩ := Option.isSome_iff_exists.mp h2
  have hc := C20_handlers_leave_rollback cfg16 envAllOk 2 updatedWithRollBack
  exact ⟨⟨s1, e1, hc.1 s1 e1⟩, ⟨s2, e2, hc.2.1 s2 e2⟩⟩

/-! ## The dispatcher on a Corrupt Application (C16) -/

/-- C16: with Application Corrupt, `WRK_Handle` returns after logging the
status report and the fault indication only: no flash operation, no word
read, no jump.  The three partition entries and every other global variable
are unchanged, except `BootloaderStatus`, which is Active. -/
theorem C16_corrupt_stays_resident (c : Cfg) (env : Env) (fuel : Nat) (s : State)
    (h : s.app.Status = .fCORRUPT) :
    ∃ s', WRK_Handle c env fuel s = some s' ∧
      s'.log = s.log ++ [.report .MTypeGetBootloaderStatus .MStatNone s.Progress,
        .led .BLINKING 255 0 0] ∧
      s'.BootloaderStatus = .sACTIVE ∧
      s'.app = s.app ∧ s'.upd = s.upd ∧ s'.rb = s.rb ∧ s'.jumped = s.jumped ∧
      s'.CurrentBlock = s.CurrentBlock ∧ s'.Progress = s.Progress ∧
      s'.ProgressOld = s.ProgressOld ∧ s'.UartReturn = s.UartReturn ∧
      s'.nErase = s.nErase ∧ s'.nVerify = s.nVerify ∧ s'.nWord = s.nWord := by
  refine ⟨ledFault (sendReport .MTypeGetBootloaderStatus .MStatNone
    (s.setBootloaderStatus .sACTIVE)), ?_, ?_⟩
  · unfold WRK_Handle
    have h2 : (sendReport .MTypeGetBootloaderStatus .MStatNone
        (s.setBootloaderStatus .sACTIVE)).app.Status = .fCORRUPT := by
      simpa [sendReport, State.setBootloaderStatus, State.emit] using h
    simp only [h2, FLA_HandleCorrupt]
  · simp [ledFault, sendReport, State.setBootloaderStatus, State.emit]

/-- C16 at a concrete input: a reset state with Application Corrupt. -/
theorem C16_corrupt_stays_resident_witness :
    ∃ s', WRK_Handle cfg16 envAllOk 0 corruptState = some s' ∧
      s'.log = corruptState.log ++
        [.report .MTypeGetBootloaderStatus .MStatNone corruptState.Progress,
         .led .BLINKING 255 0 0] ∧
      s'.BootloaderStatus = .sACTIVE ∧
      s'.app = corruptState.app ∧ s'.upd = corruptState.upd ∧ s'.rb = corruptState.rb ∧
      s'.jumped = corruptState.jumped ∧
      s'.CurrentBlock = corruptState.CurrentBlock ∧ s'.Progress = corruptState.Progress ∧
      s'.ProgressOld = corruptState.ProgressOld ∧ s'.UartReturn = corruptState.UartReturn ∧
      s'.nErase = corruptState.nErase ∧ s'.nVerify = corruptState.nVerify ∧
      s'.nWord = corruptState.nWord :=
  C16_corrupt_stays_resident cfg16 envAllOk 0 corruptState rfl

/-! ## The version predicate of the Application entry (C13) -/

theorem versionInv_start (env : Env) (s : State) : (WRK_StartApplication env s).versionInv := by
  unfold State.versionInv
  by_cases hv : s.app.Version = 0
  · rw [WRK_StartApplication_version_zero env s hv]
    simp [sendReport, ledFault, FLA_SetStatus, State.emit]
  · by_cases hw : imageWordOk (env.mainWord s.nWord) = true
    · rw [WRK_StartApplication_jump env s hv hw]
      intro h0
      simp [jumpToApplication, readMainWord, State.emit] at h0
      exact absurd h0 hv
    · rw [WRK_StartApplication_bad_word env s hv (by simpa using hw)]
      simp [sendReport, ledFault, FLA_SetStatus, FLA_SetVersion, readMainWord, State.emit]

theorem versionInv_of_app {s t : State} (h : t.app = s.app) (hs : s.versionInv) :
    t.versionInv := by
  unfold State.versionInv at *
  rw [h]; exact hs

theorem versionInv_ledFault {s : State} (hs : s.versionInv) : (ledFault s).versionInv :=
  versionInv_of_app (by simp [ledFault, State.emit]) hs

theorem versionInv_abortAndStart (env : Env) (s : State) : (abortAndStart env s).versionInv := by
  simp only [abortAndStart, afterStart]
  split_ifs
  · exact versionInv_start env _
  · exact versionInv_ledFault (versionInv_start env _)
  · exact versionInv_start env _
  · exact versionInv_ledFault (versionInv_start env _)

theorem versionInv_markCorrupt (s : State) : (markCorrupt s).versionInv := by
  intro _
  exact Or.inr (markCorrupt_fields s).1

theorem FLA_HandleRollBack_versionInv {c : Cfg} {env : Env} {fuel : Nat} {s s' : State}
    (h : FLA_HandleRollBack c env fuel s = some s') : s'.versionInv := by
  unfold FLA_HandleRollBack at h
  split_ifs at h with h1
  · simp only [Option.some.injEq] at h
    rw [← h]; exact versionInv_abortAndStart env s
  · split at h
    · exact absurd h (by simp)
    · split_ifs at h
      · simp only [Option.some.injEq] at h
        rw [← h]; exact versionInv_start env _
      · simp only [Option.some.injEq] at h
        rw [← h]; exact versionInv_markCorrupt _

theorem installStep_versionInv {c : Cfg} {env : Env} {fuel : Nat} {s s' : State}
    (h : installStep c env fuel s = some s') : s'.versionInv := by
  unfold installStep at h
  split at h
  · exact absurd h (by simp)
  · split_ifs at h
    · simp only [Option.some.injEq] at h
      rw [← h]; exact versionInv_start env _
    · exact FLA_HandleRollBack_versionInv h
    · simp only [Option.some.injEq] at h
      rw [← h]; exact versionInv_markCorrupt _

theorem FLA_HandleUpdating_versionInv {c : Cfg} {env : Env} {fuel : Nat} {s s' : State}
    (h : FLA_HandleUpdating c env fuel s = some s') : s'.versionInv := by
  unfold FLA_HandleUpdating at h
  split_ifs at h with h1
  · simp only [Option.some.injEq] at h
    rw [← h]; exact versionInv_abortAndStart env _
  · split at h
    · exact absurd h (by simp)
    · split_ifs at h
      · exact installStep_versionInv h
      · simp only [Option.some.injEq] at h
        rw [← h]; exact versionInv_start env _

theorem FLA_HandleUpdated_versionInv {c : Cfg} {env : Env} {fuel : Nat} {s s' : State}
    (h : FLA_HandleUpdated c env fuel s = some s') : s'.versionInv := by
  unfold FLA_HandleUpdated at h
  split_ifs at h with h1
  · split at h
    · exact absurd h (by simp)
    · split_ifs at h
      · simp only [Option.some.injEq] at h
        rw [← h]; exact versionInv_start env _
      · simp only [Option.some.injEq] at h
        rw [← h]; exact versionInv_markCorrupt _
  · simp only [Option.some.injEq] at h
    rw [← h]; exact versionInv_markCorrupt _

/-- C13: if the partition table satisfies "Application version 0 implies
Application status Undefined or Corrupt" when `WRK_Handle` is entered, it
satisfies it again in the state `WRK_Handle` ends in, whether it returned or
jumped into the application; a jump happens only with a version that is not
0; and the final state is never Valid with version 0. -/
theorem C13_version_predicate_preserved (c : Cfg) (env : Env) (fuel : Nat) (s s' : State)
    (hs : s.resident) (hinv : s.versionInv) (h : WRK_Handle c env fuel s = some s') :
    s'.versionInv ∧ (s'.jumped = true → s'.app.Version ≠ 0) ∧
    ¬ (s'.app.Status = .fVALID ∧ s'.app.Version = 0) := by
  have hinv' : s'.versionInv := by
    have e2 : (sendReport .MTypeGetBootloaderStatus .MStatNone
        (s.setBootloaderStatus .sACTIVE)).app = s.app := by
      simp [sendReport, State.setBootloaderStatus, State.emit]
    have h2 : (sendReport .MTypeGetBootloaderStatus .MStatNone
        (s.setBootloaderStatus .sACTIVE)).versionInv := versionInv_of_app e2 hinv
    unfold WRK_Handle at h
    simp only at h
    split at h
    · simp only [Option.some.injEq] at h
      rw [← h]
      exact versionInv_of_app (by simp [FLA_HandleCorrupt, ledFault, State.emit]) h2
    · exact FLA_HandleUpdating_versionInv h
    · exact FLA_HandleRollBack_versionInv h
    · exact FLA_HandleUpdated_versionInv h
    · simp only [Option.some.injEq] at h
      rw [← h]; exact versionInv_start env _
    · simp only [Option.some.injEq] at h
      rw [← h]; exact versionInv_start env _
    · simp only [Option.some.injEq] at h
      rw [← h]
      exact versionInv_of_app (by simp [ledFault, State.emit]) h2
  refine ⟨hinv', ?_, ?_⟩
  · intro hj
    rcases WRK_Handle_safe hs h with h1 | h1
    · rw [h1.1] at hj; exact absurd hj (by simp)
    · exact h1.2.1
  · rintro ⟨h1, h2⟩
    rcases hinv' h2 with h3 | h3 <;> rw [h1] at h3 <;> exact absurd h3 (by decide)

/-- C13 at a concrete input: the update from version 3 to version 4 on
`cfg16` with a driver that never fails, entered through the dispatcher. -/
theorem C13_version_predicate_preserved_witness :
    ∃ s', WRK_Handle cfg16 envAllOk 10 updateState = some s' ∧
      s'.versionInv ∧ (s'.jumped = true → s'.app.Version ≠ 0) ∧
      ¬ (s'.app.Status = .fVALID ∧ s'.app.Version = 0) := by
  have h1 : (WRK_Handle cfg16 envAllOk 10 updateState).isSome = true := by decide
  obtain ⟨s1, e1⟩ := Option.isSome_iff_exists.mp h1
  exact ⟨s1, e1, C13_version_predicate_preserved cfg16 envAllOk 10 updateState s1
    ⟨rfl, by simp [updateState, bootState]⟩ (fun h0 => absurd h0 (by decide)) e1⟩

/-! ## The RollBack handler with a Valid RollBack entry (C14) -/

theorem filter_nil_of_class {K L : Event → Bool} {l : List Event}
    (h : ∀ e ∈ l, K e = true) (hKL : ∀ e, K e = true → L e = false) : l.filter L = [] := by
  rw [List.filter_eq_nil_iff]
  intro e he
  rw [hKL e (h e he)]
  simp

theorem start_no_copyCall (e : Event) (h : e.isStartEvent = true) : e.isCopyCall = false := by
  cases e <;> first | rfl | simp [Event.isStartEvent] at h

theorem loop_no_copyCall (e : Event) (h : e.isLoopEvent = true) : e.isCopyCall = false := by
  cases e <;> first | rfl | simp [Event.isLoopEvent] at h

/-- C14: `FLA_HandleRollBack` entered with RollBack Valid, when its copy
returns.  The handler returns, and its log holds exactly one call of
`WRK_HandleCopyBlocks`, with count `RollBack.NrOfBlocks`, source
`FLA_ROLLBACKADDRESS` and destination `FLA_MAINADDRESS`.  If the copy returned
1, the launcher is called in a state with Application Updated, Application
version equal to the RollBack version and bootloader status Idle, right
after the token; the launcher jumps when that version is not 0 and the image
word passes, and refuses otherwise.  If the copy returned anything else, the
handler ends with Application Corrupt, version 0, the fault indication, and
no event of the launcher. -/
theorem C14_rollback_valid (c : Cfg) (env : Env) (fuel : Nat) (s t : State) (r : Nat)
    (hr : s.rb.Status = .fVALID)
    (hc : WRK_HandleCopyBlocks c env fuel s.rb.NrOfBlocks c.FLA_ROLLBACKADDRESS
      c.FLA_MAINADDRESS (rollBackEntry s) = some (r, t)) :
    ∃ s' evs, FLA_HandleRollBack c env fuel s = some s' ∧
      s'.log = s.log ++ evs ∧
      evs.filter Event.isCopyCall =
        [.copyCall s.rb.NrOfBlocks c.FLA_ROLLBACKADDRESS c.FLA_MAINADDRESS] ∧
      (r = 1 →
        s' = WRK_StartApplication env (rollBackDone t) ∧
        (rollBackDone t).app.Status = .fUPDATED ∧
        (rollBackDone t).app.Version = s.rb.Version ∧
        (rollBackDone t).BootloaderStatus = .sIDLE ∧
        (rollBackDone t).jumped = s.jumped ∧
        (rollBackDone t).log = t.log ++ [.setStatus .pApplication .fUPDATED,
          .setVersion .pApplication s.rb.Version,
          .report .MTypeGetBootloaderStatus .MStatNone t.Progress, .token .restoreReady] ∧
        ((s.rb.Version ≠ 0 ∧ imageWordOk (env.mainWord s.nWord) = true) →
          s'.jumped = true ∧ s'.app.Status = .fUPDATED ∧ s'.app.Version = s.rb.Version ∧
          s'.BootloaderStatus = .sIDLE) ∧
        (s.jumped = false →
          ¬ (s.rb.Version ≠ 0 ∧ imageWordOk (env.mainWord s.nWord) = true) →
          s'.jumped = false ∧ s'.app.Status = .fUNDEFINED ∧ s'.app.Version = 0)) ∧
      (r ≠ 1 →
        s'.app.Status = .fCORRUPT ∧ s'.app.Version = 0 ∧ s'.jumped = s.jumped ∧
        s'.BootloaderStatus = s.BootloaderStatus ∧
        s'.log = t.log ++ [.setStatus .pApplication .fCORRUPT,
          .setVersion .pApplication 0, .led .BLINKING 255 0 0]) := by
  have hv := FLA_HandleRollBack_valid hr hc
  obtain ⟨l, hl, hloop⟩ := WRK_HandleCopyBlocks_log hc
  have hf := copy_fields hc
  have hbs : t.BootloaderStatus = s.BootloaderStatus := by
    rw [hf.2.2.2.1]; simp [rollBackEntry, sendReport, State.emit]
  have hrb : t.rb = s.rb := by
    rw [hf.2.2.1]; simp [rollBackEntry, sendReport, State.emit]
  have hnw : t.nWord = s.nWord := by
    rw [hf.2.2.2.2.1]; simp [rollBackEntry, sendReport, State.emit]
  have hj : t.jumped = s.jumped := by
    rw [hf.2.2.2.2.2]; simp [rollBackEntry, sendReport, State.emit]
  have hloop0 : l.filter Event.isCopyCall = [] := filter_nil_of_class hloop loop_no_copyCall
  have hd := rollBackDone_fields t
  have hdl := rollBackDone_log t
  rw [hrb] at hdl
  by_cases h1 : r = 1
  · obtain ⟨l2, hl2, hstart⟩ := logExt_start env (rollBackDone t)
    have hstart0 : l2.filter Event.isCopyCall = [] := filter_nil_of_class hstart start_no_copyCall
    refine ⟨WRK_StartApplication env (rollBackDone t),
      [.report .MTypeGetBootloaderStatus .MStatNone s.Progress, .led .SWITCHEDON 255 0 0,
        .ledHandle] ++ (.copyCall s.rb.NrOfBlocks c.FLA_ROLLBACKADDRESS c.FLA_MAINADDRESS ::
        l ++ [.copyRet r]) ++ [.setStatus .pApplication .fUPDATED,
        .setVersion .pApplication s.rb.Version,
        .report .MTypeGetBootloaderStatus .MStatNone t.Progress, .token .restoreReady] ++ l2,
      ?_, ?_, ?_, ?_, ?_⟩
    · rw [hv, if_pos h1]
    · rw [hl2, hdl, hl, rollBackEntry_log]
      simp only [List.append_assoc]
    · simp only [List.filter_append, List.filter_cons, hloop0, hstart0]
      simp [Event.isCopyCall]
    · intro _
      refine ⟨rfl, hd.1, by rw [hd.2.1, hrb], by simp [rollBackDone, sendReport,
        FLA_SetStatus, FLA_SetVersion, State.setBootloaderStatus, State.emit],
        by rw [hd.2.2.2.1, hj], hdl, ?_, ?_⟩
      · intro hok
        have ho := start_outcome_jump env (rollBackDone t)
          ⟨by rw [hd.2.1, hrb]; exact hok.1, by rw [hd.2.2.1, hnw]; exact hok.2⟩
        refine ⟨ho.1, by rw [ho.2.1]; exact hd.1, by rw [ho.2.1, hd.2.1, hrb], ?_⟩
        rw [WRK_StartApplication_jump env _ (by rw [hd.2.1, hrb]; exact hok.1)
          (by rw [hd.2.2.1, hnw]; exact hok.2)]
        simp [jumpToApplication, readMainWord, rollBackDone, sendReport,
          FLA_SetStatus, FLA_SetVersion, State.setBootloaderStatus, State.emit]
      · intro hj0 hno
        have ho := start_outcome_refuse env (rollBackDone t) (by rw [hd.2.2.2.1, hj]; exact hj0)
          (by rw [hd.2.1, hrb, hd.2.2.1, hnw]; exact hno)
        exact ⟨ho.1, ho.2.1, ho.2.2.1⟩
    · intro h2; exact absurd h1 h2
  · have hm := markCorrupt_fields t
    refine ⟨markCorrupt t,
      [.report .MTypeGetBootloaderStatus .MStatNone s.Progress, .led .SWITCHEDON 255 0 0,
        .ledHandle] ++ (.copyCall s.rb.NrOfBlocks c.FLA_ROLLBACKADDRESS c.FLA_MAINADDRESS ::
        l ++ [.copyRet r]) ++ [.setStatus .pApplication .fCORRUPT,
        .setVersion .pApplication 0, .led .BLINKING 255 0 0], ?_, ?_, ?_, ?_, ?_⟩
    · rw [hv, if_neg h1]
    · rw [markCorrupt_log, hl, rollBackEntry_log]
      simp only [List.append_assoc]
    · simp only [List.filter_append, List.filter_cons, hloop0]
      simp [Event.isCopyCall]
    · intro h2; exact absurd h2 h1
    · intro _
      refine ⟨hm.1, hm.2.1, by rw [hm.2.2.2.1, hj], ?_, markCorrupt_log t⟩
      rw [← hbs]
      simp [markCorrupt, ledFault, FLA_SetStatus, FLA_SetVersion, State.emit]

/-- C14 at concrete inputs, with a driver whose calls all succeed: a RollBack
image of 2 blocks is restored and launched; one recorded with 65535 blocks
makes the copy return 2 and leaves Application Corrupt without a launch. -/
theorem C14_rollback_valid_witness :
    (∃ s', FLA_HandleRollBack cfg16 envAllOk 2 rollBackState = some s' ∧
      s'.jumped = true ∧ s'.app.Status = .fUPDATED ∧ s'.app.Version = 3 ∧
      s'.BootloaderStatus = .sIDLE) ∧
    (∃ s', FLA_HandleRollBack cfg16 envAllOk 65535 bigRollBackState = some s' ∧
      s'.jumped = false ∧ s'.app.Status = .fCORRUPT ∧ s'.app.Version = 0) := by
  constructor
  · obtain ⟨t, ht⟩ := WRK_HandleCopyBlocks_allOk cfg16 envAllOk 2 2 cfg16.FLA_ROLLBACKADDRESS
      cfg16.FLA_MAINADDRESS (rollBackEntry rollBackState) envAllOk_allOk (by decide)
      (by decide) (by decide)
    rw [if_neg (by decide)] at ht
    obtain ⟨s', _, h1, _, _, h4, _⟩ :=
      C14_rollback_valid cfg16 envAllOk 2 rollBackState t 1 rfl ht
    have h := (h4 rfl).2.2.2.2.2.2.1 ⟨by decide, by decide⟩
    exact ⟨s', h1, h⟩
  · obtain ⟨t, ht⟩ := WRK_HandleCopyBlocks_allOk cfg16 envAllOk 65535 65535
      cfg16.FLA_ROLLBACKADDRESS cfg16.FLA_MAINADDRESS (rollBackEntry bigRollBackState)
      envAllOk_allOk (by decide) (by decide) (by decide)
    rw [if_pos rfl] at ht
    obtain ⟨s', _, h1, _, _, _, h5⟩ :=
      C14_rollback_valid cfg16 envAllOk 65535 bigRollBackState t 2 rfl ht
    have h := h5 (by decide)
    exact ⟨s', h1, h.2.2.1, h.1, h.2.1⟩

/-! ## An update in which nothing fails (C11) -/

theorem copy_allOk_shape (c : Cfg) (env : Env) (fuel n src dst : Nat) (s : State)
    (hok : env.allOk) (hM : n < c.cbMod) (hne : n ≠ 65535) (hf : n ≤ fuel) :
    ∃ s' l, WRK_HandleCopyBlocks c env fuel n src dst s = some (1, s') ∧
      s'.log = s.log ++ (.copyCall n src dst :: l ++ [.copyRet 1]) ∧
      (∀ e ∈ l, Event.isLoopEvent e = true) ∧
      l.filter Event.isFlashOp = opsFrom c src dst 0 n := by
  obtain ⟨s', evs, h1, h2, h3⟩ := WRK_HandleCopyBlocks_allOk_ops c env fuel n src dst s hok hM hf
  rw [if_neg hne] at h1
  obtain ⟨l, hl, hloop⟩ := WRK_HandleCopyBlocks_log h1
  refine ⟨s', l, h1, hl, hloop, ?_⟩
  have he : evs = .copyCall n src dst :: l ++ [.copyRet 1] :=
    List.append_cancel_left (h2.symm.trans hl)
  rw [← h3, he]
  simp [List.filter_cons, Event.isFlashOp]

theorem installStep_ok {c : Cfg} {env : Env} {fuel : Nat} {s t : State}
    (hi : WRK_HandleCopyBlocks c env fuel s.upd.NrOfBlocks c.FLA_UPGRADEADDRESS
      c.FLA_MAINADDRESS s = some (1, t)) :
    installStep c env fuel s = some (WRK_StartApplication env (installDone t)) := by
  unfold installStep
  rw [hi]
  simp

theorem installDone_fields (s : State) :
    (installDone s).app.Status = .fUPDATED ∧ (installDone s).app.Version = s.upd.Version ∧
    (installDone s).nWord = s.nWord ∧ (installDone s).jumped = s.jumped ∧
    (installDone s).rb = s.rb ∧ (installDone s).upd = s.upd ∧
    (installDone s).BootloaderStatus = .sIDLE := by
  simp [installDone, sendReport, FLA_SetStatus, FLA_SetVersion, State.setBootloaderStatus,
    State.emit]

theorem jump_fields (env : Env) (s : State) :
    (jumpToApplication env ((readMainWord env s).emit .deinit)).app = s.app ∧
    (jumpToApplication env ((readMainWord env s).emit .deinit)).upd = s.upd ∧
    (jumpToApplication env ((readMainWord env s).emit .deinit)).rb = s.rb ∧
    (jumpToApplication env ((readMainWord env s).emit .deinit)).BootloaderStatus =
      s.BootloaderStatus ∧
    (jumpToApplication env ((readMainWord env s).emit .deinit)).jumped = true ∧
    (jumpToApplication env ((readMainWord env s).emit .deinit)).log =
      s.log ++ [.wordRead (env.mainWord s.nWord), .deinit,
        .wordRead (env.mainWord (s.nWord + 1)), .jump (env.mainWord (s.nWord + 1))] := by
  simp [jumpToApplication, readMainWord, State.emit]

/-- C11: the update from version 3 to version 4 when nothing fails.  With
Application version 3, a first image word that passes the check before the
backup and again after the install, Update Valid with version 4 and 10
blocks, and a driver whose erases and verifies all succeed (whatever the
RollBack entry holds, so in particular when it is not Valid),
`FLA_HandleUpdating` ends (given fuel for both copies) and its log
is, in this order: the status report and LED calls, the word read, the write
of status Updating to RollBack, the copy of the whole partition from
`FLA_MAINADDRESS` to `FLA_ROLLBACKADDRESS` returning 1, the writes of status
Valid and version 3 to RollBack, the copy of 10 blocks from
`FLA_UPGRADEADDRESS` to `FLA_MAINADDRESS` returning 1, the writes of status
Updated and version 4 to Application, the delay, the Success report, the
token, and the launch (word read, de-initialisation, stack pointer read,
jump).  The token occurs exactly once.  At the jump RollBack is Valid with
version 3, Application is Updated with version 4 and the bootloader status is
Idle.  The partition size in blocks has to be below the range of
`CurrentBlock` and different from 65535. -/
theorem C11_update_end_to_end (c : Cfg) (env : Env) (fuel : Nat) (s : State)
    (hM1 : c.FLA_LENGTH / c.FLA_BLOCKSIZE < c.cbMod)
    (hne : c.FLA_LENGTH / c.FLA_BLOCKSIZE ≠ 65535) (hM2 : 10 < c.cbMod)
    (hf1 : c.FLA_LENGTH / c.FLA_BLOCKSIZE ≤ fuel) (hf2 : 10 ≤ fuel)
    (hok : env.allOk)
    (hw1 : imageWordOk (env.mainWord s.nWord) = true)
    (hw2 : imageWordOk (env.mainWord (s.nWord + 1)) = true)
    (hv : s.app.Version = 3)
    (hus : s.upd.Status = .fVALID) (huv : s.upd.Version = 4) (hun : s.upd.NrOfBlocks = 10) :
    ∃ s' l1 l2 p evs, FLA_HandleUpdating c env fuel s = some s' ∧
      s'.log = s.log ++ evs ∧
      evs = [.report .MTypeGetBootloaderStatus .MStatNone s.Progress,
          .led .SWITCHEDON 0 0 255, .ledHandle, .wordRead (env.mainWord s.nWord),
          .setStatus .pRollBack .fUPDATING,
          .copyCall (c.FLA_LENGTH / c.FLA_BLOCKSIZE) c.FLA_MAINADDRESS c.FLA_ROLLBACKADDRESS] ++
        l1 ++
        [.copyRet 1, .setStatus .pRollBack .fVALID, .setVersion .pRollBack 3,
          .copyCall 10 c.FLA_UPGRADEADDRESS c.FLA_MAINADDRESS] ++
        l2 ++
        [.copyRet 1, .led .SWITCHEDON 0 0 255, .setStatus .pApplication .fUPDATED,
          .setVersion .pApplication 4, .delay 100,
          .report .MTypeGetBootloaderStatus .MStatSuccess p, .token .updateReady,
          .wordRead (env.mainWord (s.nWord + 1)), .deinit,
          .wordRead (env.mainWord (s.nWord + 2)), .jump (env.mainWord (s.nWord + 2))] ∧
      (∀ e ∈ l1, Event.isLoopEvent e = true) ∧
      l1.filter Event.isFlashOp =
        opsFrom c c.FLA_MAINADDRESS c.FLA_ROLLBACKADDRESS 0 (c.FLA_LENGTH / c.FLA_BLOCKSIZE) ∧
      (∀ e ∈ l2, Event.isLoopEvent e = true) ∧
      l2.filter Event.isFlashOp = opsFrom c c.FLA_UPGRADEADDRESS c.FLA_MAINADDRESS 0 10 ∧
      evs.filter Event.isToken = [.token .updateReady] ∧
      s'.rb.Status = .fVALID ∧ s'.rb.Version = 3 ∧
      s'.app.Status = .fUPDATED ∧ s'.app.Version = 4 ∧
      s'.upd = s.upd ∧ s'.BootloaderStatus = .sIDLE ∧ s'.jumped = true := by
  have hv0 : (updatingEntry s).app.Version > 0 := by
    simp [updatingEntry, sendReport, State.emit, hv]
  have hw0 : imageWordOk (env.mainWord (updatingEntry s).nWord) = true := by
    simpa [updatingEntry, sendReport, State.emit] using hw1
  obtain ⟨t1, l1, hc1, hl1, hloop1, hops1⟩ := copy_allOk_shape c env fuel
    (c.FLA_LENGTH / c.FLA_BLOCKSIZE) c.FLA_MAINADDRESS c.FLA_ROLLBACKADDRESS
    (FLA_SetStatus .pRollBack .fUPDATING (readMainWord env (updatingEntry s))) hok hM1 hne hf1
  have f1 := copy_fields hc1
  have hb := backupStep_attempt_ok hv0 hw0 hc1
  have hup := FLA_HandleUpdating_backup_ok hus hb
  have a1 : t1.app = s.app := by
    rw [f1.1]; simp [FLA_SetStatus, readMainWord, updatingEntry, sendReport, State.emit]
  have u1 : t1.upd = s.upd := by
    rw [f1.2.1]; simp [FLA_SetStatus, readMainWord, updatingEntry, sendReport, State.emit]
  have n1 : t1.nWord = s.nWord + 1 := by
    rw [f1.2.2.2.2.1]; simp [FLA_SetStatus, readMainWord, updatingEntry, sendReport, State.emit]
  have hnb : (FLA_SetVersion .pRollBack t1.app.Version
      (FLA_SetStatus .pRollBack .fVALID t1)).upd.NrOfBlocks = 10 := by
    simp [FLA_SetStatus, FLA_SetVersion, State.emit, u1, hun]
  obtain ⟨t2, l2, hc2, hl2, hloop2, hops2⟩ := copy_allOk_shape c env fuel 10
    c.FLA_UPGRADEADDRESS c.FLA_MAINADDRESS
    (FLA_SetVersion .pRollBack t1.app.Version (FLA_SetStatus .pRollBack .fVALID t1))
    hok hM2 (by decide) hf2
  have f2 := copy_fields hc2
  have hi : installStep c env fuel (FLA_SetVersion .pRollBack t1.app.Version
      (FLA_SetStatus .pRollBack .fVALID t1)) = _ := installStep_ok (hnb.symm ▸ hc2)
  have u2 : t2.upd = s.upd := by
    rw [f2.2.1]; simp [FLA_SetStatus, FLA_SetVersion, State.emit, u1]
  have n2 : t2.nWord = s.nWord + 1 := by
    rw [f2.2.2.2.2.1]; simp [FLA_SetStatus, FLA_SetVersion, State.emit, n1]
  have r2 : t2.rb.Status = .fVALID ∧ t2.rb.Version = 3 := by
    rw [f2.2.2.1]; simp [FLA_SetStatus, FLA_SetVersion, State.emit, a1, hv]
  have hd := installDone_fields t2
  have hst := WRK_StartApplication_jump env (installDone t2)
    (by rw [hd.2.1, u2, huv]; decide) (by rw [hd.2.2.1, n2]; exact hw2)
  have hj := jump_fields env (installDone t2)
  refine ⟨_, l1, l2, t2.Progress, _, by rw [hup, hi, hst], ?_, rfl, hloop1, hops1, hloop2,
    hops2, ?_, ?_, ?_, ?_, ?_, ?_, ?_, hj.2.2.2.2.1⟩
  · rw [hj.2.2.2.2.2, installDone_log, hl2]
    simp only [FLA_SetVersion, FLA_SetStatus, State.emit, hl1, readMainWord, updatingEntry_log,
      hd.2.2.1, n2, u2, huv, a1, hv]
    simp [updatingEntry, sendReport, State.emit]
  · have t1 : l1.filter Event.isToken = [] :=
      filter_nil_of_class hloop1 (by intro e he; cases e <;> first | rfl | simp [Event.isLoopEvent] at he)
    have t2 : l2.filter Event.isToken = [] :=
      filter_nil_of_class hloop2 (by intro e he; cases e <;> first | rfl | simp [Event.isLoopEvent] at he)
    simp only [List.filter_append, t1, t2]
    simp [List.filter_cons, Event.isToken]
  · rw [hj.2.2.1, hd.2.2.2.2.1]; exact r2.1
  · rw [hj.2.2.1, hd.2.2.2.2.1]; exact r2.2
  · rw [hj.1]; exact hd.1
  · rw [hj.1, hd.2.1, u2, huv]
  · rw [hj.2.1, hd.2.2.2.2.2.1, u2]
  · rw [hj.2.2.2.1]; exact hd.2.2.2.2.2.2

/-- C11 at a concrete input: partitions of 1536 blocks, a 16-bit block
counter, a driver whose calls all succeed and the reset state of an update
from version 3 to version 4 with 10 blocks. -/
theorem C11_update_end_to_end_witness :
    ∃ s', FLA_HandleUpdating cfgPlain envAllOk 1536 updateState = some s' ∧
      s'.log.filter Event.isToken = [.token .updateReady] ∧
      s'.rb.Status = .fVALID ∧ s'.rb.Version = 3 ∧
      s'.app.Status = .fUPDATED ∧ s'.app.Version = 4 ∧ s'.jumped = true := by
  obtain ⟨s', l1, l2, p, evs, h1, h2, _, _, _, _, _, h3, h4, h5, h6, h7, _, _, h8⟩ :=
    C11_update_end_to_end cfgPlain envAllOk 1536 updateState (by decide) (by decide)
      (by decide) (by decide) (by decide) envAllOk_allOk (by decide) (by decide) rfl rfl rfl rfl
  refine ⟨s', h1, ?_, h4, h5, h6, h7, h8⟩
  rw [h2, List.filter_append, h3]
  rfl

/-! ## The Updating handler when the backup copy returns an error (C12) -/

/-- Block addresses of the RollBack partition lie outside the Application
partition when the two partitions do not overlap. -/
theorem blockAddr_rollBack_apart (c : Cfg) (i : Nat) (hi : i < c.FLA_LENGTH / c.FLA_BLOCKSIZE)
    (hlay : c.rollBackApart) : ¬ c.inApplication (blockAddr c c.FLA_ROLLBACKADDRESS i) := by
  have hbs : 0 < c.FLA_BLOCKSIZE := by
    rcases Nat.eq_zero_or_pos c.FLA_BLOCKSIZE with h | h
    · rw [h, Nat.div_zero] at hi; omega
    · exact h
  have h1 : (i + 1) * c.FLA_BLOCKSIZE ≤ c.FLA_LENGTH :=
    (Nat.le_div_iff_mul_le hbs).mp hi
  have h2 : i * c.FLA_BLOCKSIZE + c.FLA_BLOCKSIZE ≤ c.FLA_LENGTH := by
    rw [Nat.add_mul, Nat.one_mul] at h1; exact h1
  obtain ⟨hfit, hap⟩ := hlay
  have h3 : c.FLA_ROLLBACKADDRESS + i * c.FLA_BLOCKSIZE < 2 ^ 32 := by omega
  unfold Cfg.inApplication blockAddr
  rw [Nat.mod_eq_of_lt h3]
  omega

theorem loopOn_rollBack_apart {c : Cfg} (hlay : c.rollBackApart) (e : Event)
    (h : Event.isLoopOn c c.FLA_ROLLBACKADDRESS (c.FLA_LENGTH / c.FLA_BLOCKSIZE) e) :
    ¬ Event.hitsApplication c e := by
  cases e with
  | erase a ok =>
    obtain ⟨i, hi, ha⟩ := h.2
    simp only [Event.hitsApplication]
    rw [ha]; exact blockAddr_rollBack_apart c i hi hlay
  | write a =>
    obtain ⟨i, hi, ha⟩ := h.2
    simp only [Event.hitsApplication]
    rw [ha]; exact blockAddr_rollBack_apart c i hi hlay
  | _ => simp [Event.hitsApplication]

theorem not_hits_of_control {c : Cfg} (e : Event) (h : e.isControl = true) :
    ¬ Event.hitsApplication c e := by
  cases e <;> first | (simp [Event.isControl] at h; done) | simp [Event.hitsApplication]

theorem backupStep_attempt_error {c : Cfg} {env : Env} {fuel : Nat} {s t : State} {r : Nat}
    (hv : s.app.Version > 0) (hw : imageWordOk (env.mainWord s.nWord) = true)
    (hc : WRK_HandleCopyBlocks c env fuel (c.FLA_LENGTH / c.FLA_BLOCKSIZE) c.FLA_MAINADDRESS
      c.FLA_ROLLBACKADDRESS (FLA_SetStatus .pRollBack .fUPDATING (readMainWord env s)) =
        some (r, t)) (hr : r ≠ 1) :
    backupStep c env fuel s =
      some (r, ledFault (FLA_SetVersion .pRollBack 0 (FLA_SetStatus .pRollBack .fCORRUPT t))) := by
  unfold backupStep
  rw [if_pos hv, if_pos hw, hc]
  simp [hr]

theorem updating_backup_error (c : Cfg) (env : Env) (fuel : Nat) (s t : State) (r : Nat)
    (hu : s.upd.Status = .fVALID) (hv : 0 < s.app.Version)
    (hw : imageWordOk (env.mainWord s.nWord) = true)
    (hc : WRK_HandleCopyBlocks c env fuel (c.FLA_LENGTH / c.FLA_BLOCKSIZE) c.FLA_MAINADDRESS
      c.FLA_ROLLBACKADDRESS
      (FLA_SetStatus .pRollBack .fUPDATING (readMainWord env (updatingEntry s))) = some (r, t))
    (hr : r ≠ 1) :
    ∃ s' u l l3 evs, FLA_HandleUpdating c env fuel s = some s' ∧
      s' = WRK_StartApplication env u ∧
      s'.log = s.log ++ evs ∧
      evs = [.report .MTypeGetBootloaderStatus .MStatNone s.Progress,
          .led .SWITCHEDON 0 0 255, .ledHandle, .wordRead (env.mainWord s.nWord),
          .setStatus .pRollBack .fUPDATING,
          .copyCall (c.FLA_LENGTH / c.FLA_BLOCKSIZE) c.FLA_MAINADDRESS c.FLA_ROLLBACKADDRESS] ++
        l ++
        [.copyRet r, .setStatus .pRollBack .fCORRUPT, .setVersion .pRollBack 0,
          .led .BLINKING 255 0 0,
          .report .MTypeGetBootloaderStatus .MStatCreateRollBackError t.Progress,
          .setStatus .pApplication .fVALID] ++ l3 ∧
      (∀ e ∈ l, Event.isLoopOn c c.FLA_ROLLBACKADDRESS (c.FLA_LENGTH / c.FLA_BLOCKSIZE) e) ∧
      (∀ e ∈ l3, Event.isStartEvent e = true) ∧
      evs.filter Event.isCopyCall =
        [.copyCall (c.FLA_LENGTH / c.FLA_BLOCKSIZE) c.FLA_MAINADDRESS c.FLA_ROLLBACKADDRESS] ∧
      (c.rollBackApart → ∀ e ∈ evs, ¬ Event.hitsApplication c e) ∧
      u.app.Status = .fVALID ∧ u.app.Version = s.app.Version ∧ u.jumped = s.jumped ∧
      s'.rb.Status = .fCORRUPT ∧ s'.rb.Version = 0 ∧ s'.upd = s.upd ∧
      (imageWordOk (env.mainWord (s.nWord + 1)) = true →
        s'.jumped = true ∧ s'.app.Status = .fVALID ∧ s'.app.Version = s.app.Version) ∧
      (s.jumped = false → imageWordOk (env.mainWord (s.nWord + 1)) = false →
        s'.jumped = false ∧ s'.app.Status = .fUNDEFINED ∧ s'.app.Version = 0) := by
  have hv0 : (updatingEntry s).app.Version > 0 := by
    simpa [updatingEntry, sendReport, State.emit] using hv
  have hw0 : imageWordOk (env.mainWord (updatingEntry s).nWord) = true := by
    simpa [updatingEntry, sendReport, State.emit] using hw
  have hb := backupStep_attempt_error hv0 hw0 hc hr
  have f := copy_fields hc
  obtain ⟨l, hl, hon⟩ := WRK_HandleCopyBlocks_on hc
  have ha : t.app = s.app := by
    rw [f.1]; simp [FLA_SetStatus, readMainWord, updatingEntry, sendReport, State.emit]
  have hup : t.upd = s.upd := by
    rw [f.2.1]; simp [FLA_SetStatus, readMainWord, updatingEntry, sendReport, State.emit]
  have hn : t.nWord = s.nWord + 1 := by
    rw [f.2.2.2.2.1]; simp [FLA_SetStatus, readMainWord, updatingEntry, sendReport, State.emit]
  have hj : t.jumped = s.jumped := by
    rw [f.2.2.2.2.2]; simp [FLA_SetStatus, readMainWord, updatingEntry, sendReport, State.emit]
  have hvt : (sendReport .MTypeGetBootloaderStatus .MStatCreateRollBackError
      (ledFault (FLA_SetVersion .pRollBack 0 (FLA_SetStatus .pRollBack .fCORRUPT t)))).app.Version
      > 0 := by
    simp [sendReport, ledFault, FLA_SetStatus, FLA_SetVersion, State.emit, ha]; exact hv
  have hbf : backupFailed (ledFault (FLA_SetVersion .pRollBack 0
      (FLA_SetStatus .pRollBack .fCORRUPT t))) =
      FLA_SetStatus .pApplication .fVALID
        (sendReport .MTypeGetBootloaderStatus .MStatCreateRollBackError
          (ledFault (FLA_SetVersion .pRollBack 0 (FLA_SetStatus .pRollBack .fCORRUPT t)))) := by
    simp only [backupFailed]
    rw [if_pos hvt]
  have hrun : FLA_HandleUpdating c env fuel s = some (WRK_StartApplication env
      (backupFailed (ledFault (FLA_SetVersion .pRollBack 0
        (FLA_SetStatus .pRollBack .fCORRUPT t))))) := by
    unfold FLA_HandleUpdating
    rw [if_neg (by simp [hu]), hb]
    simp [hr]
  obtain ⟨l3, hl3, hstart⟩ := logExt_start env (backupFailed (ledFault
    (FLA_SetVersion .pRollBack 0 (FLA_SetStatus .pRollBack .fCORRUPT t))))
  have hrbu := WRK_StartApplication_rb_upd env (backupFailed (ledFault
    (FLA_SetVersion .pRollBack 0 (FLA_SetStatus .pRollBack .fCORRUPT t))))
  have ua : (backupFailed (ledFault (FLA_SetVersion .pRollBack 0
      (FLA_SetStatus .pRollBack .fCORRUPT t)))).app.Status = .fVALID ∧
      (backupFailed (ledFault (FLA_SetVersion .pRollBack 0
      (FLA_SetStatus .pRollBack .fCORRUPT t)))).app.Version = s.app.Version ∧
      (backupFailed (ledFault (FLA_SetVersion .pRollBack 0
      (FLA_SetStatus .pRollBack .fCORRUPT t)))).jumped = s.jumped ∧
      (backupFailed (ledFault (FLA_SetVersion .pRollBack 0
      (FLA_SetStatus .pRollBack .fCORRUPT t)))).nWord = s.nWord + 1 ∧
      (backupFailed (ledFault (FLA_SetVersion .pRollBack 0
      (FLA_SetStatus .pRollBack .fCORRUPT t)))).rb.Status = .fCORRUPT ∧
      (backupFailed (ledFault (FLA_SetVersion .pRollBack 0
      (FLA_SetStatus .pRollBack .fCORRUPT t)))).rb.Version = 0 ∧
      (backupFailed (ledFault (FLA_SetVersion .pRollBack 0
      (FLA_SetStatus .pRollBack .fCORRUPT t)))).upd = s.upd := by
    rw [hbf]
    simp [sendReport, ledFault, FLA_SetStatus, FLA_SetVersion, State.emit, ha, hj, hn, hup]
  have hloop0 : l.filter Event.isCopyCall = [] :=
    filter_nil_of_class (fun e he => (hon e he).1) loop_no_copyCall
  have hstart0 : l3.filter Event.isCopyCall = [] := filter_nil_of_class hstart start_no_copyCall
  refine ⟨_, _, l, l3, _, hrun, rfl, ?_, rfl, hon, hstart, ?_, ?_, ua.1, ua.2.1, ua.2.2.1,
    ?_, ?_, ?_, ?_, ?_⟩
  · rw [hl3, hbf]
    simp only [sendReport, ledFault, FLA_SetStatus, FLA_SetVersion, State.emit, hl, readMainWord,
      updatingEntry_log]
    simp [updatingEntry, sendReport, State.emit]
  · simp only [List.filter_append, hloop0, hstart0]
    simp [List.filter_cons, Event.isCopyCall]
  · intro hlay e he
    simp only [List.mem_append] at he
    rcases he with ((he | he) | he) | he
    · simp only [List.mem_cons, List.mem_singleton, List.not_mem_nil, or_false] at he
      rcases he with he | he | he | he | he | he <;> rw [he] <;> simp [Event.hitsApplication]
    · exact loopOn_rollBack_apart hlay e (hon e he)
    · simp only [List.mem_cons, List.mem_singleton, List.not_mem_nil, or_false] at he
      rcases he with he | he | he | he | he | he <;> rw [he] <;> simp [Event.hitsApplication]
    · exact not_hits_of_control e (isControl_of_start e (hstart e he))
  · rw [hrbu.1]; exact ua.2.2.2.2.1
  · rw [hrbu.1]; exact ua.2.2.2.2.2.1
  · rw [hrbu.2]; exact ua.2.2.2.2.2.2
  · intro hw2
    have ho := start_outcome_jump env _
      ⟨by rw [ua.2.1]; omega, by rw [ua.2.2.2.1]; exact hw2⟩
    exact ⟨ho.1, by rw [ho.2.1]; exact ua.1, by rw [ho.2.1]; exact ua.2.1⟩
  · intro hj0 hw2
    have ho := start_outcome_refuse env _ (by rw [ua.2.2.1]; exact hj0)
      (by rw [ua.2.2.2.1, hw2]; simp)
    exact ⟨ho.1, ho.2.1, ho.2.2.1⟩

/-- C12: `FLA_HandleUpdating` with Update Valid when the backup is attempted
(Application version above 0, image word passing) and its copy returns a
value other than 1.  The handler returns; its log is the entry events, the
word read, the write of status Updating to RollBack, the backup copy from
`FLA_MAINADDRESS` to `FLA_ROLLBACKADDRESS`, the writes of status Corrupt and
version 0 to RollBack, the fault indication, the `CreateRollBackError`
report, the write of status Valid to Application, and then the events of the
launcher, which is called with Application Valid at its old version.  The
backup copy is the only call of `WRK_HandleCopyBlocks`; its erases and writes
target blocks of the RollBack partition, so none of them hits the
Application partition when the two partitions do not overlap.  RollBack is
Corrupt with version 0 at the end.  The launcher jumps when the image word
passes again, and otherwise returns with Application Undefined, version 0. -/
theorem C12_backup_error_aborts (c : Cfg) (env : Env) (fuel : Nat) (s t : State) (r : Nat)
    (hu : s.upd.Status = .fVALID) (hv : 0 < s.app.Version)
    (hw : imageWordOk (env.mainWord s.nWord) = true)
    (hc : WRK_HandleCopyBlocks c env fuel (c.FLA_LENGTH / c.FLA_BLOCKSIZE) c.FLA_MAINADDRESS
      c.FLA_ROLLBACKADDRESS
      (FLA_SetStatus .pRollBack .fUPDATING (readMainWord env (updatingEntry s))) = some (r, t))
    (hr : r ≠ 1) :
    ∃ s' u l l3 evs, FLA_HandleUpdating c env fuel s = some s' ∧
      s' = WRK_StartApplication env u ∧
      s'.log = s.log ++ evs ∧
      evs = [.report .MTypeGetBootloaderStatus .MStatNone s.Progress,
          .led .SWITCHEDON 0 0 255, .ledHandle, .wordRead (env.mainWord s.nWord),
          .setStatus .pRollBack .fUPDATING,
          .copyCall (c.FLA_LENGTH / c.FLA_BLOCKSIZE) c.FLA_MAINADDRESS c.FLA_ROLLBACKADDRESS] ++
        l ++
        [.copyRet r, .setStatus .pRollBack .fCORRUPT, .setVersion .pRollBack 0,
          .led .BLINKING 255 0 0,
          .report .MTypeGetBootloaderStatus .MStatCreateRollBackError t.Progress,
          .setStatus .pApplication .fVALID] ++ l3 ∧
      (∀ e ∈ l, Event.isLoopOn c c.FLA_ROLLBACKADDRESS (c.FLA_LENGTH / c.FLA_BLOCKSIZE) e) ∧
      (∀ e ∈ l3, Event.isStartEvent e = true) ∧
      evs.filter Event.isCopyCall =
        [.copyCall (c.FLA_LENGTH / c.FLA_BLOCKSIZE) c.FLA_MAINADDRESS c.FLA_ROLLBACKADDRESS] ∧
      (c.rollBackApart → ∀ e ∈ evs, ¬ Event.hitsApplication c e) ∧
      u.app.Status = .fVALID ∧ u.app.Version = s.app.Version ∧ u.jumped = s.jumped ∧
      s'.rb.Status = .fCORRUPT ∧ s'.rb.Version = 0 ∧ s'.upd = s.upd ∧
      (imageWordOk (env.mainWord (s.nWord + 1)) = true →
        s'.jumped = true ∧ s'.app.Status = .fVALID ∧ s'.app.Version = s.app.Version) ∧
      (s.jumped = false → imageWordOk (env.mainWord (s.nWord + 1)) = false →
        s'.jumped = false ∧ s'.app.Status = .fUNDEFINED ∧ s'.app.Version = 0) :=
  updating_backup_error c env fuel s t r hu hv hw hc hr

/-- C12 at a concrete input: partitions of 65535 blocks, for which the backup
copy returns 2 although no driver call fails.  The update is abandoned,
RollBack is left Corrupt and the old application is launched. -/
theorem C12_backup_error_aborts_witness :
    cfgBig.rollBackApart ∧
    ∃ s', FLA_HandleUpdating cfgBig envAllOk 65535 updateState = some s' ∧
      s'.rb.Status = .fCORRUPT ∧ s'.rb.Version = 0 ∧
      s'.jumped = true ∧ s'.app.Status = .fVALID ∧ s'.app.Version = 3 := by
  refine ⟨⟨by decide, Or.inr (by decide)⟩, ?_⟩
  obtain ⟨t, ht⟩ := WRK_HandleCopyBlocks_allOk cfgBig envAllOk 65535 65535
    cfgBig.FLA_MAINADDRESS cfgBig.FLA_ROLLBACKADDRESS
    (FLA_SetStatus .pRollBack .fUPDATING (readMainWord envAllOk (updatingEntry updateState)))
    envAllOk_allOk (by decide) (by decide) (by decide)
  rw [if_pos rfl] at ht
  have h65 : cfgBig.FLA_LENGTH / cfgBig.FLA_BLOCKSIZE = 65535 := by decide
  obtain ⟨s', _, _, _, _, h1, _, _, _, _, _, _, _, _, _, _, h2, h3, _, h4, _⟩ :=
    C12_backup_error_aborts cfgBig envAllOk 65535 updateState t 2 rfl (by decide) (by decide)
      (h65 ▸ ht) (by decide)
  exact ⟨s', h1, h2, h3, h4 (by decide)⟩

/-! ## The backup is recorded before the Application is overwritten (C18) -/

theorem rbAfter_append (x : FlaStatus × Nat) (a b : List Event) :
    rbAfter x (a ++ b) = rbAfter (rbAfter x a) b := by
  simp [rbAfter, List.foldl_append]

theorem rbAfter_of_no_write (x : FlaStatus × Nat) (l : List Event)
    (h : ∀ e ∈ l, Event.notRollBackWrite e = true) : rbAfter x l = x := by
  induction l generalizing x with
  | nil => rfl
  | cons e l ih =>
    have he : rbStep x e = x := by
      have h1 := h e (List.mem_cons_self e l)
      cases e with
      | setStatus p st => cases p <;> first | rfl | simp [Event.notRollBackWrite] at h1
      | setVersion p v => cases p <;> first | rfl | simp [Event.notRollBackWrite] at h1
      | _ => rfl
    show rbAfter (rbStep x e) l = x
    rw [he]
    exact ih x (fun e' he' => h e' (List.mem_cons_of_mem e he'))

theorem split_after_part {P : Event → Prop} {A B pre post : List Event} {e : Event}
    (hA : ∀ x ∈ A, ¬ P x) (h : A ++ B = pre ++ e :: post) (he : P e) :
    ∃ B1, pre = A ++ B1 ∧ B = B1 ++ e :: post := by
  rcases List.append_eq_append_iff.mp h with ⟨a', h1, h2⟩ | ⟨c', h1, h2⟩
  · exact ⟨a', h1, h2⟩
  · cases c' with
    | nil => exact ⟨[], by simpa using h1.symm, by simpa using h2.symm⟩
    | cons x c'' =>
      have hx : x = e := by
        have := h2; simp only [List.cons_append, List.cons.injEq] at this; exact this.1.symm
      have hmem : e ∈ A := by rw [h1, ← hx]; simp
      exact absurd he (hA e hmem)

theorem notRollBackWrite_of_copy (e : Event) (h : e.isCopyEvent = true) :
    e.notRollBackWrite = true := by
  cases e <;> first | rfl | simp [Event.isCopyEvent, Event.isLoopEvent] at h

theorem notRollBackWrite_of_control (e : Event) (h : e.isControl = true) :
    e.notRollBackWrite = true := by
  cases e with
  | setStatus p st => cases p <;> first | rfl | simp [Event.isControl] at h
  | setVersion p v => cases p <;> first | rfl | simp [Event.isControl] at h
  | _ => rfl

theorem FLA_HandleRollBack_no_rb_write {c : Cfg} {env : Env} {fuel : Nat} {s s' : State}
    (h : FLA_HandleRollBack c env fuel s = some s') : LogExt Event.notRollBackWrite s s' := by
  obtain ⟨evs, h1, h2⟩ := FLA_HandleRollBack_on h
  exact ⟨evs, h1, fun e he => (inHandlerOn_leaves_rollBack e (h2 e he)).1⟩

theorem installStep_no_rb_write {c : Cfg} {env : Env} {fuel : Nat} {s s' : State}
    (h : installStep c env fuel s = some s') :
    LogExt Event.notRollBackWrite s s' ∧ s'.rb = s.rb := by
  unfold installStep at h
  split at h
  · exact absurd h (by simp)
  · rename_i r t hc
    have hcopy := logExt_mono (logExt_copy hc) notRollBackWrite_of_copy
    have hf := copy_fields hc
    split_ifs at h
    · simp only [Option.some.injEq] at h
      rw [← h]
      refine ⟨logExt_trans hcopy (logExt_trans
        (logExt_mono (logExt_control_installDone t) notRollBackWrite_of_control)
        (logExt_mono (logExt_control_start env _) notRollBackWrite_of_control)), ?_⟩
      rw [(WRK_StartApplication_rb_upd env _).1, (installDone_fields t).2.2.2.2.1, hf.2.2.1]
    · refine ⟨logExt_trans hcopy (logExt_trans
        (logExt_of_list [.setStatus .pApplication .fROLLBACK]
          (by simp [FLA_SetStatus, State.emit]) (by simp [Event.notRollBackWrite]))
        (FLA_HandleRollBack_no_rb_write h)), ?_⟩
      rw [(FLA_HandleRollBack_rb_upd h).1]
      simp [FLA_SetStatus, State.emit, hf.2.2.1]
    · simp only [Option.some.injEq] at h
      rw [← h]
      refine ⟨logExt_trans hcopy
        (logExt_mono (logExt_control_markCorrupt t) notRollBackWrite_of_control), ?_⟩
      rw [(markCorrupt_fields t).2.2.2.2.1, hf.2.2.1]

theorem backupStart_log (env : Env) (s : State) :
    (backupStart env s).log = s.log ++ [.report .MTypeGetBootloaderStatus .MStatNone s.Progress,
      .led .SWITCHEDON 0 0 255, .ledHandle, .wordRead (env.mainWord s.nWord),
      .setStatus .pRollBack .fUPDATING] := by
  simp [backupStart, FLA_SetStatus, readMainWord, updatingEntry, sendReport, State.emit]

theorem backupStart_fields (env : Env) (s : State) :
    (backupStart env s).app = s.app ∧ (backupStart env s).upd = s.upd ∧
    (backupStart env s).rb.Status = .fUPDATING ∧
    (backupStart env s).rb.Version = s.rb.Version ∧
    (backupStart env s).nWord = s.nWord + 1 ∧ (backupStart env s).jumped = s.jumped := by
  simp [backupStart, FLA_SetStatus, readMainWord, updatingEntry, sendReport, State.emit]

theorem installStart_fields (t : State) :
    (installStart t).app = t.app ∧ (installStart t).upd = t.upd ∧
    (installStart t).rbEntry = (.fVALID, t.app.Version) ∧
    (installStart t).log = t.log ++ [.setStatus .pRollBack .fVALID,
      .setVersion .pRollBack t.app.Version] := by
  simp [installStart, State.rbEntry, FLA_SetStatus, FLA_SetVersion, State.emit]

theorem copyRun_rb (c : Cfg) (env : Env) (n src dst k : Nat) (s : State) :
    (copyRun c env n src dst k s).rb = s.rb := by
  have h := copyRun_ctrl c env n src dst k s
  simp only [State.ctrl, Prod.mk.injEq] at h
  exact h.2.2.1

theorem copyInit_rb (n src dst : Nat) (s : State) : (copyInit n src dst s).rb = s.rb := by
  simp [copyInit, State.emit, State.setCurrentBlock]

theorem updating_backup_none {c : Cfg} {env : Env} {fuel : Nat} {s : State}
    (hu : s.upd.Status = .fVALID) (hv : 0 < s.app.Version)
    (hw : imageWordOk (env.mainWord s.nWord) = true)
    (hc : WRK_HandleCopyBlocks c env fuel (c.FLA_LENGTH / c.FLA_BLOCKSIZE) c.FLA_MAINADDRESS
      c.FLA_ROLLBACKADDRESS (backupStart env s) = none) :
    FLA_HandleUpdating c env fuel s = none := by
  have hv0 : (updatingEntry s).app.Version > 0 := by
    simpa [updatingEntry, sendReport, State.emit] using hv
  have hw0 : imageWordOk (env.mainWord (updatingEntry s).nWord) = true := by
    simpa [updatingEntry, sendReport, State.emit] using hw
  have hb : backupStep c env fuel (updatingEntry s) = none := by
    unfold backupStep
    rw [if_pos hv0, if_pos hw0]
    unfold backupStart at hc
    rw [hc]
  unfold FLA_HandleUpdating
  rw [if_neg (by simp [hu]), hb]

theorem updating_backup_ok {c : Cfg} {env : Env} {fuel : Nat} {s t : State}
    (hu : s.upd.Status = .fVALID) (hv : 0 < s.app.Version)
    (hw : imageWordOk (env.mainWord s.nWord) = true)
    (hc : WRK_HandleCopyBlocks c env fuel (c.FLA_LENGTH / c.FLA_BLOCKSIZE) c.FLA_MAINADDRESS
      c.FLA_ROLLBACKADDRESS (backupStart env s) = some (1, t)) :
    FLA_HandleUpdating c env fuel s = installStep c env fuel (installStart t) := by
  have hv0 : (updatingEntry s).app.Version > 0 := by
    simpa [updatingEntry, sendReport, State.emit] using hv
  have hw0 : imageWordOk (env.mainWord (updatingEntry s).nWord) = true := by
    simpa [updatingEntry, sendReport, State.emit] using hw
  exact FLA_HandleUpdating_backup_ok hu (backupStep_attempt_ok hv0 hw0 hc)

/-- The part of the log of `FLA_HandleUpdating` up to the record of a
complete backup hits no address of the Application partition. -/
theorem backup_part_apart {c : Cfg} (hlay : c.rollBackApart) (env : Env) (s : State)
    (l : List Event) (v : Nat)
    (hon : ∀ e ∈ l, Event.isLoopOn c c.FLA_ROLLBACKADDRESS (c.FLA_LENGTH / c.FLA_BLOCKSIZE) e) :
    ∀ x ∈ [.report .MTypeGetBootloaderStatus .MStatNone s.Progress,
        .led .SWITCHEDON 0 0 255, .ledHandle, .wordRead (env.mainWord s.nWord),
        .setStatus .pRollBack .fUPDATING] ++
      (.copyCall (c.FLA_LENGTH / c.FLA_BLOCKSIZE) c.FLA_MAINADDRESS c.FLA_ROLLBACKADDRESS ::
        l ++ [.copyRet 1]) ++ [.setStatus .pRollBack .fVALID, .setVersion .pRollBack v],
      ¬ Event.hitsApplication c x := by
  intro x hx
  rcases List.mem_append.mp hx with h1 | h1
  · rcases List.mem_append.mp h1 with h2 | h2
    · simp only [List.mem_cons, List.mem_singleton, List.not_mem_nil, or_false] at h2
      rcases h2 with h2 | h2 | h2 | h2 | h2 <;> rw [h2] <;> simp [Event.hitsApplication]
    · rcases List.mem_cons.mp h2 with h3 | h3
      · rw [h3]; simp [Event.hitsApplication]
      · rcases List.mem_append.mp h3 with h4 | h4
        · exact loopOn_rollBack_apart hlay x (hon x h4)
        · rw [List.mem_singleton.mp h4]; simp [Event.hitsApplication]
  · simp only [List.mem_cons, List.mem_singleton, List.not_mem_nil, or_false] at h1
    rcases h1 with h1 | h1 <;> rw [h1] <;> simp [Event.hitsApplication]

theorem backup_part_rbAfter (c : Cfg) (env : Env) (s : State) (l : List Event) (v : Nat)
    (x : FlaStatus × Nat) (hloop : ∀ e ∈ l, Event.isLoopEvent e = true) :
    rbAfter x ([.report .MTypeGetBootloaderStatus .MStatNone s.Progress,
        .led .SWITCHEDON 0 0 255, .ledHandle, .wordRead (env.mainWord s.nWord),
        .setStatus .pRollBack .fUPDATING] ++
      (.copyCall (c.FLA_LENGTH / c.FLA_BLOCKSIZE) c.FLA_MAINADDRESS c.FLA_ROLLBACKADDRESS ::
        l ++ [.copyRet 1]) ++ [.setStatus .pRollBack .fVALID, .setVersion .pRollBack v]) =
      (.fVALID, v) := by
  have hl : ∀ y, rbAfter y l = y := fun y => rbAfter_of_no_write y l
    (fun e he => notRollBackWrite_of_copy e (by simp [Event.isCopyEvent, hloop e he]))
  rw [rbAfter_append, rbAfter_append]
  have h2 : ∀ y, rbAfter y (.copyCall (c.FLA_LENGTH / c.FLA_BLOCKSIZE) c.FLA_MAINADDRESS
      c.FLA_ROLLBACKADDRESS :: l ++ [.copyRet 1]) = y := by
    intro y
    rw [show (Event.copyCall (c.FLA_LENGTH / c.FLA_BLOCKSIZE) c.FLA_MAINADDRESS
      c.FLA_ROLLBACKADDRESS :: l ++ [.copyRet 1]) = [Event.copyCall (c.FLA_LENGTH / c.FLA_BLOCKSIZE)
      c.FLA_MAINADDRESS c.FLA_ROLLBACKADDRESS] ++ l ++ [.copyRet 1] from rfl,
      rbAfter_append, rbAfter_append, hl]
    rfl
  rw [h2]
  rfl

theorem copyInit_log (n src dst : Nat) (s : State) :
    (copyInit n src dst s).log = s.log ++ [.copyCall n src dst] := by
  simp [copyInit, State.emit]

/-- The iterations of the backup copy of `FLA_HandleUpdating`, whether or not
the copy ends, and the events before it, hit no address of the Application
partition. -/
theorem backup_run_apart {c : Cfg} (hlay : c.rollBackApart) (env : Env) (s : State) (k : Nat) :
    LogExtP (fun e => ¬ Event.hitsApplication c e) s
      (copyRun c env (c.FLA_LENGTH / c.FLA_BLOCKSIZE) c.FLA_MAINADDRESS c.FLA_ROLLBACKADDRESS k
        (copyInit (c.FLA_LENGTH / c.FLA_BLOCKSIZE) c.FLA_MAINADDRESS c.FLA_ROLLBACKADDRESS
          (backupStart env s))) := by
  have h1 : LogExtP (fun e => ¬ Event.hitsApplication c e) s (backupStart env s) :=
    logExtP_of_list _ (backupStart_log env s) (by
      intro e he
      simp only [List.mem_cons, List.mem_singleton, List.not_mem_nil, or_false] at he
      rcases he with he | he | he | he | he <;> rw [he] <;> simp [Event.hitsApplication])
  have h2 : LogExtP (fun e => ¬ Event.hitsApplication c e) (backupStart env s)
      (copyInit (c.FLA_LENGTH / c.FLA_BLOCKSIZE) c.FLA_MAINADDRESS c.FLA_ROLLBACKADDRESS
        (backupStart env s)) :=
    logExtP_of_list _ (copyInit_log _ _ _ _) (by
      intro e he
      rw [List.mem_singleton.mp he]; simp [Event.hitsApplication])
  exact logExtP_trans h1 (logExtP_trans h2
    (logExtP_mono (copyRun_on c env _ _ _ k _) (loopOn_rollBack_apart hlay)))

/-- C18: `FLA_HandleUpdating` with Update Valid, Application version `v`
above 0 and a first image word that passes the check, on a layout where the
RollBack partition does not overlap the Application partition.  For every
run that returns: the log starts with the entry events, the word read, the
write of status Updating to RollBack and only then the call of the backup
copy; and at every erase or write that hits the Application partition, the
RollBack entry as left by the writes logged before it is Valid with version
`v` (the RollBack entry obtained from the whole log is the one of the final
state).  For runs whose copies need not end: the iterations of the backup
copy hit no address of the Application partition, and after every number of
iterations of the install copy, and of the copy of the RollBack handler that
follows an install copy that did not return 1, the RollBack entry is Valid
with version `v`. -/
theorem C18_backup_recorded_first (c : Cfg) (env : Env) (fuel : Nat) (s : State)
    (hu : s.upd.Status = .fVALID) (hv : 0 < s.app.Version)
    (hw : imageWordOk (env.mainWord s.nWord) = true) (hlay : c.rollBackApart) :
    (∀ s', FLA_HandleUpdating c env fuel s = some s' →
      ∃ evs post, s'.log = s.log ++ evs ∧
        evs = [.report .MTypeGetBootloaderStatus .MStatNone s.Progress,
          .led .SWITCHEDON 0 0 255, .ledHandle, .wordRead (env.mainWord s.nWord),
          .setStatus .pRollBack .fUPDATING,
          .copyCall (c.FLA_LENGTH / c.FLA_BLOCKSIZE) c.FLA_MAINADDRESS c.FLA_ROLLBACKADDRESS] ++
          post ∧
        (∀ pre e rest, evs = pre ++ e :: rest → Event.hitsApplication c e →
          rbAfter s.rbEntry pre = (.fVALID, s.app.Version)) ∧
        rbAfter s.rbEntry evs = s'.rbEntry) ∧
    (∀ k, LogExtP (fun e => ¬ Event.hitsApplication c e) s
      (copyRun c env (c.FLA_LENGTH / c.FLA_BLOCKSIZE) c.FLA_MAINADDRESS c.FLA_ROLLBACKADDRESS k
        (copyInit (c.FLA_LENGTH / c.FLA_BLOCKSIZE) c.FLA_MAINADDRESS c.FLA_ROLLBACKADDRESS
          (backupStart env s)))) ∧
    (∀ t, WRK_HandleCopyBlocks c env fuel (c.FLA_LENGTH / c.FLA_BLOCKSIZE) c.FLA_MAINADDRESS
        c.FLA_ROLLBACKADDRESS (backupStart env s) = some (1, t) →
      (∀ k, (copyRun c env (installStart t).upd.NrOfBlocks c.FLA_UPGRADEADDRESS
        c.FLA_MAINADDRESS k (copyInit (installStart t).upd.NrOfBlocks c.FLA_UPGRADEADDRESS
          c.FLA_MAINADDRESS (installStart t))).rbEntry = (.fVALID, s.app.Version)) ∧
      (∀ r t2, WRK_HandleCopyBlocks c env fuel (installStart t).upd.NrOfBlocks
          c.FLA_UPGRADEADDRESS c.FLA_MAINADDRESS (installStart t) = some (r, t2) →
        ∀ k, (copyRun c env t2.rb.NrOfBlocks c.FLA_ROLLBACKADDRESS c.FLA_MAINADDRESS k
          (copyInit t2.rb.NrOfBlocks c.FLA_ROLLBACKADDRESS c.FLA_MAINADDRESS
            (rollBackEntry (FLA_SetStatus .pApplication .fROLLBACK t2)))).rbEntry =
          (.fVALID, s.app.Version))) := by
  refine ⟨?_, fun k => backup_run_apart hlay env s k, ?_⟩
  · intro s' h
    cases hcopy : WRK_HandleCopyBlocks c env fuel (c.FLA_LENGTH / c.FLA_BLOCKSIZE)
        c.FLA_MAINADDRESS c.FLA_ROLLBACKADDRESS (backupStart env s) with
    | none =>
      rw [updating_backup_none hu hv hw hcopy] at h
      exact absurd h (by simp)
    | some p =>
      obtain ⟨r, t⟩ := p
      by_cases hr : r = 1
      · subst hr
        rw [updating_backup_ok hu hv hw hcopy] at h
        obtain ⟨l, hl, hon⟩ := WRK_HandleCopyBlocks_on hcopy
        obtain ⟨⟨rest, hrest, hnw⟩, hrb⟩ := installStep_no_rb_write h
        have f := copy_fields hcopy
        have bf := backupStart_fields env s
        have ta : t.app = s.app := by rw [f.1]; exact bf.1
        have hi := installStart_fields t
        rw [ta] at hi
        have hlog : s'.log = s.log ++
            (([.report .MTypeGetBootloaderStatus .MStatNone s.Progress,
              .led .SWITCHEDON 0 0 255, .ledHandle, .wordRead (env.mainWord s.nWord),
              .setStatus .pRollBack .fUPDATING] ++
            (.copyCall (c.FLA_LENGTH / c.FLA_BLOCKSIZE) c.FLA_MAINADDRESS
              c.FLA_ROLLBACKADDRESS :: l ++ [.copyRet 1]) ++
            [.setStatus .pRollBack .fVALID, .setVersion .pRollBack s.app.Version]) ++ rest) := by
          rw [hrest, hi.2.2.2, hl, backupStart_log]
          simp only [List.append_assoc]
        have hloop : ∀ e ∈ l, Event.isLoopEvent e = true := fun e he => (hon e he).1
        refine ⟨_, l ++ [.copyRet 1, .setStatus .pRollBack .fVALID,
          .setVersion .pRollBack s.app.Version] ++ rest, hlog, by simp, ?_, ?_⟩
        · intro pre e post hsplit hhit
          obtain ⟨B1, hpre, hB⟩ := split_after_part
            (backup_part_apart hlay env s l s.app.Version hon) hsplit hhit
          rw [hpre, rbAfter_append, backup_part_rbAfter c env s l s.app.Version _ hloop]
          apply rbAfter_of_no_write
          intro x hx
          exact hnw x (by rw [hB]; exact List.mem_append_left _ hx)
        · rw [rbAfter_append, backup_part_rbAfter c env s l s.app.Version _ hloop,
            rbAfter_of_no_write _ _ hnw]
          have : s'.rbEntry = (installStart t).rbEntry := by
            simp only [State.rbEntry, hrb]
          rw [this, hi.2.2.1]
      · obtain ⟨s1, u, l, l3, evs, h1, _, h3, h4, h5, h6, _, h8, _, _, _, h12, h13, _⟩ :=
          updating_backup_error c env fuel s t r hu hv hw hcopy hr
        rw [h1] at h
        simp only [Option.some.injEq] at h
        subst h
        refine ⟨evs, l ++ [.copyRet r, .setStatus .pRollBack .fCORRUPT,
          .setVersion .pRollBack 0, .led .BLINKING 255 0 0,
          .report .MTypeGetBootloaderStatus .MStatCreateRollBackError t.Progress,
          .setStatus .pApplication .fVALID] ++ l3, h3, by rw [h4]; simp, ?_, ?_⟩
        · intro pre e post hsplit hhit
          exact absurd hhit (h8 hlay e (by rw [hsplit]; simp))
        · have hl : ∀ y, rbAfter y l = y := fun y => rbAfter_of_no_write y l
            (fun e he => notRollBackWrite_of_copy e (by simp [Event.isCopyEvent, (h5 e he).1]))
          have hl3 : ∀ y, rbAfter y l3 = y := fun y => rbAfter_of_no_write y l3
            (fun e he => notRollBackWrite_of_control e (isControl_of_start e (h6 e he)))
          rw [h4, rbAfter_append, rbAfter_append, rbAfter_append, hl, hl3]
          simp only [State.rbEntry, h12, h13]
          rfl
  · intro t hcopy
    have f := copy_fields hcopy
    have bf := backupStart_fields env s
    have ta : t.app = s.app := by rw [f.1]; exact bf.1
    have hi := installStart_fields t
    rw [ta] at hi
    refine ⟨fun k => ?_, fun r t2 hc2 k => ?_⟩
    · simp only [State.rbEntry, copyRun_rb, copyInit_rb]
      exact hi.2.2.1
    · have f2 := copy_fields hc2
      simp only [State.rbEntry, copyRun_rb, copyInit_rb]
      have : (rollBackEntry (FLA_SetStatus .pApplication .fROLLBACK t2)).rb =
          (installStart t).rb := by
        rw [← f2.2.2.1]
        simp [rollBackEntry, sendReport, FLA_SetStatus, State.emit]
      rw [this]
      exact hi.2.2.1

/-- C18 at a concrete input: the update from version 3 to version 4 on
`cfg16` with a driver that never fails.  The run returns, and RollBack is
Valid with version 3 at every erase or write of the Application partition. -/
theorem C18_backup_recorded_first_witness :
    cfg16.rollBackApart ∧
    ∃ s' evs, FLA_HandleUpdating cfg16 envAllOk 10 updateState = some s' ∧
      s'.log = updateState.log ++ evs ∧
      (∀ pre e rest, evs = pre ++ e :: rest → Event.hitsApplication cfg16 e →
        rbAfter updateState.rbEntry pre = (.fVALID, 3)) ∧
      rbAfter updateState.rbEntry evs = s'.rbEntry := by
  have hlay : cfg16.rollBackApart := ⟨by decide, Or.inr (by decide)⟩
  have h1 : (FLA_HandleUpdating cfg16 envAllOk 10 updateState).isSome = true := by decide
  obtain ⟨s1, e1⟩ := Option.isSome_iff_exists.mp h1
  obtain ⟨evs, _, h2, _, h3, h4⟩ :=
    (C18_backup_recorded_first cfg16 envAllOk 10 updateState rfl (by decide) (by decide)
      hlay).1 s1 e1
  exact ⟨hlay, s1, evs, e1, h2, h3, h4⟩

/-! ## The handshake token (C15) -/

theorem lastCopyRet_append_some (a b : List Event) (r : Nat) (h : lastCopyRet b = some r) :
    lastCopyRet (a ++ b) = some r := by
  induction a with
  | nil => exact h
  | cons e a ih => simp [lastCopyRet, ih]

theorem lastCopyRet_append_none (a b : List Event) (h : lastCopyRet b = none) :
    lastCopyRet (a ++ b) = lastCopyRet a := by
  induction a with
  | nil => simpa [lastCopyRet] using h
  | cons e a ih => simp [lastCopyRet, ih]

theorem lastCopyRet_of_mute (l : List Event) (h : ∀ e ∈ l, Event.isCopyRet e = false) :
    lastCopyRet l = none := by
  induction l with
  | nil => rfl
  | cons e l ih =>
    have h1 := h e (List.mem_cons_self e l)
    simp only [lastCopyRet, ih (fun x hx => h x (List.mem_cons_of_mem e hx))]
    cases e <;> first | rfl | simp [Event.isCopyRet] at h1

theorem mute_no_copyRet (e : Event) (h : e.isMute = true) : e.isCopyRet = false := by
  cases e <;> first | rfl | simp [Event.isMute, Event.isCopyRet] at h

theorem mute_notToken (e : Event) (h : e.isMute = true) : e.notToken = true := by
  cases e <;> first | rfl | simp [Event.isMute, Event.isToken] at h

theorem mute_of_start (e : Event) (h : e.isStartEvent = true) : e.isMute = true := by
  cases e <;> first | rfl | simp [Event.isStartEvent] at h

theorem mute_of_loop (e : Event) (h : e.isLoopEvent = true) : e.isMute = true := by
  cases e <;> first | rfl | simp [Event.isLoopEvent] at h

theorem notToken_of_copy (e : Event) (h : e.isCopyEvent = true) : e.notToken = true := by
  cases e <;> first | rfl | simp [Event.isCopyEvent, Event.isLoopEvent] at h

theorem notToken_of_backup (e : Event) (h : e.isBackupEvent = true) : e.notToken = true := by
  cases e <;> first | rfl | simp [Event.isBackupEvent, Event.isCopyEvent, Event.isLoopEvent] at h

theorem logExt_mute_abortAndStart (env : Env) (s : State) :
    LogExt Event.isMute s (abortAndStart env s) := by
  simp only [abortAndStart]
  have h1 : LogExt Event.isMute s
      (sendReport .MTypeGetBootloaderStatus .MStatImageNotValid
        (if (s.setBootloaderStatus .sUNITERROR).app.Version > 0 then
          FLA_SetStatus .pApplication .fVALID (s.setBootloaderStatus .sUNITERROR)
        else s.setBootloaderStatus .sUNITERROR)) := by
    split_ifs
    · exact logExt_of_list [.setStatus .pApplication .fVALID,
        .report .MTypeGetBootloaderStatus .MStatImageNotValid s.Progress]
        (by simp [sendReport, FLA_SetStatus, State.setBootloaderStatus, State.emit])
        (by simp [Event.isMute, Event.isToken, Event.isCopyCall, Event.isCopyRet])
    · exact logExt_of_list [.report .MTypeGetBootloaderStatus .MStatImageNotValid s.Progress]
        (by simp [sendReport, State.setBootloaderStatus, State.emit])
        (by simp [Event.isMute, Event.isToken, Event.isCopyCall, Event.isCopyRet])
  exact logExt_afterStart (logExt_trans h1 (logExt_mono (logExt_start env _) mute_of_start)) rfl

theorem silentRun_of_mute {l : List Event} (h : ∀ e ∈ l, Event.isMute e = true) :
    SilentRun l :=
  ⟨fun e he => mute_notToken e (h e he),
    by rw [lastCopyRet_of_mute l (fun e he => mute_no_copyRet e (h e he))]; simp⟩

theorem silentRun_append {a b : List Event} (ha : ∀ e ∈ a, Event.notToken e = true)
    (hr : lastCopyRet a ≠ some 1) (hb : SilentRun b) : SilentRun (a ++ b) := by
  refine ⟨?_, ?_⟩
  · intro e he
    rcases List.mem_append.mp he with h | h
    · exact ha e h
    · exact hb.1 e h
  · cases hl : lastCopyRet b with
    | none => rw [lastCopyRet_append_none a b hl]; exact hr
    | some r => rw [lastCopyRet_append_some a b r hl, ← hl]; exact hb.2

theorem tokenRun_append {c : Cfg} {tk : Token} {a b : List Event}
    (ha : ∀ e ∈ a, Event.notToken e = true) (hb : TokenRun c tk b) : TokenRun c tk (a ++ b) := by
  obtain ⟨a0, n, l, b1, b2, h1, h2, h3, h4, h5⟩ := hb
  refine ⟨a ++ a0, n, l, b1, b2, by rw [h1]; simp only [List.append_assoc], ?_, h3, h4, h5⟩
  intro e he
  rcases List.mem_append.mp he with h | h
  · exact ha e h
  · exact h2 e h

theorem copy_piece_last (n src dst r : Nat) (l : List Event) :
    lastCopyRet (.copyCall n src dst :: l ++ [.copyRet r]) = some r := by
  rw [show (Event.copyCall n src dst :: l ++ [.copyRet r]) =
    (Event.copyCall n src dst :: l) ++ [.copyRet r] from rfl]
  exact lastCopyRet_append_some _ _ r rfl

theorem copy_piece_notToken (n src dst r : Nat) (l : List Event)
    (hl : ∀ e ∈ l, Event.isLoopEvent e = true) :
    ∀ e ∈ (.copyCall n src dst :: l ++ [.copyRet r] : List Event), Event.notToken e = true := by
  intro e he
  rcases List.mem_cons.mp he with h | h
  · rw [h]; rfl
  · rcases List.mem_append.mp h with h | h
    · exact mute_notToken e (mute_of_loop e (hl e h))
    · rw [List.mem_singleton.mp h]; rfl

theorem tokenRun_count {c : Cfg} {tk : Token} {evs : List Event} (h : TokenRun c tk evs) :
    evs.filter Event.isToken = [.token tk] ∧ lastCopyRet evs = some 1 := by
  obtain ⟨a, n, l, b1, b2, h1, h2, h3, h4, h5⟩ := h
  have fa : a.filter Event.isToken = [] := filter_nil_of_class h2
    (by intro e he; simpa [Event.notToken] using he)
  have fl : l.filter Event.isToken = [] := filter_nil_of_class h3
    (by intro e he; simpa [Event.notToken] using mute_notToken e (mute_of_loop e he))
  have f1 : b1.filter Event.isToken = [] := filter_nil_of_class h4
    (by intro e he; simpa [Event.notToken] using mute_notToken e he)
  have f2 : b2.filter Event.isToken = [] := filter_nil_of_class h5
    (by intro e he; simpa [Event.notToken] using mute_notToken e he)
  constructor
  · rw [h1]
    simp only [List.filter_append, List.filter_cons, fa, fl, f1, f2]
    simp [Event.isToken]
  · rw [h1]
    have e2 : lastCopyRet (Event.token tk :: b2) = none :=
      lastCopyRet_of_mute _ (by
        intro e he
        rcases List.mem_cons.mp he with h | h
        · rw [h]; rfl
        · exact mute_no_copyRet e (h5 e h))
    rw [lastCopyRet_append_none _ _ e2]
    rw [show (Event.copyCall n (tokenSrc c tk) c.FLA_MAINADDRESS :: l ++ Event.copyRet 1 :: b1) =
      (Event.copyCall n (tokenSrc c tk) c.FLA_MAINADDRESS :: l ++ [Event.copyRet 1]) ++ b1 by simp]
    rw [← List.append_assoc,
      lastCopyRet_append_none _ _ (lastCopyRet_of_mute b1 (fun e he => mute_no_copyRet e (h4 e he)))]
    exact lastCopyRet_append_some _ _ 1 (copy_piece_last _ _ _ _ _)

theorem silentRun_count {evs : List Event} (h : SilentRun evs) :
    evs.filter Event.isToken = [] :=
  filter_nil_of_class h.1 (by intro e he; simpa [Event.notToken] using he)

/-- In a log with one token, a token found at any position is that token, and
the part before it ends with the successful copy into `FLA_MAINADDRESS`. -/
theorem tokenRun_split {c : Cfg} {tk : Token} {evs : List Event} (h : TokenRun c tk evs)
    (pre post : List Event) (tk' : Token) (hs : evs = pre ++ .token tk' :: post) :
    tk' = tk ∧ ∃ a n l b,
      pre = a ++ (.copyCall n (tokenSrc c tk') c.FLA_MAINADDRESS :: l ++ .copyRet 1 :: b) ∧
      (∀ e ∈ l, Event.isLoopEvent e = true) ∧ (∀ e ∈ b, Event.isMute e = true) := by
  obtain ⟨a, n, l, b1, b2, h1, h2, h3, h4, h5⟩ := h
  have hA : ∀ x ∈ a ++ (.copyCall n (tokenSrc c tk) c.FLA_MAINADDRESS :: l ++ .copyRet 1 :: b1),
      ¬ (Event.isToken x = true) := by
    intro x hx
    have : Event.notToken x = true := by
      rcases List.mem_append.mp hx with h | h
      · exact h2 x h
      · rcases List.mem_cons.mp h with h | h
        · rw [h]; rfl
        · rcases List.mem_append.mp h with h | h
          · exact mute_notToken x (mute_of_loop x (h3 x h))
          · rcases List.mem_cons.mp h with h | h
            · rw [h]; rfl
            · exact mute_notToken x (h4 x h)
    simpa [Event.notToken] using this
  obtain ⟨B1, hpre, hB⟩ := split_after_part (P := fun x => Event.isToken x = true) hA
    (h1.symm.trans hs) rfl
  cases B1 with
  | nil =>
    simp only [List.nil_append, List.cons.injEq, Event.token.injEq] at hB
    obtain ⟨hk, _⟩ := hB
    subst hk
    exact ⟨rfl, a, n, l, b1, by simpa using hpre, h3, h4⟩
  | cons x B1 =>
    simp only [List.cons_append, List.cons.injEq] at hB
    have hmem : Event.token tk' ∈ b2 := by rw [hB.2]; simp
    have := h5 _ hmem
    simp [Event.isMute, Event.isToken] at this

/-! ## Tokens in the runs of the handlers -/

theorem markCorrupt_events_notToken :
    ∀ e ∈ ([.setStatus .pApplication .fCORRUPT, .setVersion .pApplication 0,
      .led .BLINKING 255 0 0] : List Event), Event.notToken e = true := by
  simp [Event.notToken, Event.isToken]

theorem markCorrupt_events_last :
    lastCopyRet ([.setStatus .pApplication .fCORRUPT, .setVersion .pApplication 0,
      .led .BLINKING 255 0 0] : List Event) = none := rfl

theorem rollBackEntry_events_notToken (p : Nat) :
    ∀ e ∈ ([.report .MTypeGetBootloaderStatus .MStatNone p, .led .SWITCHEDON 255 0 0,
      .ledHandle] : List Event), Event.notToken e = true := by
  simp [Event.notToken, Event.isToken]

theorem backupFault_events_notToken :
    ∀ e ∈ ([.setStatus .pRollBack .fCORRUPT, .setVersion .pRollBack 0,
      .led .BLINKING 255 0 0] : List Event), Event.notToken e = true := by
  simp [Event.notToken, Event.isToken]

theorem backupFault_events_last :
    lastCopyRet ([.setStatus .pRollBack .fCORRUPT, .setVersion .pRollBack 0,
      .led .BLINKING 255 0 0] : List Event) = none := rfl

theorem backupHead_events_notToken (w : Nat) :
    ∀ e ∈ ([.wordRead w, .setStatus .pRollBack .fUPDATING] : List Event),
      Event.notToken e = true := by
  simp [Event.notToken, Event.isToken]

theorem FLA_HandleRollBack_tokens {c : Cfg} {env : Env} {fuel : Nat} {s s' : State}
    (h : FLA_HandleRollBack c env fuel s = some s') :
    ∃ evs, s'.log = s.log ++ evs ∧ (TokenRun c .restoreReady evs ∨ SilentRun evs) := by
  unfold FLA_HandleRollBack at h
  split_ifs at h with h1
  · simp only [Option.some.injEq] at h
    obtain ⟨evs, he, hm⟩ := logExt_mute_abortAndStart env s
    exact ⟨evs, by rw [← h]; exact he, Or.inr (silentRun_of_mute hm)⟩
  · split at h
    · exact absurd h (by simp)
    · rename_i r s1 hc
      obtain ⟨l, hl, hloop⟩ := WRK_HandleCopyBlocks_log hc
      split_ifs at h with hr
      · simp only [Option.some.injEq] at h
        obtain ⟨l2, hl2, hstart⟩ := logExt_start env (rollBackDone s1)
        refine ⟨[.report .MTypeGetBootloaderStatus .MStatNone s.Progress,
            .led .SWITCHEDON 255 0 0, .ledHandle] ++
          (.copyCall s.rb.NrOfBlocks c.FLA_ROLLBACKADDRESS c.FLA_MAINADDRESS :: l ++
            .copyRet 1 :: [.setStatus .pApplication .fUPDATED,
              .setVersion .pApplication s1.rb.Version,
              .report .MTypeGetBootloaderStatus .MStatNone s1.Progress]) ++
          .token .restoreReady :: l2, ?_, Or.inl ?_⟩
        · rw [← h, hl2, rollBackDone_log, hl, rollBackEntry_log, hr]
          simp only [List.append_assoc, List.cons_append, List.nil_append]
        · exact ⟨_, _, l, _, l2, rfl, by simp [Event.notToken, Event.isToken], hloop,
            by simp [Event.isMute, Event.isToken, Event.isCopyCall, Event.isCopyRet],
            fun e he => mute_of_start e (hstart e he)⟩
      · simp only [Option.some.injEq] at h
        refine ⟨([.report .MTypeGetBootloaderStatus .MStatNone s.Progress,
            .led .SWITCHEDON 255 0 0, .ledHandle] ++
          (.copyCall s.rb.NrOfBlocks c.FLA_ROLLBACKADDRESS c.FLA_MAINADDRESS :: l ++
            [.copyRet r])) ++ [.setStatus .pApplication .fCORRUPT,
              .setVersion .pApplication 0, .led .BLINKING 255 0 0], ?_, Or.inr ⟨?_, ?_⟩⟩
        · rw [← h, markCorrupt_log, hl, rollBackEntry_log]
          simp only [List.append_assoc]
        · intro e he
          rcases List.mem_append.mp he with h2 | h2
          · rcases List.mem_append.mp h2 with h3 | h3
            · exact rollBackEntry_events_notToken _ e h3
            · exact copy_piece_notToken _ _ _ _ l hloop e h3
          · exact markCorrupt_events_notToken e h2
        · rw [lastCopyRet_append_none _ _ markCorrupt_events_last,
            lastCopyRet_append_some _ _ r (copy_piece_last _ _ _ _ _)]
          simpa using hr

theorem installStep_tokens {c : Cfg} {env : Env} {fuel : Nat} {s s' : State}
    (h : installStep c env fuel s = some s') :
    ∃ evs, s'.log = s.log ++ evs ∧
      (TokenRun c .updateReady evs ∨ TokenRun c .restoreReady evs ∨
        ((∀ e ∈ evs, Event.notToken e = true) ∧ ∃ r, lastCopyRet evs = some r ∧ r ≠ 1)) := by
  unfold installStep at h
  split at h
  · exact absurd h (by simp)
  · rename_i r s1 hc
    obtain ⟨l, hl, hloop⟩ := WRK_HandleCopyBlocks_log hc
    split_ifs at h with hr hrb
    · simp only [Option.some.injEq] at h
      obtain ⟨l2, hl2, hstart⟩ := logExt_start env (installDone s1)
      refine ⟨[] ++ (.copyCall s.upd.NrOfBlocks c.FLA_UPGRADEADDRESS c.FLA_MAINADDRESS :: l ++
          .copyRet 1 :: [.led .SWITCHEDON 0 0 255, .setStatus .pApplication .fUPDATED,
            .setVersion .pApplication s1.upd.Version, .delay 100,
            .report .MTypeGetBootloaderStatus .MStatSuccess s1.Progress]) ++
          .token .updateReady :: l2, ?_, Or.inl ?_⟩
      · rw [← h, hl2, installDone_log, hl, hr]
        simp only [List.append_assoc, List.cons_append, List.nil_append]
      · exact ⟨[], _, l, _, l2, rfl, by simp, hloop,
          by simp [Event.isMute, Event.isToken, Event.isCopyCall, Event.isCopyRet],
          fun e he => mute_of_start e (hstart e he)⟩
    · obtain ⟨evs, he, ho⟩ := FLA_HandleRollBack_tokens h
      have hpre : ∀ e ∈ (.copyCall s.upd.NrOfBlocks c.FLA_UPGRADEADDRESS c.FLA_MAINADDRESS ::
          l ++ [.copyRet r]) ++ [Event.setStatus .pApplication .fROLLBACK],
          Event.notToken e = true := by
        intro e he
        rcases List.mem_append.mp he with h2 | h2
        · exact copy_piece_notToken _ _ _ _ l hloop e h2
        · rw [List.mem_singleton.mp h2]; rfl
      have hlast : lastCopyRet ((.copyCall s.upd.NrOfBlocks c.FLA_UPGRADEADDRESS
          c.FLA_MAINADDRESS :: l ++ [.copyRet r]) ++
          [Event.setStatus .pApplication .fROLLBACK]) = some r := by
        rw [lastCopyRet_append_none _ [Event.setStatus .pApplication .fROLLBACK] rfl]
        exact copy_piece_last _ _ _ _ _
      refine ⟨((.copyCall s.upd.NrOfBlocks c.FLA_UPGRADEADDRESS c.FLA_MAINADDRESS ::
          l ++ [.copyRet r]) ++ [Event.setStatus .pApplication .fROLLBACK]) ++ evs, ?_, ?_⟩
      · rw [he]
        simp only [FLA_SetStatus, State.emit, hl, List.append_assoc]
      · rcases ho with ho | ho
        · exact Or.inr (Or.inl (tokenRun_append hpre ho))
        · refine Or.inr (Or.inr ⟨(silentRun_append hpre (by rw [hlast]; simpa using hr) ho).1,
            ?_⟩)
          cases hl2 : lastCopyRet evs with
          | none => exact ⟨r, by rw [lastCopyRet_append_none _ _ hl2]; exact hlast, hr⟩
          | some r2 =>
            refine ⟨r2, lastCopyRet_append_some _ _ r2 hl2, ?_⟩
            intro h2
            exact ho.2 (by rw [hl2, h2])
    · simp only [Option.some.injEq] at h
      refine ⟨(.copyCall s.upd.NrOfBlocks c.FLA_UPGRADEADDRESS c.FLA_MAINADDRESS ::
          l ++ [.copyRet r]) ++ [.setStatus .pApplication .fCORRUPT,
            .setVersion .pApplication 0, .led .BLINKING 255 0 0], ?_, Or.inr (Or.inr ⟨?_, r, ?_, hr⟩)⟩
      · rw [← h, markCorrupt_log, hl]
        simp only [List.append_assoc]
      · intro e he
        rcases List.mem_append.mp he with h2 | h2
        · exact copy_piece_notToken _ _ _ _ l hloop e h2
        · exact markCorrupt_events_notToken e h2
      · rw [lastCopyRet_append_none _ _ markCorrupt_events_last]
        exact copy_piece_last _ _ _ _ _

theorem backupStep_error_shape {c : Cfg} {env : Env} {fuel : Nat} {s t : State} {r : Nat}
    (h : backupStep c env fuel s = some (r, t)) (hr : r ≠ 1) :
    ∃ pre, t.log = s.log ++ pre ∧ (∀ e ∈ pre, Event.notToken e = true) ∧
      lastCopyRet pre = some r := by
  unfold backupStep at h
  split_ifs at h with h1 h2
  · split at h
    · exact absurd h (by simp)
    · rename_i r1 s1 hc
      obtain ⟨l, hl, hloop⟩ := WRK_HandleCopyBlocks_log hc
      split_ifs at h with h3
      · simp only [Option.some.injEq, Prod.mk.injEq] at h
        exact absurd (h.1.symm.trans h3) hr
      · simp only [Option.some.injEq, Prod.mk.injEq] at h
        obtain ⟨h4, h5⟩ := h
        subst h4
        refine ⟨([.wordRead (env.mainWord s.nWord), .setStatus .pRollBack .fUPDATING] ++
          (.copyCall (c.FLA_LENGTH / c.FLA_BLOCKSIZE) c.FLA_MAINADDRESS c.FLA_ROLLBACKADDRESS ::
            l ++ [.copyRet r1])) ++ [.setStatus .pRollBack .fCORRUPT, .setVersion .pRollBack 0,
            .led .BLINKING 255 0 0], ?_, ?_, ?_⟩
        · rw [← h5]
          simp only [ledFault, FLA_SetVersion, FLA_SetStatus, State.emit, hl, readMainWord,
            List.append_assoc]
          simp
        · intro e he
          rcases List.mem_append.mp he with h2 | h2
          · rcases List.mem_append.mp h2 with h3 | h3
            · exact backupHead_events_notToken _ e h3
            · exact copy_piece_notToken _ _ _ _ l hloop e h3
          · exact backupFault_events_notToken e h2
        · rw [lastCopyRet_append_none _ _ backupFault_events_last]
          exact lastCopyRet_append_some _ _ r1 (copy_piece_last _ _ _ _ _)
  · simp only [Option.some.injEq, Prod.mk.injEq] at h
    exact absurd h.1.symm hr
  · simp only [Option.some.injEq, Prod.mk.injEq] at h
    exact absurd h.1.symm hr

theorem logExt_mute_backupFailed (s : State) : LogExt Event.isMute s (backupFailed s) := by
  simp only [backupFailed]
  split_ifs
  · exact logExt_of_list [.report .MTypeGetBootloaderStatus .MStatCreateRollBackError s.Progress,
      .setStatus .pApplication .fVALID]
      (by simp [sendReport, FLA_SetStatus, State.emit])
      (by simp [Event.isMute, Event.isToken, Event.isCopyCall, Event.isCopyRet])
  · exact logExt_of_list [.report .MTypeGetBootloaderStatus .MStatCreateRollBackError s.Progress]
      (by simp [sendReport, State.emit])
      (by simp [Event.isMute, Event.isToken, Event.isCopyCall, Event.isCopyRet])

theorem FLA_HandleUpdating_tokens {c : Cfg} {env : Env} {fuel : Nat} {s s' : State}
    (h : FLA_HandleUpdating c env fuel s = some s') :
    ∃ evs, s'.log = s.log ++ evs ∧
      (TokenRun c .updateReady evs ∨ TokenRun c .restoreReady evs ∨ SilentRun evs) := by
  unfold FLA_HandleUpdating at h
  split_ifs at h with h1
  · simp only [Option.some.injEq] at h
    have h2 : LogExt Event.isMute s (abortAndStart env (ledFault s)) :=
      logExt_trans (logExt_emit Event.isMute s (.led .BLINKING 255 0 0) rfl)
        (logExt_mute_abortAndStart env _)
    obtain ⟨evs, he, hm⟩ := h2
    exact ⟨evs, by rw [← h]; exact he, Or.inr (Or.inr (silentRun_of_mute hm))⟩
  · split at h
    · exact absurd h (by simp)
    · rename_i r t hb
      have hentry : ∀ e ∈ [.report .MTypeGetBootloaderStatus .MStatNone s.Progress,
          .led .SWITCHEDON 0 0 255, .ledHandle], Event.notToken e = true := by
        simp [Event.notToken, Event.isToken]
      split_ifs at h with hr
      · obtain ⟨pre, hpre, hcls⟩ := logExt_backupStep hb
        obtain ⟨evs, he, ho⟩ := installStep_tokens h
        have hall : ∀ e ∈ [.report .MTypeGetBootloaderStatus .MStatNone s.Progress,
            .led .SWITCHEDON 0 0 255, .ledHandle] ++ pre, Event.notToken e = true := by
          intro e he
          rcases List.mem_append.mp he with h2 | h2
          · exact hentry e h2
          · exact notToken_of_backup e (hcls e h2)
        refine ⟨([.report .MTypeGetBootloaderStatus .MStatNone s.Progress,
            .led .SWITCHEDON 0 0 255, .ledHandle] ++ pre) ++ evs, ?_, ?_⟩
        · rw [he, hpre, updatingEntry_log]
          simp only [List.append_assoc]
        · rcases ho with ho | ho | ⟨ho1, r2, ho2, ho3⟩
          · exact Or.inl (tokenRun_append hall ho)
          · exact Or.inr (Or.inl (tokenRun_append hall ho))
          · refine Or.inr (Or.inr ⟨?_, ?_⟩)
            · intro e he
              rcases List.mem_append.mp he with h2 | h2
              · exact hall e h2
              · exact ho1 e h2
            · rw [lastCopyRet_append_some _ _ r2 ho2]
              simpa using ho3
      · simp only [Option.some.injEq] at h
        obtain ⟨pre, hpre, hnt, hlast⟩ := backupStep_error_shape hb hr
        obtain ⟨l2, hl2, hm2⟩ := logExt_trans (logExt_mute_backupFailed t)
          (logExt_mono (logExt_start env _) mute_of_start)
        refine ⟨([.report .MTypeGetBootloaderStatus .MStatNone s.Progress,
            .led .SWITCHEDON 0 0 255, .ledHandle] ++ pre) ++ l2, ?_, Or.inr (Or.inr ⟨?_, ?_⟩)⟩
        · rw [← h, hl2, hpre, updatingEntry_log]
          simp only [List.append_assoc]
        · intro e he
          rcases List.mem_append.mp he with h2 | h2
          · rcases List.mem_append.mp h2 with h3 | h3
            · exact hentry e h3
            · exact hnt e h3
          · exact mute_notToken e (hm2 e h2)
        · rw [lastCopyRet_append_none _ _
            (lastCopyRet_of_mute l2 (fun e he => mute_no_copyRet e (hm2 e he))),
            lastCopyRet_append_some _ _ r hlast]
          simpa using hr

theorem FLA_HandleUpdated_tokens {c : Cfg} {env : Env} {fuel : Nat} {s s' : State}
    (h : FLA_HandleUpdated c env fuel s = some s') : LogExt Event.notToken s s' := by
  unfold FLA_HandleUpdated at h
  have hmark : ∀ t, LogExt Event.notToken t (markCorrupt t) := fun t =>
    logExt_of_list _ (markCorrupt_log t) (by simp [Event.notToken, Event.isToken])
  split_ifs at h with h1
  · split at h
    · exact absurd h (by simp)
    · rename_i r s1 hc
      have h0 : LogExt Event.notToken s ((s.emit (.led .SWITCHEDON 255 0 0)).emit .ledHandle) :=
        logExt_trans (logExt_emit _ s (.led .SWITCHEDON 255 0 0) rfl)
          (logExt_emit _ _ .ledHandle rfl)
      have h2 := logExt_trans h0 (logExt_mono (logExt_copy hc) notToken_of_copy)
      split_ifs at h
      · simp only [Option.some.injEq] at h
        rw [← h]
        exact logExt_trans h2 (logExt_trans
          (logExt_of_list _ (updatedDone_log s1) (by simp [Event.notToken, Event.isToken]))
          (logExt_mono (logExt_start env _) (fun e he => mute_notToken e (mute_of_start e he))))
      · simp only [Option.some.injEq] at h
        rw [← h]
        exact logExt_trans h2 (hmark s1)
  · simp only [Option.some.injEq] at h
    rw [← h]
    exact hmark s

/-! ## The token in the runs of the dispatcher -/

theorem token_facts_of_tokenRun {c : Cfg} {tk : Token} {evs : List Event}
    (h : TokenRun c tk evs) :
    (evs.filter Event.isToken).length = 1 ∧ lastCopyRet evs = some 1 ∧
    ∀ pre tk' post, evs = pre ++ .token tk' :: post →
      tk' = tk ∧ ∃ a n l b,
        pre = a ++ (.copyCall n (tokenSrc c tk') c.FLA_MAINADDRESS :: l ++ .copyRet 1 :: b) ∧
        (∀ e ∈ l, Event.isLoopEvent e = true) ∧ (∀ e ∈ b, Event.isMute e = true) :=
  ⟨by rw [(tokenRun_count h).1]; rfl, (tokenRun_count h).2,
    fun pre tk' post hs => tokenRun_split h pre post tk' hs⟩

theorem token_facts_of_notToken {evs : List Event} (h : ∀ e ∈ evs, Event.notToken e = true) :
    (evs.filter Event.isToken).length = 0 ∧
    ∀ pre tk' post, evs = pre ++ Event.token tk' :: post → False := by
  refine ⟨?_, ?_⟩
  · rw [filter_nil_of_class h (by intro e he; simpa [Event.notToken] using he)]; rfl
  · intro pre tk' post hs
    have := h (.token tk') (by rw [hs]; simp)
    simp [Event.notToken, Event.isToken] at this

/-- The report at the start of `WRK_Handle` in front of the log of a
handler. -/
theorem dispatcher_head (s : State) :
    (sendReport .MTypeGetBootloaderStatus .MStatNone (s.setBootloaderStatus .sACTIVE)).log =
      s.log ++ [.report .MTypeGetBootloaderStatus .MStatNone s.Progress] := by
  simp [sendReport, State.setBootloaderStatus, State.emit]

theorem dispatcher_head_notToken (p : Nat) :
    ∀ e ∈ ([.report .MTypeGetBootloaderStatus .MStatNone p] : List Event),
      Event.notToken e = true := by
  simp [Event.notToken, Event.isToken]

/-- The token in the runs of `WRK_Handle`, by the Application status at
entry. -/
theorem WRK_Handle_tokens {c : Cfg} {env : Env} {fuel : Nat} {s s' : State}
    (h : WRK_Handle c env fuel s = some s') :
    ∃ evs, s'.log = s.log ++ evs ∧
      ((s.app.Status = .fUPDATING ∧ (TokenRun c .updateReady evs ∨ TokenRun c .restoreReady evs)) ∨
       (s.app.Status = .fROLLBACK ∧ TokenRun c .restoreReady evs) ∨
       ((s.app.Status = .fUPDATING ∨ s.app.Status = .fROLLBACK) ∧ SilentRun evs) ∨
       (s.app.Status ≠ .fUPDATING ∧ s.app.Status ≠ .fROLLBACK ∧
         ∀ e ∈ evs, Event.notToken e = true)) := by
  have hp := dispatcher_head s
  have hpn := dispatcher_head_notToken s.Progress
  have hst : (sendReport .MTypeGetBootloaderStatus .MStatNone
      (s.setBootloaderStatus .sACTIVE)).app.Status = s.app.Status := by
    simp [sendReport, State.setBootloaderStatus, State.emit]
  have quiet : ∀ t : State, LogExt Event.notToken
      (sendReport .MTypeGetBootloaderStatus .MStatNone (s.setBootloaderStatus .sACTIVE)) t →
      ∃ evs, t.log = s.log ++ evs ∧ ∀ e ∈ evs, Event.notToken e = true := by
    intro t ht
    obtain ⟨evs, he, hn⟩ := ht
    refine ⟨[.report .MTypeGetBootloaderStatus .MStatNone s.Progress] ++ evs,
      by rw [he, hp, List.append_assoc], ?_⟩
    intro e he
    rcases List.mem_append.mp he with h2 | h2
    · exact hpn e h2
    · exact hn e h2
  have hstart : ∀ t : State, LogExt Event.notToken t (WRK_StartApplication env t) := fun t =>
    logExt_mono (logExt_start env t) (fun e he => mute_notToken e (mute_of_start e he))
  unfold WRK_Handle at h
  simp only at h
  split at h
  · rename_i hs
    rw [hst] at hs
    simp only [Option.some.injEq] at h
    obtain ⟨evs, he, hn⟩ := quiet s' (by
      rw [← h]; exact logExt_emit _ _ (.led .BLINKING 255 0 0) rfl)
    exact ⟨evs, he, Or.inr (Or.inr (Or.inr ⟨by rw [hs]; decide, by rw [hs]; decide, hn⟩))⟩
  · rename_i hs
    rw [hst] at hs
    obtain ⟨evs, he, ho⟩ := FLA_HandleUpdating_tokens h
    refine ⟨[.report .MTypeGetBootloaderStatus .MStatNone s.Progress] ++ evs,
      by rw [he, hp, List.append_assoc], ?_⟩
    rcases ho with ho | ho | ho
    · exact Or.inl ⟨hs, Or.inl (tokenRun_append hpn ho)⟩
    · exact Or.inl ⟨hs, Or.inr (tokenRun_append hpn ho)⟩
    · exact Or.inr (Or.inr (Or.inl ⟨Or.inl hs, silentRun_append hpn (by simp [lastCopyRet]) ho⟩))
  · rename_i hs
    rw [hst] at hs
    obtain ⟨evs, he, ho⟩ := FLA_HandleRollBack_tokens h
    refine ⟨[.report .MTypeGetBootloaderStatus .MStatNone s.Progress] ++ evs,
      by rw [he, hp, List.append_assoc], ?_⟩
    rcases ho with ho | ho
    · exact Or.inr (Or.inl ⟨hs, tokenRun_append hpn ho⟩)
    · exact Or.inr (Or.inr (Or.inl ⟨Or.inr hs, silentRun_append hpn (by simp [lastCopyRet]) ho⟩))
  · rename_i hs
    rw [hst] at hs
    obtain ⟨evs, he, hn⟩ := quiet s' (FLA_HandleUpdated_tokens h)
    exact ⟨evs, he, Or.inr (Or.inr (Or.inr ⟨by rw [hs]; decide, by rw [hs]; decide, hn⟩))⟩
  · rename_i hs
    rw [hst] at hs
    simp only [Option.some.injEq] at h
    obtain ⟨evs, he, hn⟩ := quiet s' (by rw [← h]; exact hstart _)
    exact ⟨evs, he, Or.inr (Or.inr (Or.inr ⟨by rw [hs]; decide, by rw [hs]; decide, hn⟩))⟩
  · rename_i hs
    rw [hst] at hs
    simp only [Option.some.injEq] at h
    obtain ⟨evs, he, hn⟩ := quiet s' (by rw [← h]; exact hstart _)
    exact ⟨evs, he, Or.inr (Or.inr (Or.inr ⟨by rw [hs]; decide, by rw [hs]; decide, hn⟩))⟩
  · rename_i hs
    rw [hst] at hs
    simp only [Option.some.injEq] at h
    obtain ⟨evs, he, hn⟩ := quiet s' (by
      rw [← h]; exact logExt_emit _ _ (.led .BLINKING 255 0 0) rfl)
    exact ⟨evs, he, Or.inr (Or.inr (Or.inr ⟨by rw [hs]; decide, by rw [hs]; decide, hn⟩))⟩

/-- C15: in every run of `WRK_Handle` that returns or jumps, whatever the
partition table and the driver do, the log holds at most one token.  A token
is only sent by a run that entered the Updating or the RollBack handler, and
the log before it ends with a call of `WRK_HandleCopyBlocks` with destination
`FLA_MAINADDRESS` that returned 1, followed by events that are neither a
token nor a call or return of the copy engine; the source of that copy is
`FLA_UPGRADEADDRESS` for the token of the install step and
`FLA_ROLLBACKADDRESS` for the token of the RollBack handler, which is the only
token a run entered with status RollBack can send.  When the run entered the
Updating or the RollBack handler and the last copy that returned, returned 1
(after a backup that returned 1 the install copy always follows, so this is
the install copy or the copy of the RollBack handler), the token is sent
exactly once; and whenever a token is sent the last copy returned 1. -/
theorem C15_token_once (c : Cfg) (env : Env) (fuel : Nat) (s s' : State)
    (h : WRK_Handle c env fuel s = some s') :
    ∃ evs, s'.log = s.log ++ evs ∧
      (evs.filter Event.isToken).length ≤ 1 ∧
      (∀ pre tk post, evs = pre ++ .token tk :: post →
        (s.app.Status = .fUPDATING ∨ (s.app.Status = .fROLLBACK ∧ tk = .restoreReady)) ∧
        ∃ a n l b,
          pre = a ++ (.copyCall n (tokenSrc c tk) c.FLA_MAINADDRESS :: l ++ .copyRet 1 :: b) ∧
          (∀ e ∈ l, Event.isLoopEvent e = true) ∧ (∀ e ∈ b, Event.isMute e = true)) ∧
      ((s.app.Status = .fUPDATING ∨ s.app.Status = .fROLLBACK) → lastCopyRet evs = some 1 →
        (evs.filter Event.isToken).length = 1) ∧
      ((evs.filter Event.isToken).length = 1 → lastCopyRet evs = some 1) := by
  obtain ⟨evs, he, ho⟩ := WRK_Handle_tokens h
  refine ⟨evs, he, ?_⟩
  rcases ho with ⟨hs, ho | ho⟩ | ⟨hs, ho⟩ | ⟨hs, ho⟩ | ⟨hs1, hs2, ho⟩
  · obtain ⟨f1, f2, f3⟩ := token_facts_of_tokenRun ho
    exact ⟨by omega, fun pre tk post hsp => ⟨Or.inl hs, (f3 pre tk post hsp).2⟩,
      fun _ _ => f1, fun _ => f2⟩
  · obtain ⟨f1, f2, f3⟩ := token_facts_of_tokenRun ho
    exact ⟨by omega, fun pre tk post hsp => ⟨Or.inl hs, (f3 pre tk post hsp).2⟩,
      fun _ _ => f1, fun _ => f2⟩
  · obtain ⟨f1, f2, f3⟩ := token_facts_of_tokenRun ho
    exact ⟨by omega, fun pre tk post hsp =>
      ⟨Or.inr ⟨hs, (f3 pre tk post hsp).1⟩, (f3 pre tk post hsp).2⟩,
      fun _ _ => f1, fun _ => f2⟩
  · obtain ⟨f1, f3⟩ := token_facts_of_notToken ho.1
    exact ⟨by omega, fun pre tk post hsp => (f3 pre tk post hsp).elim,
      fun _ hl => absurd hl ho.2, fun h1 => by omega⟩
  · obtain ⟨f1, f3⟩ := token_facts_of_notToken ho
    exact ⟨by omega, fun pre tk post hsp => (f3 pre tk post hsp).elim,
      fun hs _ => by rcases hs with hs | hs; exact absurd hs hs1; exact absurd hs hs2,
      fun h1 => by omega⟩

/-- C15 at a concrete input: a restore of a RollBack image of 2 blocks on
`cfg16` with a driver that never fails, entered through the dispatcher.  The
run sends exactly one token, and the last copy returned 1. -/
theorem C15_token_once_witness :
    ∃ s' evs, WRK_Handle cfg16 envAllOk 2 rollBackState = some s' ∧
      s'.log = rollBackState.log ++ evs ∧
      (evs.filter Event.isToken).length = 1 ∧ lastCopyRet evs = some 1 := by
  have h1 : (WRK_Handle cfg16 envAllOk 2 rollBackState).isSome = true := by decide
  have h2 : (WRK_Handle cfg16 envAllOk 2 rollBackState).map
      (fun t => (t.log.filter Event.isToken).length) = some 1 := by decide
  obtain ⟨s1, e1⟩ := Option.isSome_iff_exists.mp h1
  obtain ⟨evs, he, _, _, _, h5⟩ := C15_token_once cfg16 envAllOk 2 rollBackState s1 e1
  rw [e1] at h2
  simp only [Option.map_some', Option.some.injEq] at h2
  have hlog : s1.log = evs := by rw [he]; rfl
  rw [hlog] at h2
  exact ⟨s1, evs, e1, he, h2, h5 h2⟩

end NLC
